import Mathlib

/-!
# Cinder-Audio2: node graph and context lifecycle

A shallow embedding of `src/audio2/Context.cpp` and `src/audio2/GeneratorNode.cpp`, and of the
node kinds of `src/audio2/TapNode.cpp`, `src/audio2/msw/ContextXAudio.cpp`,
`src/cinder/audio2/NodeOutput.cpp`, `src/cinder/audio2/Gen.cpp` and
`src/cinder/audio2/msw/ContextWasapi.cpp`, of the file reader of `src/cinder/audio2/File.cpp`
and of the wave format of `src/audio2/msw/util.cpp`.

Nodes live in an arena indexed by handles; a C++ `NodeRef` (a `shared_ptr<Node>`) is a
handle, and a possibly empty `NodeRef` is an `Option` of a handle.  Member functions
take the arena and the handle of `this` and return the new arena, or the way in which
the call did not return normally.

Samples are 32-bit floats in the source.  The embedding computes with exact arithmetic: the
definitions are written over a field `K`, with the functions `sin`, `cos`, `sqrt` and the
constant `pi` as arguments, and the theorems on them are stated over any field or over the real
numbers.
-/

set_option autoImplicit false

namespace audio2

/-- Handle of a node in the arena. -/
abbrev NodeId := Nat

/-- Ways in which a call does not return normally. -/
inductive Exc where
  /-- The statement `throw AudioExc( ... )`. -/
  | audioExc
  /-- A violated `CI_ASSERT` (which is `BOOST_ASSERT`, active in a debug build). -/
  | assertFailed
  /-- An element access of a `std::vector` at an index that is not below its size. -/
  | outOfBounds
  /-- The recursion budget of the embedding ran out. -/
  | outOfFuel
  /-- A member call through a `NodeRef` that is null. -/
  | nullDeref
deriving DecidableEq, Repr

/-- Modelled from the spec: `Node::Format` is declared in `audio2/Context.h`, which is not
among the sources.  It holds the channel count (0 while unresolved), the flag asking for the
channel count to be inferred from neighbours, and the auto-enable flag. -/
structure Format where
  mNumChannels : Nat
  mWantsDefaultFormatFromParent : Bool
  mAutoEnabled : Bool
deriving DecidableEq, Repr

/-- Modelled from the spec: `Format::Format()` (in the absent `Context.h`) leaves the channel
count unresolved and both flags off. -/
def Format.ctor : Format :=
  { mNumChannels := 0, mWantsDefaultFormatFromParent := false, mAutoEnabled := false }

/-- The getter `Format::getNumChannels`. -/
def Format.getNumChannels (f : Format) : Nat := f.mNumChannels

/-- The setter `Format::setNumChannels`. -/
def Format.setNumChannels (f : Format) (n : Nat) : Format := { f with mNumChannels := n }

/-- The setter `Format::setWantsDefaultFormatFromParent`. -/
def Format.setWantsDefaultFormatFromParent (f : Format) : Format :=
  { f with mWantsDefaultFormatFromParent := true }

/-- Modelled from the spec: `Format::isComplete` (in the absent `Context.h`); a format is
complete when its channel count is resolved. -/
def Format.isComplete (f : Format) : Bool := f.mNumChannels != 0

/-- The getter `Format::isAutoEnabled`. -/
def Format.isAutoEnabled (f : Format) : Bool := f.mAutoEnabled

/-- The data members of `Node` that `Context.cpp` reads and writes. -/
structure Node where
  mSources : List (Option NodeId)
  mParent : Option NodeId
  mFormat : Format
  mInitialized : Bool
  mEnabled : Bool
deriving DecidableEq, Repr

/-- The constructor `Node::Node()`: not initialized, not enabled, one empty source slot. -/
def Node.ctor : Node :=
  { mSources := [none], mParent := none, mFormat := Format.ctor,
    mInitialized := false, mEnabled := false }

/-- The constructor `GeneratorNode::GeneratorNode()`: `Node()`, then the sources are cleared and
the format asks for its default from the parent. -/
def GeneratorNode.ctor : Node :=
  { Node.ctor with
    mSources := [],
    mFormat := Node.ctor.mFormat.setWantsDefaultFormatFromParent }

/-- The arena of nodes. -/
abbrev Graph := NodeId → Node

/-- Overwrite the node stored under handle `i`. -/
def Graph.put (g : Graph) (i : NodeId) (n : Node) : Graph :=
  fun j => if j = i then n else g j

/-- Modelled from the spec: `Node::setParent` (in the absent `Context.h`) stores the parent
back-reference. -/
def Node.setParent (g : Graph) (self parent : NodeId) : Graph :=
  g.put self { g self with mParent := some parent }

/-- The getter `Node::getParent`. -/
def Node.getParent (g : Graph) (self : NodeId) : Option NodeId := (g self).mParent

/-- The member `Node::setSource( NodeRef source, size_t bus )`.  The guard rejects `bus > size`;
`mSources[bus] = source` is then an access of the vector at `bus`, in bounds only when
`bus < size`.  The argument `source` is a non-empty `NodeRef`. -/
def Node.setSource (g : Graph) (self source : NodeId) (bus : Nat) : Except Exc Graph :=
  if bus > (g self).mSources.length then
    .error .audioExc
  else if bus < (g self).mSources.length then
    let g1 := g.put self { g self with mSources := (g self).mSources.set bus (some source) }
    .ok (Node.setParent g1 source self)
  else
    .error .outOfBounds

/-- The loop of `MixerNode::setSource` over the slots, followed by the `push_back`: the first
empty slot takes the source; when every slot is full the source is appended. -/
def MixerNode.place (source : NodeId) : List (Option NodeId) → List (Option NodeId)
  | [] => [some source]
  | none :: rest => some source :: rest
  | some s :: rest => some s :: MixerNode.place source rest

/-- The member `MixerNode::setSource( NodeRef source )`: the parent of the source is set first,
then the source is placed. -/
def MixerNode.setSource (g : Graph) (self source : NodeId) : Graph :=
  let g1 := Node.setParent g source self
  g1.put self { g1 self with mSources := MixerNode.place source (g1 self).mSources }

/-- The member `Node::setSource( NodeRef source )`. -/
def Node.setSource0 (g : Graph) (self source : NodeId) : Except Exc Graph :=
  Node.setSource g self source 0

/-- The member `Node::connect( NodeRef dest, size_t bus )`; the result carries the returned
`dest`.  The call `dest->setSource( source, bus )` runs `Node::setSource`: no class of
`Context.cpp` overrides the member with two arguments. -/
def Node.connect (g : Graph) (self dest : NodeId) (bus : Nat) : Except Exc (Graph × NodeId) :=
  match Node.setSource g dest self bus with
  | .ok g1 => .ok (g1, dest)
  | .error e => .error e

/-- The call `self->setSource( source )` through a `NodeRef`, which runs the member of the
dynamic type of `self`: `selfIsMixer` tells whether `self` is a `MixerNode`, the one class of
`Context.cpp` that overrides the member, and then `MixerNode::setSource` runs; on any other
node `Node::setSource( NodeRef source )` runs. -/
def Node.setSourceCall (selfIsMixer : Bool) (g : Graph) (self source : NodeId) :
    Except Exc Graph :=
  if selfIsMixer then
    .ok (MixerNode.setSource g self source)
  else
    Node.setSource0 g self source

/-- The member `Node::connect( NodeRef dest )`: `dest->setSource( shared_from_this() )`, then
`return dest`; `destIsMixer` tells whether `dest` is a `MixerNode`. -/
def Node.connect0 (destIsMixer : Bool) (g : Graph) (self dest : NodeId) :
    Except Exc (Graph × NodeId) :=
  match Node.setSourceCall destIsMixer g dest self with
  | .ok g1 => .ok (g1, dest)
  | .error e => .error e

/-- The member `Node::supportsSourceFormat`. -/
def Node.supportsSourceFormat (g : Graph) (self : NodeId) (sourceFormat : Format) : Bool :=
  (g self).mFormat.getNumChannels == sourceFormat.getNumChannels

/-- A three-node arena: node 0 is a fresh `Node()`, node 1 a 1-channel node, node 2 a
2-channel node whose single slot holds node 0; every other handle is a fresh `Node()`. -/
def exGraph : Graph := fun i =>
  match i with
  | 1 => { Node.ctor with mFormat := Format.ctor.setNumChannels 1 }
  | 2 => { Node.ctor with mSources := [some 0], mFormat := Format.ctor.setNumChannels 2 }
  | _ => Node.ctor

/-- An arena in which every handle is a fresh generator node. -/
def exGenerators : Graph := fun _ => GeneratorNode.ctor

/-- The member `Node::fillFormatParamsFromFormat`: an unresolved channel count is taken from
`otherFormat`. -/
def Node.fillFormatParamsFromFormat (g : Graph) (self : NodeId) (otherFormat : Format) : Graph :=
  if (g self).mFormat.getNumChannels = 0 then
    g.put self
      { g self with mFormat := (g self).mFormat.setNumChannels otherFormat.getNumChannels }
  else
    g

/-- The loop `while( parent ) { ... }` of `Node::fillFormatParamsFromParent`, started at
`parent`; each iteration spends one unit of `fuel`. -/
def Node.parentLoop (self : NodeId) : Nat → Option NodeId → Graph → Except Exc Graph
  | _, none, g => .ok g
  | 0, some _, _ => .error .outOfFuel
  | fuel + 1, some parent, g =>
    let g1 := Node.fillFormatParamsFromFormat g self (g parent).mFormat
    if (g1 self).mFormat.isComplete then
      .ok g1
    else
      Node.parentLoop self fuel (Node.getParent g1 parent) g1

/-- The member `Node::fillFormatParamsFromParent`: `CI_ASSERT( parent )`, the loop, then
`CI_ASSERT( mFormat.isComplete() )`. -/
def Node.fillFormatParamsFromParent (fuel : Nat) (g : Graph) (self : NodeId) :
    Except Exc Graph :=
  match Node.getParent g self with
  | none => .error .assertFailed
  | some parent =>
    match Node.parentLoop self fuel (some parent) g with
    | .ok g1 => if (g1 self).mFormat.isComplete then .ok g1 else .error .assertFailed
    | .error e => .error e

/-- The member `Node::fillFormatParamsFromSource`: `CI_ASSERT( ! mSources.empty() && mSources[0] )`,
one `fillFormatParamsFromFormat` with the format of `mSources[0]`, then
`CI_ASSERT( mFormat.isComplete() )`. -/
def Node.fillFormatParamsFromSource (g : Graph) (self : NodeId) : Except Exc Graph :=
  match (g self).mSources with
  | some firstSource :: _ =>
    let g1 := Node.fillFormatParamsFromFormat g self (g firstSource).mFormat
    if (g1 self).mFormat.isComplete then .ok g1 else .error .assertFailed
  | _ => .error .assertFailed

/-- The node reached from `n` by `k` parent hops, when the parent chain is that long
(`ancestor g n 0` is `n` itself; the ancestors proper are those with `1 ≤ k`). -/
def ancestor (g : Graph) (n : NodeId) : Nat → Option NodeId
  | 0 => some n
  | k + 1 =>
    match (g n).mParent with
    | none => none
    | some p => ancestor g p k

/-- The node reached from `n` by `k` first-source hops (bus 0), when the chain is that long. -/
def firstSourceChain (g : Graph) (n : NodeId) : Nat → Option NodeId
  | 0 => some n
  | k + 1 =>
    match (g n).mSources with
    | some s :: _ => firstSourceChain g s k
    | _ => none

/-- The chain `0 → 1 → 2` (node 0 is the source of node 1, node 1 the source of node 2) in
which only the consumer at the end, node 2, has a resolved channel count (2 channels). -/
def exParentChain : Graph := fun i =>
  match i with
  | 0 => { GeneratorNode.ctor with mParent := some 1 }
  | 1 => { Node.ctor with mSources := [some 0], mParent := some 2 }
  | 2 => { Node.ctor with mSources := [some 1], mFormat := Format.ctor.setNumChannels 2 }
  | _ => Node.ctor

/-- The chain `0 → 1 → 2` (node 0 is the source of node 1, node 1 the source of node 2) in
which only the farthest source, node 0, has a resolved channel count (2 channels). -/
def exSourceChain : Graph := fun i =>
  match i with
  | 0 => { GeneratorNode.ctor with
           mParent := some 1, mFormat := GeneratorNode.ctor.mFormat.setNumChannels 2 }
  | 1 => { Node.ctor with mSources := [some 0], mParent := some 2 }
  | 2 => { Node.ctor with mSources := [some 1] }
  | _ => Node.ctor

/-- Virtual calls made by the context, in the order in which they are made. -/
inductive Call where
  /-- The call `node->start()` on the node with this handle. -/
  | nodeStart (id : NodeId)
  /-- The call `node->stop()` on the node with this handle. -/
  | nodeStop (id : NodeId)
  /-- The call `createOutput()`. -/
  | createOutput
deriving DecidableEq, Repr

/-- The data members of `Context` that `Context.cpp` reads and writes, together with the arena
of nodes (`numNodes` is the next free handle) and the record of the virtual calls made so far. -/
structure Context where
  nodes : Graph
  numNodes : Nat
  mRoot : Option NodeId
  mEnabled : Bool
  mInitialized : Bool
  calls : List Call

/-- Modelled from the spec: the virtual `Node::start` (declared in the absent `Context.h`)
sets the `enabled` flag of the node; the call is recorded. -/
def Context.nodeStart (c : Context) (id : NodeId) : Context :=
  { c with
    nodes := c.nodes.put id { c.nodes id with mEnabled := true },
    calls := c.calls ++ [Call.nodeStart id] }

/-- Modelled from the spec: the virtual `Node::stop` (declared in the absent `Context.h`)
clears the `enabled` flag of the node; the call is recorded. -/
def Context.nodeStop (c : Context) (id : NodeId) : Context :=
  { c with
    nodes := c.nodes.put id { c.nodes id with mEnabled := false },
    calls := c.calls ++ [Call.nodeStop id] }

/-- The loop `for( auto& source : node->getSources() ) f( source );` over the slots of a node,
in bus order. -/
def Context.forEachSource (f : Option NodeId → Context → Except Exc Context) :
    List (Option NodeId) → Context → Except Exc Context
  | [], c => .ok c
  | source :: rest, c =>
    match f source c with
    | .ok c1 => Context.forEachSource f rest c1
    | .error e => .error e

/-- The member `Context::start( NodeRef node )`; each level of the recursion spends one unit of
`fuel`. -/
def Context.startNode : Nat → Option NodeId → Context → Except Exc Context
  | _, none, c => .ok c
  | 0, some _, _ => .error .outOfFuel
  | fuel + 1, some node, c =>
    match Context.forEachSource (Context.startNode fuel) (c.nodes node).mSources c with
    | .ok c1 =>
      if (c1.nodes node).mFormat.isAutoEnabled then .ok (c1.nodeStart node) else .ok c1
    | .error e => .error e

/-- The member `Context::stop( NodeRef node )`; each level of the recursion spends one unit of
`fuel`. -/
def Context.stopNode : Nat → Option NodeId → Context → Except Exc Context
  | _, none, c => .ok c
  | 0, some _, _ => .error .outOfFuel
  | fuel + 1, some node, c =>
    match Context.forEachSource (Context.stopNode fuel) (c.nodes node).mSources c with
    | .ok c1 =>
      if (c1.nodes node).mFormat.isAutoEnabled then .ok (c1.nodeStop node) else .ok c1
    | .error e => .error e

/-- The member `Context::start()`: return if enabled, `CI_ASSERT( mRoot )`, set `mEnabled`,
then `start( mRoot )`. -/
def Context.start (fuel : Nat) (c : Context) : Except Exc Context :=
  if c.mEnabled then
    .ok c
  else
    match c.mRoot with
    | none => .error .assertFailed
    | some root => Context.startNode fuel (some root) { c with mEnabled := true }

/-- The member `Context::stop()`: return if not enabled, clear `mEnabled`, then
`stop( mRoot )`. -/
def Context.stop (fuel : Nat) (c : Context) : Except Exc Context :=
  if !c.mEnabled then
    .ok c
  else
    Context.stopNode fuel c.mRoot { c with mEnabled := false }

/-- Modelled from the spec: the pure virtual `Context::createOutput` (implemented per platform,
not among the sources) constructs the platform output node; here it stores the node `out` under
a fresh handle and returns the handle.  The call is recorded. -/
def Context.createOutput (out : Node) (c : Context) : Context × NodeId :=
  ({ c with
     nodes := c.nodes.put c.numNodes out,
     numNodes := c.numNodes + 1,
     calls := c.calls ++ [Call.createOutput] },
   c.numNodes)

/-- The member `Context::getRoot()`, with the node that `createOutput` would construct. -/
def Context.getRoot (out : Node) (c : Context) : Context × NodeId :=
  match c.mRoot with
  | none =>
    let r := c.createOutput out
    ({ r.1 with mRoot := some r.2 }, r.2)
  | some root => (c, root)

/-- A row of source slots, each with the forest under it: `nil` is the end of the row, `empty`
an empty slot, `node id sources rest` a slot holding node `id` whose own slots are `sources`.
A tree under a root `r` is `node r sources nil`. -/
inductive Forest where
  | nil : Forest
  | empty (rest : Forest) : Forest
  | node (id : NodeId) (sources : Forest) (rest : Forest) : Forest
deriving DecidableEq, Repr

/-- The slots of the row, in bus order. -/
def Forest.slots : Forest → List (Option NodeId)
  | .nil => []
  | .empty rest => none :: rest.slots
  | .node id _ rest => some id :: rest.slots

/-- The post-order listing: the sources of a node, in bus order, before the node itself; empty
slots are skipped. -/
def Forest.postOrder : Forest → List NodeId
  | .nil => []
  | .empty rest => rest.postOrder
  | .node id sources rest => sources.postOrder ++ id :: rest.postOrder

/-- The number of levels of nodes. -/
def Forest.depth : Forest → Nat
  | .nil => 0
  | .empty rest => rest.depth
  | .node _ sources rest => max (sources.depth + 1) rest.depth

/-- The arena holds this forest: every node of the forest has exactly the slots the forest
gives it. -/
def Forest.shape (g : Graph) : Forest → Bool
  | .nil => true
  | .empty rest => rest.shape g
  | .node id sources rest =>
    decide ((g id).mSources = sources.slots) && sources.shape g && rest.shape g

/-- A context that is not enabled and has no root yet, over the arena `exGraph`. -/
def exNoRoot : Context :=
  { nodes := exGraph, numNodes := 3, mRoot := none, mEnabled := false,
    mInitialized := false, calls := [] }

/-- A tree under root 3: the root has the slots `[node 1, empty, node 2]`, node 2 has the slot
`[node 0]`, nodes 0 and 1 are generators.  Nodes 0, 2 and 3 are auto-enabled, node 1 is not. -/
def exTreeGraph : Graph := fun i =>
  match i with
  | 0 => { GeneratorNode.ctor with
           mParent := some 2,
           mFormat := { GeneratorNode.ctor.mFormat with mAutoEnabled := true } }
  | 1 => { GeneratorNode.ctor with mParent := some 3 }
  | 2 => { Node.ctor with
           mSources := [some 0], mParent := some 3,
           mFormat := { Format.ctor with mAutoEnabled := true } }
  | 3 => { Node.ctor with
           mSources := [some 1, none, some 2],
           mFormat := { Format.ctor with mNumChannels := 2, mAutoEnabled := true } }
  | _ => Node.ctor

/-- The forest of `exTreeGraph` under its root. -/
def exTree : Forest :=
  .node 3 (.node 1 .nil (.empty (.node 2 (.node 0 .nil .nil) .nil))) .nil

/-- A context that is not enabled, with root 3 over `exTreeGraph`. -/
def exTreeContext : Context :=
  { nodes := exTreeGraph, numNodes := 4, mRoot := some 3, mEnabled := false,
    mInitialized := false, calls := [] }

/-- What the traversals keep: the slots and the format of every node, and the root, the flags
and the size of the arena of the context. -/
def Context.Frame (c c1 : Context) : Prop :=
  (∀ i, (c1.nodes i).mSources = (c.nodes i).mSources ∧
    (c1.nodes i).mFormat = (c.nodes i).mFormat) ∧
  c1.mRoot = c.mRoot ∧ c1.mEnabled = c.mEnabled ∧ c1.numNodes = c.numNodes ∧
  c1.mInitialized = c.mInitialized

/-- The context `exTreeContext` after it was enabled. -/
def exTreeEnabled : Context :=
  { exTreeContext with mEnabled := true }

/-- The data members of `BufferPlayerNode` that `GeneratorNode.cpp` reads and writes; `mBuffer`
is the `BufferRef`, empty or the channels of the source buffer. -/
structure BufferPlayerNode (K : Type) where
  mInitialized : Bool
  mEnabled : Bool
  mBuffer : Option (List (List K))
  mNumFrames : Nat
  mReadPos : Nat
  mLoop : Bool

/-- The member `BufferPlayerNode::start`: `CI_ASSERT( mBuffer )`, then the read position is
reset and the node enabled. -/
def BufferPlayerNode.start {K : Type} (n : BufferPlayerNode K) :
    Except Exc (BufferPlayerNode K) :=
  match n.mBuffer with
  | none => .error .assertFailed
  | some _ => .ok { n with mReadPos := 0, mEnabled := true }

/-- The member `BufferPlayerNode::stop`. -/
def BufferPlayerNode.stop {K : Type} (n : BufferPlayerNode K) : BufferPlayerNode K :=
  { n with mEnabled := false }

/-- The data members of `SourceVoiceXAudio` that its `start` and `stop` read and write;
`mSourceVoice` tells whether the voice pointer is set, which `initialize()` does and
`uninitialize()` undoes. -/
structure SourceVoiceXAudio where
  mInitialized : Bool
  mEnabled : Bool
  mSourceVoice : Bool

/-- The member `SourceVoiceXAudio::start`: return if enabled, `CI_ASSERT( mSourceVoice )`, set
`mEnabled`, start the voice and submit the next buffer; `submitOk` tells whether
`SubmitSourceBuffer` answers `S_OK`, which `submitNextBuffer` asserts. -/
def SourceVoiceXAudio.start (submitOk : Bool) (n : SourceVoiceXAudio) :
    Except Exc SourceVoiceXAudio :=
  if n.mEnabled then
    .ok n
  else if !n.mSourceVoice then
    .error .assertFailed
  else if submitOk then
    .ok { n with mEnabled := true }
  else
    .error .assertFailed

/-- Modelled from the spec: `dsp::RingBuffer` (`RingBuffer.h` is not among the sources) is a
queue of fixed capacity; `data` holds the samples written and not yet read, oldest first. -/
structure RingBuffer (K : Type) where
  capacity : Nat
  data : List K

/-- Modelled from the spec: the constructor `RingBuffer( count )` gives an empty buffer of
capacity `count`. -/
def RingBuffer.ctor {K : Type} (count : Nat) : RingBuffer K :=
  { capacity := count, data := [] }

/-- Modelled from the spec: `RingBuffer::write` returns false and changes nothing when fewer
than `count` slots are free; otherwise it appends the samples. -/
def RingBuffer.write {K : Type} (rb : RingBuffer K) (samples : List K) :
    RingBuffer K × Bool :=
  if rb.data.length + samples.length ≤ rb.capacity then
    ({ rb with data := rb.data ++ samples }, true)
  else
    (rb, false)

/-- Modelled from the spec: `RingBuffer::read` returns false and consumes nothing when fewer
than `count` samples are available; otherwise it hands out the oldest `count` samples. -/
def RingBuffer.read {K : Type} (rb : RingBuffer K) (count : Nat) :
    RingBuffer K × Option (List K) :=
  if count ≤ rb.data.length then
    ({ rb with data := rb.data.drop count }, some (rb.data.take count))
  else
    (rb, none)

/-- The first `n` entries of a C array holding `xs` (entries past the end of `xs` read 0). -/
def arrayPrefix {K : Type} [Zero K] (xs : List K) (n : Nat) : List K :=
  (List.range n).map (fun i => xs.getD i 0)

/-- The data members of `WasapiAudioClientImpl` used by the render and capture paths. -/
structure WasapiAudioClientImpl (K : Type) where
  mRingBuffer : RingBuffer K
  mNumFramesBuffered : Nat
  mAudioClientNumFrames : Nat
  mNumChannels : Nat

/-- The data members of `LineOutWasapi` used by `start`, `stop` and `renderInputs`:
`framesPerBlock` is `getFramesPerBlock()`, `mNumChannels` the channel count of the node (the
interleaved buffer has `framesPerBlock * mNumChannels` samples), `hasContext` tells whether
`getContext()` is set. -/
structure LineOutWasapi (K : Type) where
  mInitialized : Bool
  mEnabled : Bool
  mNumChannels : Nat
  framesPerBlock : Nat
  hasContext : Bool
  mRenderImpl : WasapiAudioClientImpl K

/-- The member `LineOutWasapi::start`: when not initialized it logs an error and returns;
otherwise it sets `mEnabled` and asserts that the audio client started (`startOk`). -/
def LineOutWasapi.start {K : Type} (startOk : Bool) (n : LineOutWasapi K) :
    Except Exc (LineOutWasapi K) :=
  if !n.mInitialized then
    .ok n
  else if startOk then
    .ok { n with mEnabled := true }
  else
    .error .assertFailed

/-- A buffer player that holds a one-channel buffer of four frames and was not initialized. -/
def exPlayer : BufferPlayerNode ℚ :=
  { mInitialized := false, mEnabled := false, mBuffer := some [[1, 2, 3, 4]],
    mNumFrames := 4, mReadPos := 2, mLoop := false }

/-- A line out that was not initialized, over an audio client of 3 frames with 1 channel. -/
def exLineOut : LineOutWasapi ℚ :=
  { mInitialized := false, mEnabled := false, mNumChannels := 1, framesPerBlock := 2,
    hasContext := true,
    mRenderImpl :=
      { mRingBuffer := RingBuffer.ctor 3, mNumFramesBuffered := 0,
        mAudioClientNumFrames := 3, mNumChannels := 1 } }

/-- A source voice before `initialize()`. -/
def exVoice : SourceVoiceXAudio :=
  { mInitialized := false, mEnabled := false, mSourceVoice := false }

/-- The member `Context::setEnabled`: `start()` or `stop()`. -/
def Context.setEnabled (fuel : Nat) (enabled : Bool) (c : Context) : Except Exc Context :=
  if enabled then c.start fuel else c.stop fuel

/-- Modelled from the spec: `Context::uninitializeAllNodes` (the `Context.cpp` that declares it
is not among the sources) uninitializes every node of the context. -/
def Context.uninitializeAllNodes (c : Context) : Context :=
  { c with
    nodes := fun i => if i < c.numNodes then { c.nodes i with mInitialized := false }
      else c.nodes i }

/-- Modelled from the spec: `Context::initializeAllNodes` (the `Context.cpp` that declares it
is not among the sources) initializes every node of the context. -/
def Context.initializeAllNodes (c : Context) : Context :=
  { c with
    nodes := fun i => if i < c.numNodes then { c.nodes i with mInitialized := true }
      else c.nodes i }

/-- Calls that a `LineOut` makes on its context. -/
inductive ContextCall where
  | stop
  | uninitializeAllNodes
  | initializeAllNodes
  | setEnabled (enabled : Bool)
deriving DecidableEq, Repr

/-- The state of a `LineOut` used by the device-parameter handlers: `self` is the handle of the
node in the arena of its context (its `mEnabled` is the flag of that node), and `contextCalls`
records the calls made on the context, in order. -/
structure LineOut where
  self : NodeId
  mWasEnabledBeforeParamsChange : Bool
  contextCalls : List ContextCall

/-- The member `LineOut::deviceParamsWillChange`. -/
def LineOut.deviceParamsWillChange (fuel : Nat) (lo : LineOut) (c : Context) :
    Except Exc (LineOut × Context) :=
  let was := (c.nodes lo.self).mEnabled
  match c.stop fuel with
  | .error e => .error e
  | .ok c1 =>
    .ok ({ lo with
           mWasEnabledBeforeParamsChange := was,
           contextCalls := lo.contextCalls ++ [.stop, .uninitializeAllNodes] },
         c1.uninitializeAllNodes)

/-- The member `LineOut::deviceParamsDidChange`. -/
def LineOut.deviceParamsDidChange (fuel : Nat) (lo : LineOut) (c : Context) :
    Except Exc (LineOut × Context) :=
  match c.initializeAllNodes.setEnabled fuel lo.mWasEnabledBeforeParamsChange with
  | .error e => .error e
  | .ok c1 =>
    .ok ({ lo with
           contextCalls := lo.contextCalls ++
             [.initializeAllNodes, .setEnabled lo.mWasEnabledBeforeParamsChange] },
         c1)

/-- The two handlers in sequence, as run on a device-parameter change. -/
def LineOut.deviceParamsChange (fuel : Nat) (lo : LineOut) (c : Context) :
    Except Exc (LineOut × Context) :=
  match lo.deviceParamsWillChange fuel c with
  | .error e => .error e
  | .ok r => r.1.deviceParamsDidChange fuel r.2

/-- The line out of `exTreeGraph`: the root, node 3. -/
def exTreeLineOut : LineOut :=
  { self := 3, mWasEnabledBeforeParamsChange := false, contextCalls := [] }

/-- The member `LineOutWasapi::renderInputs`: return when there is no context; otherwise pull
and interleave one block (`pull` gives the content of the interleaved buffer), write its
`framesPerBlock * mNumChannels` samples to the ring buffer, `CI_ASSERT( writeSuccess )`, and
add the frames of the block to `mNumFramesBuffered`. -/
def LineOutWasapi.renderInputs {K : Type} [Zero K] (pull : LineOutWasapi K → List K)
    (lo : LineOutWasapi K) : Except Exc (LineOutWasapi K) :=
  if !lo.hasContext then
    .ok lo
  else
    let samples := arrayPrefix (pull lo) (lo.framesPerBlock * lo.mNumChannels)
    let w := lo.mRenderImpl.mRingBuffer.write samples
    if w.2 then
      .ok { lo with
            mRenderImpl :=
              { lo.mRenderImpl with
                mRingBuffer := w.1,
                mNumFramesBuffered := lo.mRenderImpl.mNumFramesBuffered + lo.framesPerBlock } }
    else
      .error .assertFailed

/-- The loop `while( mNumFramesBuffered < numWriteFramesAvailable ) mLineOut->renderInputs();`
of `WasapiRenderClientImpl::renderAudio`; each iteration spends one unit of `fuel`. -/
def WasapiRenderClientImpl.renderLoop {K : Type} [Zero K] (pull : LineOutWasapi K → List K)
    (numWriteFramesAvailable : Nat) : Nat → LineOutWasapi K → Except Exc (LineOutWasapi K)
  | 0, lo =>
    if lo.mRenderImpl.mNumFramesBuffered < numWriteFramesAvailable then .error .outOfFuel
    else .ok lo
  | fuel + 1, lo =>
    if lo.mRenderImpl.mNumFramesBuffered < numWriteFramesAvailable then
      match lo.renderInputs pull with
      | .ok lo1 => WasapiRenderClientImpl.renderLoop pull numWriteFramesAvailable fuel lo1
      | .error e => .error e
    else
      .ok lo

/-- The member `WasapiRenderClientImpl::renderAudio`, for the padding that the audio client
reports (at most `mAudioClientNumFrames`): render until enough frames are buffered, read
`numWriteFramesAvailable * mNumChannels` samples from the ring buffer into the render buffer,
`CI_ASSERT( readSuccess )`, and subtract the frames from `mNumFramesBuffered`.  The result
carries the samples handed to the render buffer. -/
def WasapiRenderClientImpl.renderAudio {K : Type} [Zero K] (pull : LineOutWasapi K → List K)
    (fuel : Nat) (numFramesPadding : Nat) (lo : LineOutWasapi K) :
    Except Exc (LineOutWasapi K × List K) :=
  let numWriteFramesAvailable := lo.mRenderImpl.mAudioClientNumFrames - numFramesPadding
  match WasapiRenderClientImpl.renderLoop pull numWriteFramesAvailable fuel lo with
  | .error e => .error e
  | .ok lo1 =>
    let r := lo1.mRenderImpl.mRingBuffer.read
      (numWriteFramesAvailable * lo1.mRenderImpl.mNumChannels)
    match r.2 with
    | none => .error .assertFailed
    | some renderBuffer =>
      .ok ({ lo1 with
             mRenderImpl :=
               { lo1.mRenderImpl with
                 mRingBuffer := r.1,
                 mNumFramesBuffered :=
                   lo1.mRenderImpl.mNumFramesBuffered - numWriteFramesAvailable } },
           renderBuffer)

/-- The state after `LineOutWasapi::initialize` on an audio client of `audioClientNumFrames`
frames and `numChannels` channels: `initRenderClient` makes an empty ring buffer of capacity
`audioClientNumFrames * numChannels`, and no frame is buffered. -/
def LineOutWasapi.initial (K : Type) (audioClientNumFrames numChannels framesPerBlock : Nat) :
    LineOutWasapi K :=
  { mInitialized := true, mEnabled := false, mNumChannels := numChannels,
    framesPerBlock := framesPerBlock, hasContext := true,
    mRenderImpl :=
      { mRingBuffer := RingBuffer.ctor (audioClientNumFrames * numChannels),
        mNumFramesBuffered := 0,
        mAudioClientNumFrames := audioClientNumFrames,
        mNumChannels := numChannels } }

/-- One packet of the capture client: `numFrames` is what `GetNextPacketSize` and `GetBuffer`
report for it, `audioData` its samples, `silent` the flag `AUDCLNT_BUFFERFLAGS_SILENT`, and
`bufferEmpty` tells that `GetBuffer` answers `AUDCLNT_S_BUFFER_EMPTY`. -/
structure Packet (K : Type) where
  numFrames : Nat
  audioData : List K
  silent : Bool
  bufferEmpty : Bool

/-- The sample-rate converter of a line in, as far as `convertCaptured` uses it:
`convertFramesNeeded` is `size_t( framesNeeded * deviceRate / nodeRate )` and `framesConsumed`
the first component of the result of `Converter::convert`. -/
structure Converter where
  convertFramesNeeded : Nat → Nat
  framesConsumed : Nat → Nat

/-- The data members of `LineInWasapi` used by the capture path.  Modelled from the spec:
`markUnderrun` and `markOverrun` (declared in a header that is not among the sources) record
the event; here each one is counted. -/
structure LineInWasapi (K : Type) where
  mInitialized : Bool
  mEnabled : Bool
  mCaptureImpl : WasapiAudioClientImpl K
  mConverter : Option Converter
  underruns : Nat
  overruns : Nat

/-- Modelled from the spec: `markUnderrun` records one underrun. -/
def LineInWasapi.markUnderrun {K : Type} (li : LineInWasapi K) : LineInWasapi K :=
  { li with underruns := li.underruns + 1 }

/-- Modelled from the spec: `markOverrun` records one overrun. -/
def LineInWasapi.markOverrun {K : Type} (li : LineInWasapi K) : LineInWasapi K :=
  { li with overruns := li.overruns + 1 }

/-- The member `WasapiCaptureClientImpl::captureAudio` over the packets that the capture
client has queued; the result carries the packets left in the queue.  The loop ends when no
packet is left, when the next one does not fit into `mAudioClientNumFrames - mNumFramesBuffered`
or when `GetBuffer` reports an empty buffer; a packet that is not silent is written to the ring
buffer, an overrun is marked when the write fails, and its frames are added to
`mNumFramesBuffered` in either case. -/
def WasapiCaptureClientImpl.captureAudio {K : Type} [Zero K] :
    List (Packet K) → LineInWasapi K → LineInWasapi K × List (Packet K)
  | [], li => (li, [])
  | p :: rest, li =>
    if p.numFrames = 0 then
      (li, p :: rest)
    else if p.numFrames >
        li.mCaptureImpl.mAudioClientNumFrames - li.mCaptureImpl.mNumFramesBuffered then
      (li, p :: rest)
    else if p.bufferEmpty then
      (li, p :: rest)
    else if p.silent then
      WasapiCaptureClientImpl.captureAudio rest li
    else
      let w := li.mCaptureImpl.mRingBuffer.write
        (arrayPrefix p.audioData (p.numFrames * li.mCaptureImpl.mNumChannels))
      let li1 := if w.2 then li else li.markOverrun
      WasapiCaptureClientImpl.captureAudio rest
        { li1 with
          mCaptureImpl :=
            { li1.mCaptureImpl with
              mRingBuffer := w.1,
              mNumFramesBuffered := li1.mCaptureImpl.mNumFramesBuffered + p.numFrames } }

/-- The member `LineInWasapi::copyCaptured` for a destination of `framesNeeded` frames and
`numChannels` channels; the result carries the returned frame count and the samples read for
the destination, if the read succeeded. -/
def LineInWasapi.copyCaptured {K : Type} (framesNeeded numChannels : Nat)
    (li : LineInWasapi K) : Except Exc (LineInWasapi K × Nat × Option (List K)) :=
  if numChannels = 2 then
    let r := li.mCaptureImpl.mRingBuffer.read (framesNeeded * 2)
    match r.2 with
    | some samples =>
      .ok ({ li with mCaptureImpl := { li.mCaptureImpl with mRingBuffer := r.1 } },
        framesNeeded, some samples)
    | none => .ok (li.markUnderrun, framesNeeded, none)
  else if numChannels = 1 then
    let r := li.mCaptureImpl.mRingBuffer.read framesNeeded
    match r.2 with
    | some samples =>
      .ok ({ li with mCaptureImpl := { li.mCaptureImpl with mRingBuffer := r.1 } },
        framesNeeded, some samples)
    | none => .ok (li.markUnderrun, framesNeeded, none)
  else
    .error .assertFailed

/-- The member `LineInWasapi::convertCaptured`; the result carries the frame count that the
converter reports as consumed and the samples read for the converter, if the read succeeded. -/
def LineInWasapi.convertCaptured {K : Type} (conv : Converter) (framesNeeded numChannels : Nat)
    (li : LineInWasapi K) : Except Exc (LineInWasapi K × Nat × Option (List K)) :=
  let convertFramesNeeded := conv.convertFramesNeeded framesNeeded
  if numChannels = 2 then
    let r := li.mCaptureImpl.mRingBuffer.read (convertFramesNeeded * 2)
    match r.2 with
    | some samples =>
      .ok ({ li with mCaptureImpl := { li.mCaptureImpl with mRingBuffer := r.1 } },
        conv.framesConsumed convertFramesNeeded, some samples)
    | none => .ok (li.markUnderrun, conv.framesConsumed convertFramesNeeded, none)
  else if numChannels = 1 then
    let r := li.mCaptureImpl.mRingBuffer.read convertFramesNeeded
    match r.2 with
    | some samples =>
      .ok ({ li with mCaptureImpl := { li.mCaptureImpl with mRingBuffer := r.1 } },
        conv.framesConsumed convertFramesNeeded, some samples)
    | none => .ok (li.markUnderrun, conv.framesConsumed convertFramesNeeded, none)
  else
    .error .assertFailed

/-- The member `LineInWasapi::process` for a buffer of `numFrames` frames and `numChannels`
channels: capture what is queued; return if fewer than `numFrames` frames are buffered;
otherwise copy or convert, and subtract the frames read from `mNumFramesBuffered`.  The result
carries the packets left in the queue and the samples read, if any. -/
def LineInWasapi.process {K : Type} [Zero K] (packets : List (Packet K))
    (numFrames numChannels : Nat) (li : LineInWasapi K) :
    Except Exc (LineInWasapi K × List (Packet K) × Option (List K)) :=
  let cap := WasapiCaptureClientImpl.captureAudio packets li
  if cap.1.mCaptureImpl.mNumFramesBuffered < numFrames then
    .ok (cap.1, cap.2, none)
  else
    let read :=
      match cap.1.mConverter with
      | some conv => cap.1.convertCaptured conv numFrames numChannels
      | none => cap.1.copyCaptured numFrames numChannels
    match read with
    | .error e => .error e
    | .ok (li1, capturedSamplesRead, samples) =>
      .ok ({ li1 with
             mCaptureImpl :=
               { li1.mCaptureImpl with
                 mNumFramesBuffered :=
                   li1.mCaptureImpl.mNumFramesBuffered - capturedSamplesRead } },
           cap.2, samples)

/-- A line in after `initialize()` on an audio client of 8 frames with 1 channel: the ring
buffer is empty, no frame is buffered, no underrun or overrun was marked. -/
def exLineIn : LineInWasapi ℚ :=
  { mInitialized := true, mEnabled := true,
    mCaptureImpl :=
      { mRingBuffer := RingBuffer.ctor 8, mNumFramesBuffered := 0,
        mAudioClientNumFrames := 8, mNumChannels := 1 },
    mConverter := none, underruns := 0, overruns := 0 }

/-- The loop `for( size_t i = 0; i < n; i++ ) buf[i] = g( i, buf[i] );` over an array. -/
def forEachIndex {K : Type} [Zero K] (g : Nat → K → K) : Nat → List K → List K
  | 0, buf => buf
  | n + 1, buf =>
    let b := forEachIndex g n buf
    b.set n (g n (b.getD n 0))

/-- Modelled from the spec: `Buffer` (`Buffer.h` is not among the sources) in planar layout;
`channels` holds one run of `numFrames` samples per channel. -/
structure Buffer (K : Type) where
  numFrames : Nat
  channels : List (List K)

/-- The getter `Buffer::getNumChannels`. -/
def Buffer.getNumChannels {K : Type} (b : Buffer K) : Nat := b.channels.length

/-- The getter `Buffer::getNumFrames`. -/
def Buffer.getNumFrames {K : Type} (b : Buffer K) : Nat := b.numFrames

/-- The expression `buffer->getChannel( ch )[i]`. -/
def Buffer.sample {K : Type} [Zero K] (b : Buffer K) (ch i : Nat) : K :=
  (b.channels.getD ch []).getD i 0

/-- Modelled from the spec: `std::vector::resize( n )` keeps the first `n` entries and fills up
with zeros. -/
def resize {K : Type} [Zero K] (xs : List K) (n : Nat) : List K :=
  xs.take n ++ List.replicate (n - xs.length) 0

/-- The data members of `SpectrumTapNode`: `fftSize` is `mFft->getSize()`, `mBuffer` the one
channel of the analysis buffer. -/
structure SpectrumTapNode (K : Type) where
  fftSize : Nat
  mBuffer : List K
  mMagSpectrum : List K
  mBufferIsDirty : Bool
  mApplyWindow : Bool
  mFramesPerBlock : Nat

/-- The constructor `SpectrumTapNode( fftSize )`. -/
def SpectrumTapNode.ctor (K : Type) (fftSize : Nat) : SpectrumTapNode K :=
  { fftSize := fftSize, mBuffer := [], mMagSpectrum := [], mBufferIsDirty := false,
    mApplyWindow := true, mFramesPerBlock := 0 }

/-- The member `SpectrumTapNode::initialize`, with the frames per block of the context: the
analysis buffer gets one channel of `fftSize` frames and the spectrum `fftSize / 2` bins. -/
def SpectrumTapNode.init {K : Type} [Zero K] (framesPerBlock : Nat)
    (node : SpectrumTapNode K) : SpectrumTapNode K :=
  { node with
    mFramesPerBlock := framesPerBlock,
    mBuffer := List.replicate node.fftSize 0,
    mMagSpectrum := resize node.mMagSpectrum (node.fftSize / 2) }

/-- The member `SpectrumTapNode::copyToInternalBuffer`: zero the analysis buffer; with one
source channel copy its first `numCopyFrames` samples; otherwise add up the channels sample by
sample and scale the first `numCopyFrames` sums by `1 / numSourceChannels`. -/
def SpectrumTapNode.copyToInternalBuffer {K : Type} [Field K] (buffer : Buffer K)
    (node : SpectrumTapNode K) : SpectrumTapNode K :=
  let zeroed := node.mBuffer.map (fun _ => (0 : K))
  let numCopyFrames := min buffer.getNumFrames zeroed.length
  let numSourceChannels := buffer.getNumChannels
  if numSourceChannels = 1 then
    { node with
      mBuffer := forEachIndex (fun i _ => buffer.sample 0 i) numCopyFrames zeroed }
  else
    let summed := (List.range numSourceChannels).foldl
      (fun b ch => forEachIndex (fun i v => v + buffer.sample ch i) numCopyFrames b) zeroed
    let scale : K := 1 / (numSourceChannels : K)
    { node with mBuffer := forEachIndex (fun _ v => v * scale) numCopyFrames summed }

/-- The member `SpectrumTapNode::process`. -/
def SpectrumTapNode.process {K : Type} [Field K] (buffer : Buffer K)
    (node : SpectrumTapNode K) : SpectrumTapNode K :=
  { node.copyToInternalBuffer buffer with mBufferIsDirty := true }

/-- The value `a0 - a1 * cos( 2 pi x ) + a2 * cos( 4 pi x )` of the Blackman window computed in
`SpectrumTapNode::applyWindow`, with `alpha = 0.16`, `a0 = 0.5 * (1 - alpha)`, `a1 = 0.5` and
`a2 = 0.5 * alpha`. -/
def SpectrumTapNode.window {K : Type} [Field K] (cos : K → K) (pi : K) (x : K) : K :=
  let alpha : K := 0.16
  let a0 : K := 0.5 * (1 - alpha)
  let a1 : K := 0.5
  let a2 : K := 0.5 * alpha
  a0 - a1 * cos (2.0 * pi * x) + a2 * cos (4.0 * pi * x)

/-- The member `SpectrumTapNode::applyWindow`, over the cosine `cos` and the constant `pi`. -/
def SpectrumTapNode.applyWindow {K : Type} [Field K] (cos : K → K) (pi : K)
    (node : SpectrumTapNode K) : SpectrumTapNode K :=
  let windowSize := min node.fftSize node.mFramesPerBlock
  let oneOverN : K := 1.0 / (windowSize : K)
  { node with
    mBuffer := forEachIndex
      (fun i v => v * SpectrumTapNode.window cos pi ((i : K) * oneOverN))
      windowSize node.mBuffer }

/-- The member `SpectrumTapNode::getMagSpectrum`, over the cosine, the constant `pi`, the square
root and the transform `fft` (`Fft` is not among the sources; `fft` maps the analysis buffer to
the real and the imaginary part that `getReal()` and `getImag()` hand out).  The result carries
the returned spectrum. -/
def SpectrumTapNode.getMagSpectrum {K : Type} [Field K] (cos : K → K) (pi : K)
    (sqrt : K → K) (fft : List K → List K × List K) (node : SpectrumTapNode K) :
    SpectrumTapNode K × List K :=
  if node.mBufferIsDirty then
    let node1 := if node.mApplyWindow then node.applyWindow cos pi else node
    let real := (fft node1.mBuffer).1
    let imag := (fft node1.mBuffer).2.set 0 0
    let kMagScale : K := 1.0 / (node1.fftSize : K)
    let spectrum := forEachIndex
      (fun i _ => sqrt (real.getD i 0 * real.getD i 0 + imag.getD i 0 * imag.getD i 0)
        * kMagScale)
      node1.mMagSpectrum.length node1.mMagSpectrum
    ({ node1 with mMagSpectrum := spectrum, mBufferIsDirty := false }, spectrum)
  else
    (node, node.mMagSpectrum)

/-- A two-channel buffer of three frames. -/
def exStereo : Buffer ℚ :=
  { numFrames := 3, channels := [[1, 2, 3], [3, 6, 1]] }

/-- A spectrum tap of FFT size 4, initialized in a context of 2 frames per block, whose
analysis buffer holds old samples. -/
def exTap : SpectrumTapNode ℚ :=
  { (SpectrumTapNode.ctor ℚ 4).init 2 with mBuffer := [9, 9, 9, 9] }

/-- The Blackman window as the specification gives it: `a0 - a1 cos( 2 pi x ) + a2 cos( 4 pi x )`
with `a0 = 0.42`, `a1 = 0.5` and `a2 = 0.08`. -/
def blackmanSpec {K : Type} [Field K] (cos : K → K) (pi : K) (x : K) : K :=
  0.42 - 0.5 * cos (2 * pi * x) + 0.08 * cos (4 * pi * x)

/-- A spectrum tap of FFT size 4, initialized in a context of 2 frames per block, after a block
was processed: the analysis buffer holds `1, 0, 0, 0` and the dirty flag is set. -/
def exDirtyTap (K : Type) [Zero K] [One K] : SpectrumTapNode K :=
  { (SpectrumTapNode.ctor K 4).init 2 with mBuffer := [1, 0, 0, 0], mBufferIsDirty := true }

/-- A stand-in for the transform in examples: it hands out the buffer as the real and as the
imaginary part. -/
def exFft {K : Type} (b : List K) : List K × List K := (b, b)

/-- An empty buffer of real samples. -/
def exEmptyBuffer : Buffer ℝ := { numFrames := 0, channels := [] }

/-- The C function `fmodf( x, y )` in exact arithmetic: `x - y * trunc( x / y )`, the quotient
truncated toward zero. -/
def fmodf {K : Type} [LinearOrderedField K] [FloorRing K] (x y : K) : K :=
  x - y * (((if 0 ≤ x / y then ⌊x / y⌋ else ⌈x / y⌉ : ℤ)) : K)

/-- The class `Param` as far as `Gen.cpp` uses it: `mValue` is `getValue()`; `valueArray` is
the array that `getValueArray()` hands out when `eval()` reports that the parameter varies over
the block, and is empty when `eval()` returns false. -/
structure Param (K : Type) where
  mValue : K
  valueArray : Option (List K)

/-- The data members of `Gen` that the `process` functions of `Gen.cpp` read and write. -/
structure Gen (K : Type) where
  mSampleRate : K
  mFreq : Param K
  mPhase : K

/-- The loop of the constant-frequency branch of `GenSine::process`: `count` times, write
`sin( phase )` and advance the phase by `phaseIncr` modulo `twoPi`.  The result carries the
samples and the last phase. -/
def GenSine.constLoop {K : Type} [LinearOrderedField K] [FloorRing K] (sin : K → K)
    (twoPi phaseIncr : K) : Nat → K → List K × K
  | 0, phase => ([], phase)
  | count + 1, phase =>
    let r := GenSine.constLoop sin twoPi phaseIncr count (fmodf (phase + phaseIncr) twoPi)
    (sin phase :: r.1, r.2)

/-- The loop of the per-sample branch of `GenSine::process`, from index `i` on: write
`sin( phase )` and advance the phase by `freqValues[i] * phaseMul` modulo `twoPi`. -/
def GenSine.varLoop {K : Type} [LinearOrderedField K] [FloorRing K] (sin : K → K)
    (twoPi phaseMul : K) (freqValues : List K) : Nat → Nat → K → List K × K
  | 0, _, phase => ([], phase)
  | count + 1, i, phase =>
    let r := GenSine.varLoop sin twoPi phaseMul freqValues count (i + 1)
      (fmodf (phase + freqValues.getD i 0 * phaseMul) twoPi)
    (sin phase :: r.1, r.2)

/-- The member `GenSine::process` for a buffer of `count` samples, over the sine `sin` and the
constant `pi`.  The result carries the samples written. -/
def GenSine.process {K : Type} [LinearOrderedField K] [FloorRing K] (sin : K → K) (pi : K)
    (count : Nat) (g : Gen K) : Gen K × List K :=
  let phaseMul : K := 2 * pi / g.mSampleRate
  match g.mFreq.valueArray with
  | some freqValues =>
    let r := GenSine.varLoop sin (pi * 2) phaseMul freqValues count 0 g.mPhase
    ({ g with mPhase := r.2 }, r.1)
  | none =>
    let phaseIncr : K := g.mFreq.mValue * phaseMul
    let r := GenSine.constLoop sin (pi * 2) phaseIncr count g.mPhase
    ({ g with mPhase := r.2 }, r.1)

/-- The generator after `k` consecutive blocks of `count` samples. -/
def GenSine.blocks {K : Type} [LinearOrderedField K] [FloorRing K] (sin : K → K) (pi : K)
    (count : Nat) : Nat → Gen K → Gen K
  | 0, g => g
  | k + 1, g => (GenSine.process sin pi count (GenSine.blocks sin pi count k g)).1

/-- A sine generator at 220 Hz in a context of sample rate 44100, phase 0, frequency
constant. -/
def exSine (K : Type) [LinearOrderedField K] : Gen K :=
  { mSampleRate := 44100, mFreq := { mValue := 220, valueArray := none }, mPhase := 0 }

/-- The number of occupied slots. -/
def occupied (slots : List (Option NodeId)) : Nat :=
  (slots.filter Option.isSome).length

/-- The loop of the constant-frequency branch of `GenPhasor::process`: `count` times, write the
phase and advance it by `phaseIncr` modulo 1. -/
def GenPhasor.constLoop {K : Type} [LinearOrderedField K] [FloorRing K] (phaseIncr : K) :
    Nat → K → List K × K
  | 0, phase => ([], phase)
  | count + 1, phase =>
    let r := GenPhasor.constLoop phaseIncr count (fmodf (phase + phaseIncr) 1)
    (phase :: r.1, r.2)

/-- The loop of the per-sample branch of `GenPhasor::process`, from index `i` on: write the
phase and advance it by `freqValues[i] * phaseMul` modulo 1. -/
def GenPhasor.varLoop {K : Type} [LinearOrderedField K] [FloorRing K] (phaseMul : K)
    (freqValues : List K) : Nat → Nat → K → List K × K
  | 0, _, phase => ([], phase)
  | count + 1, i, phase =>
    let r := GenPhasor.varLoop phaseMul freqValues count (i + 1)
      (fmodf (phase + freqValues.getD i 0 * phaseMul) 1)
    (phase :: r.1, r.2)

/-- The member `GenPhasor::process` for a buffer of `count` samples.  The result carries the
samples written. -/
def GenPhasor.process {K : Type} [LinearOrderedField K] [FloorRing K] (count : Nat)
    (g : Gen K) : Gen K × List K :=
  let phaseMul : K := 1 / g.mSampleRate
  match g.mFreq.valueArray with
  | some freqValues =>
    let r := GenPhasor.varLoop phaseMul freqValues count 0 g.mPhase
    ({ g with mPhase := r.2 }, r.1)
  | none =>
    let phaseIncr : K := g.mFreq.mValue * phaseMul
    let r := GenPhasor.constLoop phaseIncr count g.mPhase
    ({ g with mPhase := r.2 }, r.1)

/-- The call `std::memset( &buf[start], 0, count * sizeof( float ) )`. -/
def memsetZero {K : Type} [Zero K] (buf : List K) (start count : Nat) : List K :=
  buf.take start ++ forEachIndex (fun _ _ => (0 : K)) count (buf.drop start)

/-- The constructor `BufferPlayerNode( BufferRef inputBuffer )`, which reads the frame count
off the buffer it is given. -/
def BufferPlayerNode.ctor {K : Type} (inputBuffer : Buffer K) : BufferPlayerNode K :=
  { mInitialized := false, mEnabled := false, mBuffer := some inputBuffer.channels,
    mNumFrames := inputBuffer.getNumFrames, mReadPos := 0, mLoop := false }

/-- The loop `for( ch < buffer->getNumChannels() ) memcpy( buffer->getChannel( ch ),
&mBuffer->getChannel( ch )[readPos], readCount * sizeof( float ) )`. -/
def BufferPlayerNode.copyChannels {K : Type} [Zero K] (source : List (List K))
    (readPos readCount : Nat) (buffer : Buffer K) : Buffer K :=
  { buffer with
    channels := (List.range buffer.getNumChannels).map fun ch =>
      forEachIndex (fun i _ => (source.getD ch []).getD (readPos + i) 0) readCount
        (buffer.channels.getD ch []) }

/-- The loop `for( ch < buffer->getNumChannels() ) memset( &buffer->getChannel( ch )[readCount],
0, numLeft * sizeof( float ) )`. -/
def BufferPlayerNode.zeroChannels {K : Type} [Zero K] (readCount numLeft : Nat)
    (buffer : Buffer K) : Buffer K :=
  { buffer with
    channels := (List.range buffer.getNumChannels).map fun ch =>
      memsetZero (buffer.channels.getD ch []) readCount numLeft }

/-- The member `BufferPlayerNode::process`: copy `readCount` frames of every channel from the
read position on, zero the rest of the block when the source ran out, and then either rewind
(looping) or disable the node and advance.  The result carries the block written.  The
subtraction `mNumFrames - readPos` is the one of `size_t`, which agrees with the one of `Nat`
while `mReadPos <= mNumFrames`. -/
def BufferPlayerNode.process {K : Type} [Zero K] (buffer : Buffer K)
    (n : BufferPlayerNode K) : BufferPlayerNode K × Buffer K :=
  let readPos := n.mReadPos
  let numFrames := buffer.getNumFrames
  let readCount := min (n.mNumFrames - readPos) numFrames
  let copied := BufferPlayerNode.copyChannels (n.mBuffer.getD []) readPos readCount buffer
  if readCount < numFrames then
    let numLeft := numFrames - readCount
    let zeroed := BufferPlayerNode.zeroChannels readCount numLeft copied
    if n.mLoop then
      ({ n with mReadPos := 0 }, zeroed)
    else
      ({ n with mEnabled := false, mReadPos := n.mReadPos + readCount }, zeroed)
  else
    ({ n with mReadPos := n.mReadPos + readCount }, copied)

/-- The blocks that `k` calls of `BufferPlayerNode::process` in a row write, each into a copy
of `buffer`. -/
def BufferPlayerNode.blocks {K : Type} [Zero K] (buffer : Buffer K) :
    Nat → BufferPlayerNode K → BufferPlayerNode K × List (Buffer K)
  | 0, n => (n, [])
  | k + 1, n =>
    let r := BufferPlayerNode.process buffer n
    let rest := BufferPlayerNode.blocks buffer k r.1
    (rest.1, r.2 :: rest.2)

/-- A player at the start of a two-channel buffer of five frames, looping off. -/
def exPlayer2 : BufferPlayerNode ℚ :=
  { mInitialized := true, mEnabled := true,
    mBuffer := some [[1, 2, 3, 4, 5], [6, 7, 8, 9, 10]],
    mNumFrames := 5, mReadPos := 3, mLoop := false }

/-- An output block of two channels and four frames holding stale samples. -/
def exBlock : Buffer ℚ :=
  { numFrames := 4, channels := [[9, 9, 9, 9], [9, 9, 9, 9]] }

/-- One call of the connection interface of `Context.cpp`. -/
inductive ConnectCall where
  /-- The call `self->connect( dest, bus )`. -/
  | connect (self dest : NodeId) (bus : Nat)
  /-- The call `self->connect( dest )` with a `dest` that is not a `MixerNode`. -/
  | connect0 (self dest : NodeId)
  /-- The call `self->connect( dest )` with a `dest` that is a `MixerNode`. -/
  | mixerConnect0 (self dest : NodeId)
  /-- The call `self->setSource( source, bus )` on a `Node`. -/
  | setSource (self source : NodeId) (bus : Nat)
  /-- The call `self->setSource( source )` on a `Node`. -/
  | setSource0 (self source : NodeId)
  /-- The call `self->setSource( source )` on a `MixerNode`. -/
  | mixerSetSource (self source : NodeId)
deriving DecidableEq, Repr

/-- Run one call of the connection interface. -/
def ConnectCall.run (g : Graph) : ConnectCall → Except Exc Graph
  | .connect self dest bus => (Node.connect g self dest bus).map Prod.fst
  | .connect0 self dest => (Node.connect0 false g self dest).map Prod.fst
  | .mixerConnect0 self dest => (Node.connect0 true g self dest).map Prod.fst
  | .setSource self source bus => Node.setSource g self source bus
  | .setSource0 self source => Node.setSource0 g self source
  | .mixerSetSource self source => .ok (MixerNode.setSource g self source)

/-- Run a sequence of calls of the connection interface, up to the first that does not
return. -/
def runCalls : Graph → List ConnectCall → Except Exc Graph
  | g, [] => .ok g
  | g, c :: cs =>
    match c.run g with
    | .ok g1 => runCalls g1 cs
    | .error e => .error e

/-- Every node is as its constructor left it: no parent, no source in any slot. -/
def Fresh (g : Graph) : Prop :=
  ∀ i, (g i).mParent = none ∧ ∀ x ∈ (g i).mSources, x = none

/-- Parent and source links agree: `s` has parent `p` exactly when `s` occupies a source slot
of `p`. -/
def Consistent (g : Graph) : Prop :=
  ∀ s p : NodeId, (g s).mParent = some p ↔ some s ∈ (g p).mSources

/-- Node `s` has no parent, or its parent is `p` already. -/
def ParentFree (g : Graph) (s p : NodeId) : Prop :=
  (g s).mParent = none ∨ (g s).mParent = some p

/-- Node `s` may take slot `bus` of `p`: its parent is unset or `p`, and the slot exists and is
empty or holds `s` already. -/
def SlotFree (g : Graph) (p s : NodeId) (bus : Nat) : Prop :=
  ParentFree g s p ∧
    ((g p).mSources[bus]? = some none ∨ (g p).mSources[bus]? = some (some s))

/-- The call connects a node whose parent is unset or already the destination and, for the
calls that name a slot, the slot is empty or already holds that node. -/
def ConnectCall.Fits (g : Graph) : ConnectCall → Prop
  | .connect self dest bus => SlotFree g dest self bus
  | .connect0 self dest => SlotFree g dest self 0
  | .mixerConnect0 self dest => ParentFree g self dest
  | .setSource self source bus => SlotFree g self source bus
  | .setSource0 self source => SlotFree g self source 0
  | .mixerSetSource self source => ParentFree g source self

/-- Every call of the sequence fits the graph it is run on. -/
def fitsAll : Graph → List ConnectCall → Prop
  | _, [] => True
  | g, c :: cs =>
    c.Fits g ∧
      match c.run g with
      | .ok g1 => fitsAll g1 cs
      | .error _ => True

/-- An arena of nodes fresh from `Node::Node()`. -/
def exFresh : Graph := fun _ => Node.ctor

/-- The data members of `SourceFile` and of its base `Source` that `setOutputFormat` and `read`
use; `mConverter` tells whether a converter is installed. -/
structure SourceFile where
  mNativeSampleRate : Nat
  mNativeNumChannels : Nat
  mSampleRate : Nat
  mNumChannels : Nat
  mMaxFramesPerRead : Nat
  mNumFrames : Nat
  mFileNumFrames : Nat
  mReadPos : Nat
  mConverter : Bool
deriving DecidableEq, Repr

/-- The constructors `Source::Source()` and `SourceFile::SourceFile()`. -/
def SourceFile.ctor : SourceFile :=
  { mNativeSampleRate := 0, mNativeNumChannels := 0, mSampleRate := 0, mNumChannels := 0,
    mMaxFramesPerRead := 4096, mNumFrames := 0, mFileNumFrames := 0, mReadPos := 0,
    mConverter := false }

/-- Subtraction of two `size_t` values (64 bits), which wraps around. -/
def sizeSub (a b : Nat) : Nat := (a + 2 ^ 64 - b % 2 ^ 64) % 2 ^ 64

/-- The member `SourceFile::setOutputFormat`; `supportsConversion` is the answer of the virtual
`supportsConversion()`.  The quotient `ceil( mFileNumFrames * mSampleRate / mNativeSampleRate )`
is taken exactly. -/
def SourceFile.setOutputFormat (supportsConversion : Bool)
    (outputSampleRate outputNumChannels : Nat) (f : SourceFile) : SourceFile :=
  let updated1 := f.mSampleRate != outputSampleRate
  let f1 := if updated1 then { f with mSampleRate := outputSampleRate } else f
  let updated2 := outputNumChannels != 0 && f1.mNumChannels != outputNumChannels
  let f2 := if updated2 then { f1 with mNumChannels := outputNumChannels } else f1
  if updated1 || updated2 then
    if f2.mSampleRate != f2.mNativeSampleRate || f2.mNumChannels != f2.mNativeNumChannels then
      let f3 := if !supportsConversion then { f2 with mConverter := true } else f2
      { f3 with
        mNumFrames :=
          (f3.mFileNumFrames * f3.mSampleRate + f3.mNativeSampleRate - 1) /
            f3.mNativeSampleRate }
    else
      { f2 with mNumFrames := f2.mFileNumFrames, mConverter := false }
  else
    f2

/-- The local `numFramesNeeded` of `SourceFile::read`, the number of frames asked of the file,
for an output buffer of `bufferNumFrames` frames.  The quotient
`getNumFrames() * mNativeSampleRate / mSampleRate` is taken exactly and truncated. -/
def SourceFile.numFramesNeeded (bufferNumFrames : Nat) (f : SourceFile) : Nat :=
  if f.mConverter then
    let sourceBufFrames := bufferNumFrames * f.mNativeSampleRate / f.mSampleRate
    min (sizeSub f.mFileNumFrames f.mReadPos) (min f.mMaxFramesPerRead sourceBufFrames)
  else
    min (sizeSub f.mNumFrames f.mReadPos) (min f.mMaxFramesPerRead bufferNumFrames)

/-- The member `SourceFile::read` on a buffer of `bufferNumChannels` channels and
`bufferNumFrames` frames.  `convert n` is the count of output frames (`count.second`) that the
converter answers for `n` frames read, and `performRead n` the count that the file reader
answers for `n` frames asked.  The result carries the returned `numRead`. -/
def SourceFile.read (convert performRead : Nat → Nat) (bufferNumChannels bufferNumFrames : Nat)
    (f : SourceFile) : Except Exc (SourceFile × Nat) :=
  if bufferNumChannels != f.mNumChannels then
    .error .assertFailed
  else if !(decide (f.mReadPos < f.mNumFrames)) then
    .error .assertFailed
  else
    let numFramesNeeded := f.numFramesNeeded bufferNumFrames
    let numRead := if f.mConverter then convert numFramesNeeded else performRead numFramesNeeded
    .ok ({ f with mReadPos := (f.mReadPos + numRead) % 2 ^ 64 }, numRead)

/-- A mono file of 100 frames recorded at 22050 Hz, set to play at 44100 Hz through a
converter. -/
def exFile : SourceFile :=
  SourceFile.setOutputFormat false 44100 1
    { SourceFile.ctor with
      mNativeSampleRate := 22050, mNativeNumChannels := 1, mFileNumFrames := 100 }

/-- The state of `exFile` after `k` reads into a buffer of 64 frames, when the converter
doubles the frame count; `none` when a read did not return. -/
def exFileAfter : Nat → Option SourceFile
  | 0 => some exFile
  | k + 1 =>
    match exFileAfter k with
    | some f =>
      match SourceFile.read (fun n => 2 * n) id 1 64 f with
      | .ok r => some r.1
      | .error _ => none
    | none => none

/-- The fields of `WAVEFORMATEX` that `interleavedFloatWaveFormat` computes; `WORD` fields
hold 16 bits and `DWORD` fields 32 bits. -/
structure WaveFormat where
  nSamplesPerSec : Nat
  nChannels : Nat
  wBitsPerSample : Nat
  nBlockAlign : Nat
  nAvgBytesPerSec : Nat
deriving DecidableEq, Repr

/-- The function `msw::interleavedFloatWaveFormat( size_t sampleRate, size_t numChannels )`. -/
def msw.interleavedFloatWaveFormat (sampleRate numChannels : Nat) : WaveFormat :=
  let nSamplesPerSec := sampleRate % 2 ^ 32
  let nChannels := numChannels % 2 ^ 16
  let wBitsPerSample := 32
  let nBlockAlign := (nChannels * wBitsPerSample / 8) % 2 ^ 16
  let nAvgBytesPerSec := (nSamplesPerSec * nBlockAlign) % 2 ^ 32
  { nSamplesPerSec := nSamplesPerSec, nChannels := nChannels,
    wBitsPerSample := wBitsPerSample, nBlockAlign := nBlockAlign,
    nAvgBytesPerSec := nAvgBytesPerSec }

/-- The local `wfx` of `SourceVoiceXAudio::initialize`, for a node of `numChannels` channels in
a context of sample rate `sampleRate`: the call
`msw::interleavedFloatWaveFormat( getNumChannels(), getContext()->getSampleRate() )`. -/
def SourceVoiceXAudio.wfx (numChannels sampleRate : Nat) : WaveFormat :=
  msw.interleavedFloatWaveFormat numChannels sampleRate

/-- The local `wfx` of `WasapiAudioClientImpl::initAudioClient` in `ContextWasapi.cpp`: the call
`interleavedFloatWaveFormat( sampleRate, mNumChannels )`. -/
def WasapiAudioClientImpl.wfx (numChannels sampleRate : Nat) : WaveFormat :=
  msw.interleavedFloatWaveFormat sampleRate numChannels

/-- The function `tableLookup` of `Gen.cpp` (the variant that is compiled, headed `linear
interpolation, phase range: 0-1`); the conversion `(size_t)lookup` truncates. -/
def tableLookup {K : Type} [LinearOrderedField K] [FloorRing K] (table : List K) (size : Nat)
    (phase : K) : K :=
  let lookup : K := phase * (size : K)
  let index1 : Nat := ⌊lookup⌋.toNat
  let index2 : Nat := (index1 + 1) &&& (size - 1)
  let val1 := table.getD index1 0
  let val2 := table.getD index2 0
  let frac : K := lookup - (index1 : K)
  val2 + frac * (val2 - val1)

/-- Linear interpolation over the wavetable in the words of the specification: with
`lookup = phase * size`, `i1 = floor lookup`, `i2 = (i1 + 1) mod size` and `frac = lookup - i1`
the value `table[i1] + frac * (table[i2] - table[i1])`. -/
def tableLookupSpec {K : Type} [LinearOrderedField K] [FloorRing K] (table : List K)
    (size : Nat) (phase : K) : K :=
  let lookup : K := phase * (size : K)
  let i1 : Nat := ⌊lookup⌋.toNat
  let i2 : Nat := (i1 + 1) % size
  let frac : K := lookup - (i1 : K)
  table.getD i1 0 + frac * (table.getD i2 0 - table.getD i1 0)

/-- One period of a sine sampled at four points. -/
def exTable : List ℚ := [0, 1, 0, -1]

/-- The dynamic type of a node as far as `ContextXAudio.cpp` asks for it with
`dynamic_pointer_cast`: not a `NodeXAudio`, a `SourceVoiceXAudio` (which is a `NodeXAudio`, as
`NodeXAudio::getXAudioVoice` relies on), or another `NodeXAudio`. -/
inductive XKind where
  | generic
  | sourceVoice
  | xaudio
deriving DecidableEq, Repr

/-- The nodes that a `ContextXAudio` has made: the arena, the count of handles given out by
`makeNode`, the dynamic type of every node, and the member `mFilterEnabled` of the source
voices. -/
structure ContextXAudio where
  nodes : Graph
  numNodes : Nat
  kind : NodeId → XKind
  mFilterEnabled : NodeId → Bool

/-- The members that `ContextXAudio::connectionsDidChange` calls and whose code is in headers
that are not among the sources, taken as they answer: `findUpstreamNode<SourceVoiceXAudio>`,
`findDownStreamNode<SourceVoiceXAudio>`, `findDownStreamNode<NodeXAudio>` and
`Node::disconnect`. -/
structure XAudioHelpers where
  findUpstreamSourceVoice : ContextXAudio → NodeId → Option NodeId
  findDownStreamSourceVoice : ContextXAudio → NodeId → Option NodeId
  findDownStreamNodeXAudio : ContextXAudio → NodeId → Option NodeId
  disconnect : ContextXAudio → NodeId → ContextXAudio

/-- The function `isNodeNativeXAudio`: whether the node casts to `NodeXAudio`. -/
def ContextXAudio.isNodeNativeXAudio (c : ContextXAudio) (node : NodeId) : Bool :=
  c.kind node != XKind.generic

/-- Modelled from the spec: `Node::setInput( NodeRef input, size_t bus )` (in the absent
`Context.h`) is `Node::setSource` of `Context.cpp` under its later name, as `getInputs` is
`getSources`; a null `input` is dereferenced after the range guard. -/
def Node.setInput (g : Graph) (self : NodeId) (input : Option NodeId) (bus : Nat) :
    Except Exc Graph :=
  match input with
  | some source => Node.setSource g self source bus
  | none => if bus > (g self).mSources.length then .error .audioExc else .error .nullDeref

/-- The constructor `SourceVoiceXAudio::SourceVoiceXAudio()`: `Node( Format() )`, then
`setAutoEnabled( true )`. -/
def SourceVoiceXAudio.ctor : Node :=
  { Node.ctor with mFormat := { Node.ctor.mFormat with mAutoEnabled := true } }

/-- The member `SourceVoiceXAudio::initialize` on the node under handle `self`:
`CI_ASSERT( getNumChannels() <= 2 )`, then the voice is created, `CI_ASSERT( hr == S_OK )`
on the answer of `CreateSourceVoice` (which `createOk` tells), then `mInitialized = true`. -/
def SourceVoiceXAudio.init (createOk : Bool) (g : Graph) (self : NodeId) :
    Except Exc Graph :=
  if (g self).mFormat.getNumChannels ≤ 2 then
    if createOk then
      .ok (g.put self { g self with mInitialized := true })
    else
      .error .assertFailed
  else
    .error .assertFailed

/-- Modelled from the spec: `makeNode( new SourceVoiceXAudio() )` (`makeNode` is in the absent
`Context.h`) registers the new node under the next handle and returns the handle. -/
def ContextXAudio.makeSourceVoice (c : ContextXAudio) : ContextXAudio × NodeId :=
  ({ c with
      nodes := c.nodes.put c.numNodes SourceVoiceXAudio.ctor,
      numNodes := c.numNodes + 1,
      kind := fun m => if m = c.numNodes then XKind.sourceVoice else c.kind m,
      mFilterEnabled := fun m => if m = c.numNodes then false else c.mFilterEnabled m },
    c.numNodes)

/-- The last branch of the loop body of `ContextXAudio::connectionsDidChange`: make a source
voice, give it the channel count of `input`, enable its filter, initialize it, put it on bus
`i` of `node` and make `input` its input. -/
def ContextXAudio.insertSourceVoice (createOk : Bool) (node : NodeId) (i : Nat)
    (input : NodeId) (c : ContextXAudio) : Except Exc ContextXAudio :=
  let c1 := c.makeSourceVoice.1
  let sourceVoice := c.makeSourceVoice.2
  let g2 := c1.nodes.put sourceVoice
    { c1.nodes sourceVoice with
      mFormat := (c1.nodes sourceVoice).mFormat.setNumChannels
        (c1.nodes input).mFormat.getNumChannels }
  let filter := fun m => if m = sourceVoice then true else c1.mFilterEnabled m
  match SourceVoiceXAudio.init createOk g2 sourceVoice with
  | .error e => .error e
  | .ok g3 =>
    match Node.setInput g3 node (some sourceVoice) i with
    | .error e => .error e
    | .ok g4 =>
      match Node.setInput g4 sourceVoice (some input) 0 with
      | .error e => .error e
      | .ok g5 => .ok { c1 with nodes := g5, mFilterEnabled := filter }

/-- The branch of the loop body of `ContextXAudio::connectionsDidChange` that moves a source
voice found downstream of `input` to bus `i` of `node`. -/
def ContextXAudio.shuffle (h : XAudioHelpers) (node : NodeId) (i : Nat)
    (input sourceVoice : NodeId) (c : ContextXAudio) : Except Exc ContextXAudio :=
  match (c.nodes sourceVoice).mSources[0]? with
  | none => .error .outOfBounds
  | some sourceInput =>
    let c1 := h.disconnect c sourceVoice
    match Node.setInput c1.nodes node (some sourceVoice) i with
    | .error e => .error e
    | .ok g2 =>
      match Node.setInput g2 sourceVoice (some input) 0 with
      | .error e => .error e
      | .ok g3 =>
        match Node.setInput g3 input sourceInput 0 with
        | .error e => .error e
        | .ok g4 => .ok { c1 with nodes := g4 }

/-- The body of the loop of `ContextXAudio::connectionsDidChange` for bus `i` of `node`. -/
def ContextXAudio.connectInput (h : XAudioHelpers) (createOk : Bool) (node : NodeId)
    (i : Nat) (c : ContextXAudio) : Except Exc ContextXAudio :=
  match (c.nodes node).mSources[i]? with
  | none => .error .outOfBounds
  | some none => .ok c
  | some (some input) =>
    if !c.isNodeNativeXAudio input then
      match h.findUpstreamSourceVoice c input with
      | some _ => .ok c
      | none =>
        match h.findDownStreamSourceVoice c input with
        | some sourceVoice => c.shuffle h node i input sourceVoice
        | none =>
          match h.findDownStreamNodeXAudio c input with
          | some _ => .error .audioExc
          | none => c.insertSourceVoice createOk node i input
    else
      .ok c

/-- The loop `for( size_t i = 0; i < node->getInputs().size(); i++ )` of
`ContextXAudio::connectionsDidChange` from index `i` on; the bound is read anew at every
round. -/
def ContextXAudio.connectionsLoop (h : XAudioHelpers) (createOk : Bool) (node : NodeId) :
    Nat → Nat → ContextXAudio → Except Exc ContextXAudio
  | 0, _, _ => .error .outOfFuel
  | fuel + 1, i, c =>
    if i < (c.nodes node).mSources.length then
      match c.connectInput h createOk node i with
      | .ok c1 => ContextXAudio.connectionsLoop h createOk node fuel (i + 1) c1
      | .error e => .error e
    else
      .ok c

/-- The member `ContextXAudio::connectionsDidChange( node )`. -/
def ContextXAudio.connectionsDidChange (h : XAudioHelpers) (createOk : Bool) (fuel : Nat)
    (node : NodeId) (c : ContextXAudio) : Except Exc ContextXAudio :=
  ContextXAudio.connectionsLoop h createOk node fuel 0 c

/-- The state in which the loop of `connectionsDidChange( node )` reaches bus `i`: the result of
the rounds for the busses below `i`. -/
def ContextXAudio.connectionsUpTo (h : XAudioHelpers) (createOk : Bool) (node : NodeId) :
    Nat → ContextXAudio → Except Exc ContextXAudio
  | 0, c => .ok c
  | i + 1, c =>
    match ContextXAudio.connectionsUpTo h createOk node i c with
    | .ok ci => ci.connectInput h createOk node i
    | .error e => .error e

/-- The round for bus `i` neither fails nor moves an existing source voice: the bus is empty,
or its input is native, or a source voice is found upstream of the input, or none is found
downstream, no native node is found downstream and the input has at most two channels. -/
def ContextXAudio.BusOk (h : XAudioHelpers) (node : NodeId) (i : Nat) (c : ContextXAudio) :
    Prop :=
  ∀ x : NodeId, (c.nodes node).mSources[i]? = some (some x) →
    c.kind x ≠ XKind.generic ∨ h.findUpstreamSourceVoice c x ≠ none ∨
      (h.findDownStreamSourceVoice c x = none ∧ h.findDownStreamNodeXAudio c x = none ∧
        (c.nodes x).mFormat.getNumChannels ≤ 2)

/-- Helpers that find nothing; `disconnect` is not reached with them. -/
def exHelpers : XAudioHelpers :=
  { findUpstreamSourceVoice := fun _ _ => none,
    findDownStreamSourceVoice := fun _ _ => none,
    findDownStreamNodeXAudio := fun _ _ => none,
    disconnect := fun c _ => c }

/-- A context of three nodes: node 0 is a native node with two busses, fed by node 1, a generic
node of `channels` channels, and by node 2, a native node. -/
def exXAudio (channels : Nat) : ContextXAudio :=
  { nodes := fun m =>
      if m = 0 then { Node.ctor with mSources := [some 1, some 2] }
      else if m = 1 then
        { GeneratorNode.ctor with
          mParent := some 0, mFormat := GeneratorNode.ctor.mFormat.setNumChannels channels }
      else { Node.ctor with mParent := some 0 },
    numNodes := 3,
    kind := fun m => if m = 1 then XKind.generic else XKind.xaudio,
    mFilterEnabled := fun _ => false }

/-- What the rounds for the busses from `lo` up to `hi` of `node` keep: no handle is taken
back, the nodes made before keep their type, format, initialized flag and, other than `node`,
their inputs, and `node` keeps the number of its busses and its inputs outside `lo..hi`. -/
def ContextXAudio.Frame (node : NodeId) (lo hi : Nat) (a b : ContextXAudio) : Prop :=
  a.numNodes ≤ b.numNodes ∧
  (∀ m, m < a.numNodes →
    b.kind m = a.kind m ∧ (b.nodes m).mFormat = (a.nodes m).mFormat ∧
    (b.nodes m).mInitialized = (a.nodes m).mInitialized ∧
    (m ≠ node → (b.nodes m).mSources = (a.nodes m).mSources)) ∧
  (b.nodes node).mSources.length = (a.nodes node).mSources.length ∧
  ∀ k : Nat, k < lo ∨ hi ≤ k → (b.nodes node).mSources[k]? = (a.nodes node).mSources[k]?

/-! ## Theorems -/

theorem Graph.put_same (g : Graph) (i : NodeId) (n : Node) : g.put i n i = n := by
  simp [Graph.put]

theorem Graph.put_other (g : Graph) (i j : NodeId) (n : Node) (h : j ≠ i) :
    g.put i n j = g j := by
  simp [Graph.put, h]

theorem Node.setParent_sources (g : Graph) (s p i : NodeId) :
    (Node.setParent g s p i).mSources = (g i).mSources := by
  unfold Node.setParent Graph.put
  by_cases h : i = s <;> simp [h]

theorem Node.setParent_parent (g : Graph) (s p : NodeId) :
    (Node.setParent g s p s).mParent = some p := by
  simp [Node.setParent, Graph.put]

theorem Node.setSource_in_range (g : Graph) (self source : NodeId) (bus : Nat)
    (h : bus < (g self).mSources.length) :
    Node.setSource g self source bus =
      .ok (Node.setParent
        (g.put self { g self with mSources := (g self).mSources.set bus (some source) })
        source self) := by
  have h1 : ¬ bus > (g self).mSources.length := by omega
  simp [Node.setSource, h1, h]

/-- C2 (the code at the failing input): with `bus` equal to the number of slots the guard of
`setSource` does not throw; the call goes on to the vector access at an index that is not below
the size.  This is so for bus 0 of a freshly constructed generator node, whose slots were cleared,
and for bus 1 of a fresh `Node()`; only a bus above the size is rejected with `AudioExc`. -/
theorem setSource_bus_eq_size (g : Graph) (n source : NodeId) :
    Node.setSource g n source (g n).mSources.length = .error .outOfBounds ∧
    Node.setSource exGenerators 0 1 0 = .error .outOfBounds ∧
    Node.setSource exGraph 0 1 1 = .error .outOfBounds ∧
    (∀ b, (g n).mSources.length < b → Node.setSource g n source b = .error .audioExc) := by
  refine ⟨?_, rfl, rfl, ?_⟩
  · simp [Node.setSource]
  · intro b hb
    simp [Node.setSource, hb]

/-- C3 (counterexample): slot 0 of node 2 holds node 0; `setSource( node 1, 0 )` on node 2
returns normally, and the slot then holds node 1, whose parent is node 2. -/
theorem setSource_occupied_counterexample :
    (exGraph 2).mSources[0]? = some (some 0) ∧
    ∃ g1, Node.setSource exGraph 2 1 0 = .ok g1 ∧
      (g1 2).mSources[0]? = some (some 1) ∧ (g1 1).mParent = some 2 :=
  ⟨rfl, _, rfl, rfl, rfl⟩

/-- C3 (amended): on a bus `b` of `n` whose slot already holds a source, `n.setSource(other, b)`
returns normally; the slot then holds `other`, the parent of `other` is `n`, and the number of
slots and every other slot are unchanged. -/
theorem setSource_occupied_overwrites (g : Graph) (n other old : NodeId) (b : Nat)
    (hocc : (g n).mSources[b]? = some (some old)) :
    ∃ g1, Node.setSource g n other b = .ok g1 ∧
      (g1 n).mSources[b]? = some (some other) ∧
      (g1 other).mParent = some n ∧
      (g1 n).mSources.length = (g n).mSources.length ∧
      (∀ i, i ≠ b → (g1 n).mSources[i]? = (g n).mSources[i]?) := by
  have hb : b < (g n).mSources.length := by
    rcases List.getElem?_eq_some.mp hocc with ⟨h, _⟩
    exact h
  refine ⟨_, Node.setSource_in_range g n other b hb, ?_, ?_, ?_, ?_⟩
  · rw [Node.setParent_sources, Graph.put_same]
    simp [List.getElem?_set, hb]
  · exact Node.setParent_parent _ _ _
  · rw [Node.setParent_sources, Graph.put_same]
    simp
  · intro i hi
    rw [Node.setParent_sources, Graph.put_same]
    simp [List.getElem?_set, Ne.symm hi]

theorem setSource_occupied_overwrites_witness :
    (exGraph 2).mSources[0]? = some (some 0) ∧
    ∃ g1, Node.setSource exGraph 2 1 0 = .ok g1 ∧
      (g1 2).mSources[0]? = some (some 1) ∧
      (g1 1).mParent = some 2 ∧
      (g1 2).mSources.length = (exGraph 2).mSources.length ∧
      (∀ i, i ≠ 0 → (g1 2).mSources[i]? = (exGraph 2).mSources[i]?) :=
  ⟨rfl, setSource_occupied_overwrites exGraph 2 1 0 0 rfl⟩

theorem Node.fillFormatParamsFromFormat_zero (g : Graph) (n : NodeId) (f : Format)
    (hf : f.mNumChannels = 0) : Node.fillFormatParamsFromFormat g n f = g := by
  unfold Node.fillFormatParamsFromFormat
  split
  · rename_i h0
    funext j
    by_cases hj : j = n
    · subst hj
      rw [Graph.put_same]
      rcases hg : g j with ⟨src, par, ⟨nc, w, a⟩, ini, en⟩
      rw [hg] at h0
      simp only [Format.getNumChannels] at h0
      simp [Format.setNumChannels, Format.getNumChannels, hf, h0]
    · rw [Graph.put_other _ _ _ _ hj]
  · rfl

theorem Node.fillFormatParamsFromFormat_resolved (g : Graph) (n : NodeId) (f : Format)
    (hn : (g n).mFormat.mNumChannels ≠ 0) : Node.fillFormatParamsFromFormat g n f = g := by
  simp [Node.fillFormatParamsFromFormat, Format.getNumChannels, hn]

theorem Node.fillFormatParamsFromFormat_unresolved (g : Graph) (n : NodeId) (f : Format)
    (hn : (g n).mFormat.mNumChannels = 0) :
    Node.fillFormatParamsFromFormat g n f =
      g.put n { g n with mFormat := (g n).mFormat.setNumChannels f.getNumChannels } := by
  simp [Node.fillFormatParamsFromFormat, Format.getNumChannels, hn]

/-- The loop stops at the nearest node of the chain whose channel count is resolved. -/
theorem Node.parentLoop_resolves (g : Graph) (n a : NodeId)
    (hn : (g n).mFormat.mNumChannels = 0) (ha : (g a).mFormat.mNumChannels ≠ 0) :
    ∀ (k fuel : Nat) (p : NodeId), ancestor g p k = some a →
      (∀ j b, j < k → ancestor g p j = some b → (g b).mFormat.mNumChannels = 0) →
      k < fuel →
      Node.parentLoop n fuel (some p) g =
        .ok (g.put n
          { g n with mFormat := (g n).mFormat.setNumChannels (g a).mFormat.getNumChannels }) := by
  intro k
  induction k with
  | zero =>
    intro fuel p hp _ hfuel
    obtain ⟨f, rfl⟩ : ∃ f, fuel = f + 1 := ⟨fuel - 1, by omega⟩
    simp only [ancestor, Option.some.injEq] at hp
    subst hp
    simp only [Node.parentLoop]
    rw [Node.fillFormatParamsFromFormat_unresolved g n _ hn]
    simp [Graph.put_same, Format.isComplete, Format.setNumChannels, Format.getNumChannels, ha]
  | succ k ih =>
    intro fuel p hp hnear hfuel
    obtain ⟨f, rfl⟩ : ∃ f, fuel = f + 1 := ⟨fuel - 1, by omega⟩
    have hp0 : (g p).mFormat.mNumChannels = 0 := hnear 0 p (by omega) rfl
    simp only [Node.parentLoop]
    rw [Node.fillFormatParamsFromFormat_zero g n _ hp0]
    simp only [Format.isComplete, hn, Node.getParent]
    simp only [ancestor] at hp
    cases hpar : (g p).mParent with
    | none => rw [hpar] at hp; simp at hp
    | some q =>
      rw [hpar] at hp
      simp only [bne_self_eq_false, Bool.false_eq_true, if_false]
      apply ih f q hp _ (by omega)
      intro j b hj hb
      apply hnear (j + 1) b (by omega)
      simp only [ancestor, hpar]
      exact hb

/-- On a chain that ends, the loop returns: either it met a resolved node and took its channel
count, or no node of the chain is resolved and nothing changed. -/
theorem Node.parentLoop_total (g : Graph) (n : NodeId)
    (hn : (g n).mFormat.mNumChannels = 0) :
    ∀ (k fuel : Nat) (p : NodeId), ancestor g p k = none → k ≤ fuel →
      (∃ j a, ancestor g p j = some a ∧ (g a).mFormat.mNumChannels ≠ 0 ∧
        Node.parentLoop n fuel (some p) g =
          .ok (g.put n
            { g n with
              mFormat := (g n).mFormat.setNumChannels (g a).mFormat.getNumChannels })) ∨
      ((∀ j b, ancestor g p j = some b → (g b).mFormat.mNumChannels = 0) ∧
        Node.parentLoop n fuel (some p) g = .ok g) := by
  intro k
  induction k with
  | zero =>
    intro fuel p hp
    simp [ancestor] at hp
  | succ k ih =>
    intro fuel p hp hfuel
    obtain ⟨f, rfl⟩ : ∃ f, fuel = f + 1 := ⟨fuel - 1, by omega⟩
    by_cases hp0 : (g p).mFormat.mNumChannels = 0
    · simp only [Node.parentLoop]
      rw [Node.fillFormatParamsFromFormat_zero g n _ hp0]
      simp only [Format.isComplete, hn, Node.getParent]
      simp only [bne_self_eq_false, Bool.false_eq_true, if_false]
      simp only [ancestor] at hp
      cases hpar : (g p).mParent with
      | none =>
        right
        refine ⟨?_, by simp [Node.parentLoop]⟩
        intro j b hb
        cases j with
        | zero =>
          simp only [ancestor, Option.some.injEq] at hb
          subst hb
          exact hp0
        | succ j => simp [ancestor, hpar] at hb
      | some q =>
        rw [hpar] at hp
        rcases ih f q hp (by omega) with ⟨j, a, hja, ha, hres⟩ | ⟨hall, hres⟩
        · left
          refine ⟨j + 1, a, ?_, ha, hres⟩
          simp only [ancestor, hpar]
          exact hja
        · right
          refine ⟨?_, hres⟩
          intro j b hb
          cases j with
          | zero =>
            simp only [ancestor, Option.some.injEq] at hb
            subst hb
            exact hp0
          | succ j =>
            simp only [ancestor, hpar] at hb
            exact hall j b hb
    · left
      refine ⟨0, p, rfl, hp0, ?_⟩
      apply Node.parentLoop_resolves g n p hn hp0 0 (f + 1) p rfl _ (by omega)
      intro j b hj
      omega

/-- C5: if the channel count of `n` is unresolved and `a`, reached by `k ≥ 1` parent hops, is the
nearest ancestor with a resolved channel count, then `n.fillFormatParamsFromParent()` returns,
the channel count of `n` is then that of `a`, and no other node changed; and on any node `m`
whose channel count is already resolved the call changes nothing (it returns with the arena
as it was when `m` has a parent, and stops at the assertion on the parent when it has none). -/
theorem fillFormatParamsFromParent_nearest (g : Graph) (n a : NodeId) (k fuel : Nat)
    (hn : (g n).mFormat.getNumChannels = 0)
    (hk : 1 ≤ k) (hanc : ancestor g n k = some a)
    (ha : (g a).mFormat.getNumChannels ≠ 0)
    (hnear : ∀ j b, 1 ≤ j → j < k → ancestor g n j = some b →
      (g b).mFormat.getNumChannels = 0)
    (hfuel : k ≤ fuel) :
    (∃ g1, Node.fillFormatParamsFromParent fuel g n = .ok g1 ∧
      (g1 n).mFormat.getNumChannels = (g a).mFormat.getNumChannels ∧
      (∀ m, m ≠ n → g1 m = g m)) ∧
    (∀ (g2 : Graph) (m : NodeId), (g2 m).mFormat.getNumChannels ≠ 0 →
      (Node.getParent g2 m = none →
        Node.fillFormatParamsFromParent fuel g2 m = .error .assertFailed) ∧
      (Node.getParent g2 m ≠ none →
        Node.fillFormatParamsFromParent fuel g2 m = .ok g2)) := by
  obtain ⟨k, rfl⟩ : ∃ k0, k = k0 + 1 := ⟨k - 1, by omega⟩
  obtain ⟨f, rfl⟩ : ∃ f, fuel = f + 1 := ⟨fuel - 1, by omega⟩
  simp only [Format.getNumChannels] at hn ha hnear
  constructor
  · simp only [ancestor] at hanc
    cases hpar : (g n).mParent with
    | none => rw [hpar] at hanc; simp at hanc
    | some p =>
      rw [hpar] at hanc
      have hloop := Node.parentLoop_resolves g n a hn ha k (f + 1) p hanc
        (by
          intro j b hj hb
          apply hnear (j + 1) b (by omega) (by omega)
          simp only [ancestor, hpar]
          exact hb)
        (by omega)
      refine ⟨g.put n
        { g n with mFormat := (g n).mFormat.setNumChannels (g a).mFormat.getNumChannels },
        ?_, ?_, ?_⟩
      · simp only [Node.fillFormatParamsFromParent, Node.getParent, hpar, hloop]
        simp [Graph.put_same, Format.isComplete, Format.setNumChannels,
          Format.getNumChannels, ha]
      · simp [Graph.put_same, Format.setNumChannels, Format.getNumChannels]
      · intro m hm
        exact Graph.put_other _ _ _ _ hm
  · intro g2 m hm
    simp only [Format.getNumChannels] at hm
    constructor
    · intro hpar
      simp [Node.fillFormatParamsFromParent, hpar]
    · intro hpar
      cases hp : Node.getParent g2 m with
      | none => exact absurd hp hpar
      | some p =>
        simp only [Node.fillFormatParamsFromParent, hp, Node.parentLoop]
        rw [Node.fillFormatParamsFromFormat_resolved g2 m _ hm]
        simp [Format.isComplete, hm]

theorem fillFormatParamsFromParent_nearest_witness :
    (exParentChain 0).mFormat.getNumChannels = 0 ∧
    ancestor exParentChain 0 2 = some 2 ∧
    (exParentChain 2).mFormat.getNumChannels = 2 ∧
    (∃ g1, Node.fillFormatParamsFromParent 2 exParentChain 0 = .ok g1 ∧
      (g1 0).mFormat.getNumChannels = (exParentChain 2).mFormat.getNumChannels ∧
      (∀ m, m ≠ 0 → g1 m = exParentChain m)) ∧
    (∀ (g2 : Graph) (m : NodeId), (g2 m).mFormat.getNumChannels ≠ 0 →
      (Node.getParent g2 m = none →
        Node.fillFormatParamsFromParent 2 g2 m = .error .assertFailed) ∧
      (Node.getParent g2 m ≠ none →
        Node.fillFormatParamsFromParent 2 g2 m = .ok g2)) :=
  ⟨rfl, rfl, rfl,
    fillFormatParamsFromParent_nearest exParentChain 0 2 2 2 rfl (by decide) rfl (by decide)
      (by
        intro j b h1 h2 hb
        obtain rfl : j = 1 := by omega
        simp only [ancestor, exParentChain, Option.some.injEq] at hb
        subst hb
        rfl)
      (by decide)⟩

/-- C6 (counterexample): node 1 has a resolved channel count and no parent; the call stops at
the assertion on the parent, whatever the budget. -/
theorem fillFormatParamsFromParent_resolved_counterexample :
    (exGraph 1).mFormat.isComplete = true ∧ Node.getParent exGraph 1 = none ∧
    ∀ fuel, Node.fillFormatParamsFromParent fuel exGraph 1 = .error .assertFailed :=
  ⟨rfl, rfl, fun _ => rfl⟩

/-- C6 (amended): on a node `n` whose parent chain ends, `n.fillFormatParamsFromParent()` fails
its assertion if and only if `n` has no parent or neither `n` nor any of its ancestors has a
resolved channel count; in every other case it returns normally. -/
theorem fillFormatParamsFromParent_fails_iff (g : Graph) (n : NodeId) (k fuel : Nat)
    (hfin : ancestor g n k = none) (hfuel : k ≤ fuel) :
    (Node.fillFormatParamsFromParent fuel g n = .error .assertFailed ↔
      (Node.getParent g n = none ∨
        ∀ j b, ancestor g n j = some b → (g b).mFormat.getNumChannels = 0)) ∧
    (Node.fillFormatParamsFromParent fuel g n = .error .assertFailed ∨
      ∃ g1, Node.fillFormatParamsFromParent fuel g n = .ok g1) := by
  cases hpar : (g n).mParent with
  | none =>
    have herr : Node.fillFormatParamsFromParent fuel g n = .error .assertFailed := by
      simp [Node.fillFormatParamsFromParent, Node.getParent, hpar]
    exact ⟨⟨fun _ => Or.inl hpar, fun _ => herr⟩, Or.inl herr⟩
  | some p =>
    cases k with
    | zero => simp [ancestor] at hfin
    | succ k =>
      simp only [ancestor, hpar] at hfin
      obtain ⟨f, rfl⟩ : ∃ f, fuel = f + 1 := ⟨fuel - 1, by omega⟩
      by_cases hn : (g n).mFormat.mNumChannels = 0
      · rcases Node.parentLoop_total g n hn k (f + 1) p hfin (by omega) with
          ⟨j, a, hja, ha, hres⟩ | ⟨hall, hres⟩
        · have hok : Node.fillFormatParamsFromParent (f + 1) g n =
              .ok (g.put n { g n with
                mFormat := (g n).mFormat.setNumChannels (g a).mFormat.getNumChannels }) := by
            simp only [Node.fillFormatParamsFromParent, Node.getParent, hpar, hres]
            simp [Graph.put_same, Format.isComplete, Format.setNumChannels,
              Format.getNumChannels, ha]
          refine ⟨⟨fun h => ?_, fun h => ?_⟩, Or.inr ⟨_, hok⟩⟩
          · rw [hok] at h
            cases h
          · rcases h with h | h
            · simp [Node.getParent, hpar] at h
            · have h0 := h (j + 1) a (by simp only [ancestor, hpar]; exact hja)
              exact absurd h0 ha
        · have herr : Node.fillFormatParamsFromParent (f + 1) g n = .error .assertFailed := by
            simp only [Node.fillFormatParamsFromParent, Node.getParent, hpar, hres]
            simp [Format.isComplete, hn]
          refine ⟨⟨fun _ => Or.inr ?_, fun _ => herr⟩, Or.inl herr⟩
          intro j b hb
          cases j with
          | zero =>
            simp only [ancestor, Option.some.injEq] at hb
            subst hb
            exact hn
          | succ j =>
            simp only [ancestor, hpar] at hb
            exact hall j b hb
      · have hok : Node.fillFormatParamsFromParent (f + 1) g n = .ok g := by
          simp only [Node.fillFormatParamsFromParent, Node.getParent, hpar, Node.parentLoop]
          rw [Node.fillFormatParamsFromFormat_resolved g n _ hn]
          simp [Format.isComplete, hn]
        refine ⟨⟨fun h => ?_, fun h => ?_⟩, Or.inr ⟨_, hok⟩⟩
        · rw [hok] at h
          cases h
        · rcases h with h | h
          · simp [Node.getParent, hpar] at h
          · exact absurd (h 0 n rfl) hn

theorem fillFormatParamsFromParent_fails_iff_witness :
    ancestor exParentChain 0 3 = none ∧
    (Node.fillFormatParamsFromParent 3 exParentChain 0 = .error .assertFailed ↔
      (Node.getParent exParentChain 0 = none ∨
        ∀ j b, ancestor exParentChain 0 j = some b →
          (exParentChain b).mFormat.getNumChannels = 0)) ∧
    (Node.fillFormatParamsFromParent 3 exParentChain 0 = .error .assertFailed ∨
      ∃ g1, Node.fillFormatParamsFromParent 3 exParentChain 0 = .ok g1) :=
  ⟨rfl, fillFormatParamsFromParent_fails_iff exParentChain 0 3 3 rfl (by decide)⟩

/-- C7 (counterexample): in the chain `0 → 1 → 2` of first sources only the farther source,
node 0, is resolved (2 channels); `fillFormatParamsFromSource` on node 2 reads node 1 alone and
stops at its assertion, leaving node 2 unresolved. -/
theorem fillFormatParamsFromSource_counterexample :
    (exSourceChain 2).mFormat.getNumChannels = 0 ∧
    firstSourceChain exSourceChain 2 1 = some 1 ∧
    (exSourceChain 1).mFormat.getNumChannels = 0 ∧
    firstSourceChain exSourceChain 2 2 = some 0 ∧
    (exSourceChain 0).mFormat.getNumChannels = 2 ∧
    Node.fillFormatParamsFromSource exSourceChain 2 = .error .assertFailed :=
  ⟨rfl, rfl, rfl, rfl, rfl, rfl⟩

/-- C7 (amended): on a node `n` with unresolved channel count whose bus 0 holds the source `s`,
`n.fillFormatParamsFromSource()` reads `s` alone: if `s` is resolved the call returns, `n` has
the channel count of `s` and no other node changed; if `s` is unresolved the call fails its
assertion, whatever lies farther along the chain of first sources. -/
theorem fillFormatParamsFromSource_first_only (g : Graph) (n s : NodeId)
    (hn : (g n).mFormat.getNumChannels = 0)
    (hs : firstSourceChain g n 1 = some s) :
    ((g s).mFormat.getNumChannels ≠ 0 →
      ∃ g1, Node.fillFormatParamsFromSource g n = .ok g1 ∧
        (g1 n).mFormat.getNumChannels = (g s).mFormat.getNumChannels ∧
        (∀ m, m ≠ n → g1 m = g m)) ∧
    ((g s).mFormat.getNumChannels = 0 →
      Node.fillFormatParamsFromSource g n = .error .assertFailed) := by
  simp only [Format.getNumChannels] at hn
  have hsrc : ∃ rest, (g n).mSources = some s :: rest := by
    simp only [firstSourceChain] at hs
    split at hs
    · rename_i s1 rest heq
      simp only [Option.some.injEq] at hs
      subst hs
      exact ⟨rest, heq⟩
    · cases hs
  obtain ⟨rest, hsrc⟩ := hsrc
  have hdef : Node.fillFormatParamsFromSource g n =
      if ((Node.fillFormatParamsFromFormat g n (g s).mFormat) n).mFormat.isComplete then
        .ok (Node.fillFormatParamsFromFormat g n (g s).mFormat)
      else .error .assertFailed := by
    unfold Node.fillFormatParamsFromSource
    rw [hsrc]
  constructor
  · intro hres
    simp only [Format.getNumChannels] at hres
    refine ⟨g.put n
      { g n with mFormat := (g n).mFormat.setNumChannels (g s).mFormat.getNumChannels },
      ?_, ?_, ?_⟩
    · rw [hdef, Node.fillFormatParamsFromFormat_unresolved g n _ hn]
      simp [Graph.put_same, Format.isComplete, Format.setNumChannels,
        Format.getNumChannels, hres]
    · simp [Graph.put_same, Format.setNumChannels, Format.getNumChannels]
    · intro m hm
      exact Graph.put_other _ _ _ _ hm
  · intro hzero
    simp only [Format.getNumChannels] at hzero
    rw [hdef, Node.fillFormatParamsFromFormat_zero g n _ hzero]
    simp [Format.isComplete, hn]

theorem fillFormatParamsFromSource_first_only_witness :
    (exSourceChain 1).mFormat.getNumChannels = 0 ∧
    firstSourceChain exSourceChain 1 1 = some 0 ∧
    (((exSourceChain 0).mFormat.getNumChannels ≠ 0 →
      ∃ g1, Node.fillFormatParamsFromSource exSourceChain 1 = .ok g1 ∧
        (g1 1).mFormat.getNumChannels = (exSourceChain 0).mFormat.getNumChannels ∧
        (∀ m, m ≠ 1 → g1 m = exSourceChain m)) ∧
    ((exSourceChain 0).mFormat.getNumChannels = 0 →
      Node.fillFormatParamsFromSource exSourceChain 1 = .error .assertFailed)) :=
  ⟨rfl, rfl, fillFormatParamsFromSource_first_only exSourceChain 1 0 rfl rfl⟩

theorem Context.Frame.refl (c : Context) : Context.Frame c c :=
  ⟨fun _ => ⟨rfl, rfl⟩, rfl, rfl, rfl, rfl⟩

theorem Context.Frame.trans {c c1 c2 : Context} (h1 : Context.Frame c c1)
    (h2 : Context.Frame c1 c2) : Context.Frame c c2 := by
  obtain ⟨a1, b1, d1, e1, f1⟩ := h1
  obtain ⟨a2, b2, d2, e2, f2⟩ := h2
  refine ⟨fun i => ⟨(a2 i).1.trans (a1 i).1, (a2 i).2.trans (a1 i).2⟩,
    b2.trans b1, d2.trans d1, e2.trans e1, f2.trans f1⟩

theorem Context.nodeStart_frame (c : Context) (id : NodeId) :
    Context.Frame c (c.nodeStart id) := by
  refine ⟨fun i => ?_, rfl, rfl, rfl, rfl⟩
  by_cases h : i = id <;> simp [Context.nodeStart, Graph.put, h]

theorem Context.nodeStop_frame (c : Context) (id : NodeId) :
    Context.Frame c (c.nodeStop id) := by
  refine ⟨fun i => ?_, rfl, rfl, rfl, rfl⟩
  by_cases h : i = id <;> simp [Context.nodeStop, Graph.put, h]

theorem Context.forEachSource_frame (f : Option NodeId → Context → Except Exc Context)
    (hf : ∀ s c c1, f s c = .ok c1 → Context.Frame c c1) :
    ∀ (l : List (Option NodeId)) (c c1 : Context),
      Context.forEachSource f l c = .ok c1 → Context.Frame c c1 := by
  intro l
  induction l with
  | nil =>
    intro c c1 h
    simp only [Context.forEachSource, Except.ok.injEq] at h
    subst h
    exact Context.Frame.refl c
  | cons s rest ih =>
    intro c c1 h
    simp only [Context.forEachSource] at h
    cases hs : f s c with
    | error e => rw [hs] at h; cases h
    | ok c2 =>
      rw [hs] at h
      exact (hf s c c2 hs).trans (ih c2 c1 h)

theorem Context.startNode_none (fuel : Nat) (c : Context) :
    Context.startNode fuel none c = .ok c := by
  cases fuel <;> rfl

theorem Context.stopNode_none (fuel : Nat) (c : Context) :
    Context.stopNode fuel none c = .ok c := by
  cases fuel <;> rfl

theorem Context.startNode_frame :
    ∀ (fuel : Nat) (node : Option NodeId) (c c1 : Context),
      Context.startNode fuel node c = .ok c1 → Context.Frame c c1 := by
  intro fuel
  induction fuel with
  | zero =>
    intro node c c1 h
    cases node with
    | none =>
      simp only [Context.startNode, Except.ok.injEq] at h
      subst h
      exact Context.Frame.refl c
    | some id => simp [Context.startNode] at h
  | succ fuel ih =>
    intro node c c1 h
    cases node with
    | none =>
      simp only [Context.startNode, Except.ok.injEq] at h
      subst h
      exact Context.Frame.refl c
    | some id =>
      simp only [Context.startNode] at h
      cases hs : Context.forEachSource (Context.startNode fuel) (c.nodes id).mSources c with
      | error e => rw [hs] at h; cases h
      | ok c2 =>
        rw [hs] at h
        have h2 := Context.forEachSource_frame _ ih _ _ _ hs
        simp only [] at h
        split at h
        · simp only [Except.ok.injEq] at h
          subst h
          exact h2.trans (Context.nodeStart_frame c2 id)
        · simp only [Except.ok.injEq] at h
          subst h
          exact h2

theorem Forest.shape_congr (g g1 : Graph) (h : ∀ i, (g1 i).mSources = (g i).mSources) :
    ∀ f : Forest, f.shape g1 = f.shape g := by
  intro f
  induction f with
  | nil => rfl
  | empty rest ih => simpa [Forest.shape] using ih
  | node id sources rest ih1 ih2 => simp [Forest.shape, ih1, ih2, h id]

/-- The traversal of a forest held by the arena returns, and the calls it makes are the
post-order listing restricted to the auto-enabled nodes. -/
theorem Context.startNode_forest :
    ∀ (f : Forest) (fuel : Nat) (c : Context), f.shape c.nodes = true → f.depth ≤ fuel →
      ∃ c1, Context.forEachSource (Context.startNode fuel) f.slots c = .ok c1 ∧
        c1.calls = c.calls ++
          (f.postOrder.filter (fun i => (c.nodes i).mFormat.isAutoEnabled)).map
            Call.nodeStart := by
  intro f
  induction f with
  | nil =>
    intro fuel c _ _
    exact ⟨c, rfl, by simp [Forest.postOrder]⟩
  | empty rest ih =>
    intro fuel c hshape hdepth
    obtain ⟨c1, h1, h2⟩ := ih fuel c hshape hdepth
    refine ⟨c1, ?_, h2⟩
    simp only [Forest.slots, Context.forEachSource, Context.startNode_none]
    exact h1
  | node id sources rest ih1 ih2 =>
    intro fuel c hshape hdepth
    simp only [Forest.shape, Bool.and_eq_true, decide_eq_true_eq] at hshape
    obtain ⟨⟨hslots, hsh1⟩, hsh2⟩ := hshape
    simp only [Forest.depth] at hdepth
    obtain ⟨fl, rfl⟩ : ∃ fl, fuel = fl + 1 := ⟨fuel - 1, by omega⟩
    obtain ⟨c1, hc1, hcalls1⟩ := ih1 fl c hsh1 (by omega)
    have hfr1 : Context.Frame c c1 :=
      Context.forEachSource_frame _ (Context.startNode_frame fl) _ _ _ hc1
    by_cases hauto : (c.nodes id).mFormat.isAutoEnabled = true
    · have hstep : Context.startNode (fl + 1) (some id) c = .ok (c1.nodeStart id) := by
        simp only [Context.startNode, hslots, hc1, (hfr1.1 id).2, hauto, if_true]
      have hfr2 : Context.Frame c (c1.nodeStart id) :=
        hfr1.trans (Context.nodeStart_frame c1 id)
      have hsh2' : rest.shape (c1.nodeStart id).nodes = true := by
        rw [Forest.shape_congr c.nodes _ (fun i => (hfr2.1 i).1)]
        exact hsh2
      obtain ⟨c3, hc3, hcalls3⟩ := ih2 (fl + 1) (c1.nodeStart id) hsh2' (by omega)
      refine ⟨c3, ?_, ?_⟩
      · simp only [Forest.slots, Context.forEachSource, hstep]
        exact hc3
      · rw [hcalls3]
        have hfilt : (fun i => ((c1.nodeStart id).nodes i).mFormat.isAutoEnabled) =
            (fun i => (c.nodes i).mFormat.isAutoEnabled) := by
          funext i
          rw [(hfr2.1 i).2]
        rw [hfilt]
        simp [Context.nodeStart, hcalls1, Forest.postOrder, List.filter_cons, hauto]
    · have hstep : Context.startNode (fl + 1) (some id) c = .ok c1 := by
        simp only [Context.startNode, hslots, hc1, (hfr1.1 id).2, hauto]
        simp
      have hsh2' : rest.shape c1.nodes = true := by
        rw [Forest.shape_congr c.nodes _ (fun i => (hfr1.1 i).1)]
        exact hsh2
      obtain ⟨c3, hc3, hcalls3⟩ := ih2 (fl + 1) c1 hsh2' (by omega)
      refine ⟨c3, ?_, ?_⟩
      · simp only [Forest.slots, Context.forEachSource, hstep]
        exact hc3
      · rw [hcalls3]
        have hfilt : (fun i => (c1.nodes i).mFormat.isAutoEnabled) =
            (fun i => (c.nodes i).mFormat.isAutoEnabled) := by
          funext i
          rw [(hfr1.1 i).2]
        rw [hfilt]
        simp [hcalls1, Forest.postOrder, List.filter_cons, hauto]

theorem Context.startNode_tree (c : Context) (root : NodeId) (sources : Forest) (fuel : Nat)
    (hshape : (Forest.node root sources .nil).shape c.nodes = true)
    (hfuel : (Forest.node root sources .nil).depth ≤ fuel) :
    ∃ c1, Context.startNode fuel (some root) c = .ok c1 ∧
      c1.calls = c.calls ++
        ((Forest.node root sources .nil).postOrder.filter
          (fun i => (c.nodes i).mFormat.isAutoEnabled)).map Call.nodeStart := by
  obtain ⟨c1, h1, h2⟩ := Context.startNode_forest _ fuel c hshape hfuel
  refine ⟨c1, ?_, h2⟩
  simp only [Forest.slots, Context.forEachSource] at h1
  cases hs : Context.startNode fuel (some root) c with
  | error e => rw [hs] at h1; cases h1
  | ok c2 =>
    rw [hs] at h1
    simp only [Except.ok.injEq] at h1
    rw [h1]

theorem Context.start_of_disabled (c : Context) (root : NodeId) (fuel : Nat)
    (hdis : c.mEnabled = false) (hroot : c.mRoot = some root) :
    c.start fuel = Context.startNode fuel (some root) { c with mEnabled := true } := by
  obtain ⟨nodes, num, r, en, ini, calls⟩ := c
  dsimp only at hdis hroot
  subst hdis
  subst hroot
  rfl

/-- C8: on a context that is not enabled and whose root carries a finite tree, `Context.start()`
returns, and the node `start()` calls it makes are, in order, the post-order listing of the tree
(sources in bus order before the node, empty slots skipped) restricted to the auto-enabled
nodes; a node that is not auto-enabled gets no call. -/
theorem Context.start_calls_postOrder (c : Context) (root : NodeId) (sources : Forest)
    (fuel : Nat) (hdis : c.mEnabled = false) (hroot : c.mRoot = some root)
    (hshape : (Forest.node root sources .nil).shape c.nodes = true)
    (hfuel : (Forest.node root sources .nil).depth ≤ fuel) :
    ∃ c1, c.start fuel = .ok c1 ∧
      c1.calls = c.calls ++
        ((Forest.node root sources .nil).postOrder.filter
          (fun i => (c.nodes i).mFormat.isAutoEnabled)).map Call.nodeStart := by
  obtain ⟨c1, h1, h2⟩ :=
    Context.startNode_tree { c with mEnabled := true } root sources fuel hshape hfuel
  refine ⟨c1, ?_, h2⟩
  rw [Context.start_of_disabled c root fuel hdis hroot]
  exact h1

theorem Context.start_calls_postOrder_witness :
    exTreeContext.mEnabled = false ∧ exTreeContext.mRoot = some 3 ∧
    exTree.shape exTreeContext.nodes = true ∧ exTree.postOrder = [1, 0, 2, 3] ∧
    ∃ c1, exTreeContext.start 3 = .ok c1 ∧
      c1.calls = exTreeContext.calls ++
        (exTree.postOrder.filter
          (fun i => (exTreeContext.nodes i).mFormat.isAutoEnabled)).map Call.nodeStart :=
  ⟨rfl, rfl, by decide, by decide,
    Context.start_calls_postOrder exTreeContext 3
      (.node 1 .nil (.empty (.node 2 (.node 0 .nil .nil) .nil))) 3 rfl rfl (by decide)
      (by decide)⟩

/-- C9: `Context.start()` on an enabled context and `Context.stop()` on a context that is not
enabled return at once with the state, the record of node calls included, as it was; and
`start(); start()` has the outcome of a single `start()`. -/
theorem Context.start_stop_idempotent (c : Context) (fuel : Nat) :
    Context.start fuel { c with mEnabled := true } = .ok { c with mEnabled := true } ∧
    ((c.start fuel).bind (Context.start fuel) = c.start fuel) ∧
    Context.stop fuel { c with mEnabled := false } = .ok { c with mEnabled := false } := by
  refine ⟨by simp [Context.start], ?_, by simp [Context.stop]⟩
  cases hs : c.start fuel with
  | error e => rfl
  | ok c1 =>
    have hen : c1.mEnabled = true := by
      unfold Context.start at hs
      split at hs
      · rename_i h
        simp only [Except.ok.injEq] at hs
        rw [← hs]
        exact h
      · split at hs
        · cases hs
        · exact (Context.startNode_frame _ _ _ _ hs).2.2.1
    simp only [Except.bind]
    simp [Context.start, hen]

/-- C10 (counterexample): on a context that is not enabled and has no root, `Context.start()`
stops at its assertion on the root, whatever the budget; no root is created. -/
theorem Context.start_no_root_counterexample :
    exNoRoot.mEnabled = false ∧ exNoRoot.mRoot = none ∧
    ∀ fuel, exNoRoot.start fuel = .error .assertFailed :=
  ⟨rfl, rfl, fun _ => rfl⟩

/-- C10 (amended): on a context that is not enabled and has no root, `Context.start()` fails its
assertion; the root is created by `getRoot()`, which calls `createOutput` once and not again on
a second call; `start()` after `getRoot()` returns when the tree under the new root is finite,
and the context then is enabled, has the root, and its record holds the one `createOutput`
followed by node `start()` calls only. -/
theorem Context.start_after_getRoot (c : Context) (out : Node) (sources : Forest) (fuel : Nat)
    (hdis : c.mEnabled = false) (hroot : c.mRoot = none)
    (hshape : (Forest.node c.numNodes sources .nil).shape (c.getRoot out).1.nodes = true)
    (hfuel : (Forest.node c.numNodes sources .nil).depth ≤ fuel) :
    c.start fuel = .error .assertFailed ∧
    (c.getRoot out).2 = c.numNodes ∧
    (c.getRoot out).1.mRoot = some c.numNodes ∧
    (c.getRoot out).1.calls = c.calls ++ [Call.createOutput] ∧
    (c.getRoot out).1.getRoot out = ((c.getRoot out).1, c.numNodes) ∧
    ∃ c1, (c.getRoot out).1.start fuel = .ok c1 ∧
      c1.mEnabled = true ∧ c1.mRoot = some c.numNodes ∧
      c1.calls = c.calls ++ Call.createOutput ::
        ((Forest.node c.numNodes sources .nil).postOrder.filter
          (fun i => ((c.getRoot out).1.nodes i).mFormat.isAutoEnabled)).map
          Call.nodeStart := by
  have hg2 : (c.getRoot out).2 = c.numNodes := by
    simp [Context.getRoot, hroot, Context.createOutput]
  have hgroot : (c.getRoot out).1.mRoot = some c.numNodes := by
    simp [Context.getRoot, hroot, Context.createOutput]
  have hgcalls : (c.getRoot out).1.calls = c.calls ++ [Call.createOutput] := by
    simp [Context.getRoot, hroot, Context.createOutput]
  have hgdis : (c.getRoot out).1.mEnabled = false := by
    simp [Context.getRoot, hroot, Context.createOutput, hdis]
  refine ⟨?_, hg2, hgroot, hgcalls, ?_, ?_⟩
  · simp [Context.start, hdis, hroot]
  · generalize hc2 : (c.getRoot out).1 = c2 at hgroot
    simp [Context.getRoot, hgroot]
  · obtain ⟨c1, h1, h2⟩ :=
      Context.startNode_tree { (c.getRoot out).1 with mEnabled := true } c.numNodes sources
        fuel hshape hfuel
    have hfr := Context.startNode_frame _ _ _ _ h1
    refine ⟨c1, ?_, hfr.2.2.1, ?_, ?_⟩
    · rw [Context.start_of_disabled _ c.numNodes fuel hgdis hgroot]
      exact h1
    · rw [hfr.2.1]
      exact hgroot
    · rw [h2]
      simp [hgcalls]

theorem Context.start_after_getRoot_witness :
    exNoRoot.mEnabled = false ∧ exNoRoot.mRoot = none ∧
    exNoRoot.start 1 = .error .assertFailed ∧
    (exNoRoot.getRoot Node.ctor).2 = exNoRoot.numNodes ∧
    (exNoRoot.getRoot Node.ctor).1.mRoot = some exNoRoot.numNodes ∧
    (exNoRoot.getRoot Node.ctor).1.calls = exNoRoot.calls ++ [Call.createOutput] ∧
    (exNoRoot.getRoot Node.ctor).1.getRoot Node.ctor =
      ((exNoRoot.getRoot Node.ctor).1, exNoRoot.numNodes) ∧
    ∃ c1, (exNoRoot.getRoot Node.ctor).1.start 1 = .ok c1 ∧
      c1.mEnabled = true ∧ c1.mRoot = some exNoRoot.numNodes ∧
      c1.calls = exNoRoot.calls ++ Call.createOutput ::
        ((Forest.node exNoRoot.numNodes (.empty .nil) .nil).postOrder.filter
          (fun i => ((exNoRoot.getRoot Node.ctor).1.nodes i).mFormat.isAutoEnabled)).map
          Call.nodeStart :=
  ⟨rfl, rfl,
    Context.start_after_getRoot exNoRoot Node.ctor (.empty .nil) 1 rfl rfl (by decide)
      (by decide)⟩

theorem Context.stopNode_frame :
    ∀ (fuel : Nat) (node : Option NodeId) (c c1 : Context),
      Context.stopNode fuel node c = .ok c1 → Context.Frame c c1 := by
  intro fuel
  induction fuel with
  | zero =>
    intro node c c1 h
    cases node with
    | none =>
      simp only [Context.stopNode, Except.ok.injEq] at h
      subst h
      exact Context.Frame.refl c
    | some id => simp [Context.stopNode] at h
  | succ fuel ih =>
    intro node c c1 h
    cases node with
    | none =>
      simp only [Context.stopNode, Except.ok.injEq] at h
      subst h
      exact Context.Frame.refl c
    | some id =>
      simp only [Context.stopNode] at h
      cases hs : Context.forEachSource (Context.stopNode fuel) (c.nodes id).mSources c with
      | error e => rw [hs] at h; cases h
      | ok c2 =>
        rw [hs] at h
        have h2 := Context.forEachSource_frame _ ih _ _ _ hs
        simp only [] at h
        split at h
        · simp only [Except.ok.injEq] at h
          subst h
          exact h2.trans (Context.nodeStop_frame c2 id)
        · simp only [Except.ok.injEq] at h
          subst h
          exact h2

/-- The stop traversal of a forest held by the arena returns, and the calls it makes are the
post-order listing restricted to the auto-enabled nodes. -/
theorem Context.stopNode_forest :
    ∀ (f : Forest) (fuel : Nat) (c : Context), f.shape c.nodes = true → f.depth ≤ fuel →
      ∃ c1, Context.forEachSource (Context.stopNode fuel) f.slots c = .ok c1 ∧
        c1.calls = c.calls ++
          (f.postOrder.filter (fun i => (c.nodes i).mFormat.isAutoEnabled)).map
            Call.nodeStop := by
  intro f
  induction f with
  | nil =>
    intro fuel c _ _
    exact ⟨c, rfl, by simp [Forest.postOrder]⟩
  | empty rest ih =>
    intro fuel c hshape hdepth
    obtain ⟨c1, h1, h2⟩ := ih fuel c hshape hdepth
    refine ⟨c1, ?_, h2⟩
    simp only [Forest.slots, Context.forEachSource, Context.stopNode_none]
    exact h1
  | node id sources rest ih1 ih2 =>
    intro fuel c hshape hdepth
    simp only [Forest.shape, Bool.and_eq_true, decide_eq_true_eq] at hshape
    obtain ⟨⟨hslots, hsh1⟩, hsh2⟩ := hshape
    simp only [Forest.depth] at hdepth
    obtain ⟨fl, rfl⟩ : ∃ fl, fuel = fl + 1 := ⟨fuel - 1, by omega⟩
    obtain ⟨c1, hc1, hcalls1⟩ := ih1 fl c hsh1 (by omega)
    have hfr1 : Context.Frame c c1 :=
      Context.forEachSource_frame _ (Context.stopNode_frame fl) _ _ _ hc1
    by_cases hauto : (c.nodes id).mFormat.isAutoEnabled = true
    · have hstep : Context.stopNode (fl + 1) (some id) c = .ok (c1.nodeStop id) := by
        simp only [Context.stopNode, hslots, hc1, (hfr1.1 id).2, hauto, if_true]
      have hfr2 : Context.Frame c (c1.nodeStop id) :=
        hfr1.trans (Context.nodeStop_frame c1 id)
      have hsh2' : rest.shape (c1.nodeStop id).nodes = true := by
        rw [Forest.shape_congr c.nodes _ (fun i => (hfr2.1 i).1)]
        exact hsh2
      obtain ⟨c3, hc3, hcalls3⟩ := ih2 (fl + 1) (c1.nodeStop id) hsh2' (by omega)
      refine ⟨c3, ?_, ?_⟩
      · simp only [Forest.slots, Context.forEachSource, hstep]
        exact hc3
      · rw [hcalls3]
        have hfilt : (fun i => ((c1.nodeStop id).nodes i).mFormat.isAutoEnabled) =
            (fun i => (c.nodes i).mFormat.isAutoEnabled) := by
          funext i
          rw [(hfr2.1 i).2]
        rw [hfilt]
        simp [Context.nodeStop, hcalls1, Forest.postOrder, List.filter_cons, hauto]
    · have hstep : Context.stopNode (fl + 1) (some id) c = .ok c1 := by
        simp only [Context.stopNode, hslots, hc1, (hfr1.1 id).2, hauto]
        simp
      have hsh2' : rest.shape c1.nodes = true := by
        rw [Forest.shape_congr c.nodes _ (fun i => (hfr1.1 i).1)]
        exact hsh2
      obtain ⟨c3, hc3, hcalls3⟩ := ih2 (fl + 1) c1 hsh2' (by omega)
      refine ⟨c3, ?_, ?_⟩
      · simp only [Forest.slots, Context.forEachSource, hstep]
        exact hc3
      · rw [hcalls3]
        have hfilt : (fun i => (c1.nodes i).mFormat.isAutoEnabled) =
            (fun i => (c.nodes i).mFormat.isAutoEnabled) := by
          funext i
          rw [(hfr1.1 i).2]
        rw [hfilt]
        simp [hcalls1, Forest.postOrder, List.filter_cons, hauto]

theorem Context.stopNode_tree (c : Context) (root : NodeId) (sources : Forest) (fuel : Nat)
    (hshape : (Forest.node root sources .nil).shape c.nodes = true)
    (hfuel : (Forest.node root sources .nil).depth ≤ fuel) :
    ∃ c1, Context.stopNode fuel (some root) c = .ok c1 ∧
      c1.calls = c.calls ++
        ((Forest.node root sources .nil).postOrder.filter
          (fun i => (c.nodes i).mFormat.isAutoEnabled)).map Call.nodeStop := by
  obtain ⟨c1, h1, h2⟩ := Context.stopNode_forest _ fuel c hshape hfuel
  refine ⟨c1, ?_, h2⟩
  simp only [Forest.slots, Context.forEachSource] at h1
  cases hs : Context.stopNode fuel (some root) c with
  | error e => rw [hs] at h1; cases h1
  | ok c2 =>
    rw [hs] at h1
    simp only [Except.ok.injEq] at h1
    rw [h1]

theorem Context.stop_of_enabled (c : Context) (root : NodeId) (fuel : Nat)
    (hen : c.mEnabled = true) (hroot : c.mRoot = some root) :
    c.stop fuel = Context.stopNode fuel (some root) { c with mEnabled := false } := by
  obtain ⟨nodes, num, r, en, ini, calls⟩ := c
  dsimp only at hen hroot
  subst hen
  subst hroot
  rfl

/-- C11 (counterexample): in the enabled context over `exTreeGraph` the root 3 is auto-enabled
and so is node 2, which sits in a source slot of the root; `Context.stop()` stops node 0, then
node 2, and the root last. -/
theorem Context.stop_order_counterexample :
    exTreeEnabled.mEnabled = true ∧ exTreeEnabled.mRoot = some 3 ∧
    (exTreeEnabled.nodes 3).mSources = [some 1, none, some 2] ∧
    (exTreeEnabled.nodes 3).mFormat.isAutoEnabled = true ∧
    (exTreeEnabled.nodes 2).mFormat.isAutoEnabled = true ∧
    ∃ c1, exTreeEnabled.stop 3 = .ok c1 ∧
      c1.calls = [Call.nodeStop 0, Call.nodeStop 2, Call.nodeStop 3] :=
  ⟨rfl, rfl, rfl, rfl, rfl, _, rfl, rfl⟩

/-- C11 (amended): on an enabled context whose root carries a finite tree, `Context.stop()`
clears the enabled flag of the context and returns, and the node `stop()` calls it makes are,
in order, the post-order listing of the tree restricted to the auto-enabled nodes: the sources
of a node, in bus order, are stopped before the node, the root last. -/
theorem Context.stop_calls_postOrder (c : Context) (root : NodeId) (sources : Forest)
    (fuel : Nat) (hen : c.mEnabled = true) (hroot : c.mRoot = some root)
    (hshape : (Forest.node root sources .nil).shape c.nodes = true)
    (hfuel : (Forest.node root sources .nil).depth ≤ fuel) :
    ∃ c1, c.stop fuel = .ok c1 ∧ c1.mEnabled = false ∧
      c1.calls = c.calls ++
        ((Forest.node root sources .nil).postOrder.filter
          (fun i => (c.nodes i).mFormat.isAutoEnabled)).map Call.nodeStop := by
  obtain ⟨c1, h1, h2⟩ :=
    Context.stopNode_tree { c with mEnabled := false } root sources fuel hshape hfuel
  refine ⟨c1, ?_, (Context.stopNode_frame _ _ _ _ h1).2.2.1, h2⟩
  rw [Context.stop_of_enabled c root fuel hen hroot]
  exact h1

theorem Context.stop_calls_postOrder_witness :
    exTreeEnabled.mEnabled = true ∧ exTreeEnabled.mRoot = some 3 ∧
    exTree.shape exTreeEnabled.nodes = true ∧ exTree.postOrder = [1, 0, 2, 3] ∧
    ∃ c1, exTreeEnabled.stop 3 = .ok c1 ∧ c1.mEnabled = false ∧
      c1.calls = exTreeEnabled.calls ++
        (exTree.postOrder.filter
          (fun i => (exTreeEnabled.nodes i).mFormat.isAutoEnabled)).map Call.nodeStop :=
  ⟨rfl, rfl, by decide, by decide,
    Context.stop_calls_postOrder exTreeEnabled 3
      (.node 1 .nil (.empty (.node 2 (.node 0 .nil .nil) .nil))) 3 rfl rfl (by decide)
      (by decide)⟩

/-- C12 (counterexample): a buffer player that was not initialized holds a buffer;
`BufferPlayerNode::start` returns normally and the node is enabled. -/
theorem BufferPlayerNode.start_uninitialized_counterexample :
    exPlayer.mInitialized = false ∧ exPlayer.mEnabled = false ∧
    ∃ n, exPlayer.start = .ok n ∧ n.mEnabled = true ∧ n.mInitialized = false :=
  ⟨rfl, rfl, _, rfl, rfl, rfl⟩

/-- C12 (amended): on a node that is not initialized, `SourceVoiceXAudio::start` (node not
enabled, no source voice yet) fails its assertion, so the enabled flag stays false;
`LineOutWasapi::start` logs and returns normally with the node unchanged; and
`BufferPlayerNode::start` does not look at the initialized flag: with a buffer it returns
normally, the read position 0 and the node enabled. -/
theorem start_uninitialized (K : Type) (v : SourceVoiceXAudio) (l : LineOutWasapi K)
    (p : BufferPlayerNode K) (buf : List (List K)) (submitOk startOk : Bool)
    (hv : v.mSourceVoice = false) (hven : v.mEnabled = false)
    (hl : l.mInitialized = false)
    (_hp : p.mInitialized = false) (hbuf : p.mBuffer = some buf) :
    v.start submitOk = .error .assertFailed ∧
    l.start startOk = .ok l ∧
    p.start = .ok { p with mReadPos := 0, mEnabled := true } := by
  refine ⟨?_, ?_, ?_⟩
  · simp [SourceVoiceXAudio.start, hv, hven]
  · simp [LineOutWasapi.start, hl]
  · simp [BufferPlayerNode.start, hbuf]

theorem start_uninitialized_witness :
    exVoice.mSourceVoice = false ∧ exVoice.mEnabled = false ∧
    exLineOut.mInitialized = false ∧ exPlayer.mInitialized = false ∧
    exVoice.start true = .error .assertFailed ∧
    exLineOut.start true = .ok exLineOut ∧
    exPlayer.start = .ok { exPlayer with mReadPos := 0, mEnabled := true } :=
  ⟨rfl, rfl, rfl, rfl,
    start_uninitialized ℚ exVoice exLineOut exPlayer [[1, 2, 3, 4]] true true rfl rfl rfl rfl
      rfl⟩

theorem Context.uninitializeAllNodes_frame (c : Context) :
    Context.Frame c c.uninitializeAllNodes := by
  refine ⟨fun i => ?_, rfl, rfl, rfl, rfl⟩
  by_cases h : i < c.numNodes <;> simp [Context.uninitializeAllNodes, h]

theorem Context.initializeAllNodes_frame (c : Context) :
    Context.Frame c c.initializeAllNodes := by
  refine ⟨fun i => ?_, rfl, rfl, rfl, rfl⟩
  by_cases h : i < c.numNodes <;> simp [Context.initializeAllNodes, h]

/-- On a context whose root carries a finite tree, `Context.stop()` returns, and the context
then is not enabled. -/
theorem Context.stop_returns (c : Context) (root : NodeId) (sources : Forest) (fuel : Nat)
    (hroot : c.mRoot = some root)
    (hshape : (Forest.node root sources .nil).shape c.nodes = true)
    (hfuel : (Forest.node root sources .nil).depth ≤ fuel) :
    ∃ c1, c.stop fuel = .ok c1 ∧ Context.Frame { c with mEnabled := false } c1 := by
  cases hen : c.mEnabled with
  | false =>
    refine ⟨c, by simp [Context.stop, hen], fun i => ⟨rfl, rfl⟩, rfl, hen, rfl, rfl⟩
  | true =>
    obtain ⟨c1, h1, _⟩ :=
      Context.stopNode_tree { c with mEnabled := false } root sources fuel hshape hfuel
    refine ⟨c1, ?_, Context.stopNode_frame _ _ _ _ h1⟩
    rw [Context.stop_of_enabled c root fuel hen hroot]
    exact h1

/-- On a context that is not enabled and whose root carries a finite tree, `Context.start()`
returns, and the context then is enabled. -/
theorem Context.start_returns (c : Context) (root : NodeId) (sources : Forest) (fuel : Nat)
    (hdis : c.mEnabled = false) (hroot : c.mRoot = some root)
    (hshape : (Forest.node root sources .nil).shape c.nodes = true)
    (hfuel : (Forest.node root sources .nil).depth ≤ fuel) :
    ∃ c1, c.start fuel = .ok c1 ∧ c1.mEnabled = true := by
  obtain ⟨c1, h1, _⟩ :=
    Context.startNode_tree { c with mEnabled := true } root sources fuel hshape hfuel
  refine ⟨c1, ?_, (Context.startNode_frame _ _ _ _ h1).2.2.1⟩
  rw [Context.start_of_disabled c root fuel hdis hroot]
  exact h1

/-- C13 (counterexample): the context is enabled while its line out, node 3, is not; after the
two handlers the context is not enabled, and the last call was `setEnabled( false )`. -/
theorem LineOut.deviceParamsChange_counterexample :
    exTreeEnabled.mEnabled = true ∧ (exTreeEnabled.nodes exTreeLineOut.self).mEnabled = false ∧
    ∃ r, exTreeLineOut.deviceParamsChange 3 exTreeEnabled = .ok r ∧ r.2.mEnabled = false ∧
      r.1.contextCalls =
        [.stop, .uninitializeAllNodes, .initializeAllNodes, .setEnabled false] :=
  ⟨rfl, rfl, _, rfl, rfl, rfl⟩

/-- C13 (amended): on a context whose root carries a finite tree, the two handlers return and
call, in this order, `Context.stop()`, `uninitializeAllNodes()`, `initializeAllNodes()` and
`setEnabled( b )`, where `b` is the enabled flag that the line out node itself had before the
notification; the context ends enabled exactly when `b` is set. -/
theorem LineOut.deviceParamsChange_restores (lo : LineOut) (c : Context) (root : NodeId)
    (sources : Forest) (fuel : Nat) (hroot : c.mRoot = some root)
    (hshape : (Forest.node root sources .nil).shape c.nodes = true)
    (hfuel : (Forest.node root sources .nil).depth ≤ fuel) :
    ∃ lo1 c1, lo.deviceParamsChange fuel c = .ok (lo1, c1) ∧
      lo1.contextCalls = lo.contextCalls ++
        [.stop, .uninitializeAllNodes, .initializeAllNodes,
          .setEnabled (c.nodes lo.self).mEnabled] ∧
      c1.mEnabled = (c.nodes lo.self).mEnabled := by
  obtain ⟨c1, hstop, hfr1⟩ := Context.stop_returns c root sources fuel hroot hshape hfuel
  have hfr3 : Context.Frame { c with mEnabled := false }
      c1.uninitializeAllNodes.initializeAllNodes :=
    (hfr1.trans (Context.uninitializeAllNodes_frame c1)).trans
      (Context.initializeAllNodes_frame _)
  have hdis3 : c1.uninitializeAllNodes.initializeAllNodes.mEnabled = false := hfr3.2.2.1
  have hroot3 : c1.uninitializeAllNodes.initializeAllNodes.mRoot = some root :=
    hfr3.2.1.trans hroot
  have hshape3 : (Forest.node root sources .nil).shape
      c1.uninitializeAllNodes.initializeAllNodes.nodes = true := by
    rw [Forest.shape_congr c.nodes _ (fun i => (hfr3.1 i).1)]
    exact hshape
  cases hb : (c.nodes lo.self).mEnabled with
  | false =>
    refine ⟨{ lo with
        mWasEnabledBeforeParamsChange := false,
        contextCalls := (lo.contextCalls ++ [.stop, .uninitializeAllNodes]) ++
          [.initializeAllNodes, .setEnabled false] },
      c1.uninitializeAllNodes.initializeAllNodes, ?_, by simp, hdis3⟩
    simp only [LineOut.deviceParamsChange, LineOut.deviceParamsWillChange, hstop,
      LineOut.deviceParamsDidChange, hb, Context.setEnabled]
    simp [Context.stop, hdis3]
  | true =>
    obtain ⟨c4, hstart, hen4⟩ := Context.start_returns _ root sources fuel hdis3 hroot3
      hshape3 hfuel
    refine ⟨{ lo with
        mWasEnabledBeforeParamsChange := true,
        contextCalls := (lo.contextCalls ++ [.stop, .uninitializeAllNodes]) ++
          [.initializeAllNodes, .setEnabled true] },
      c4, ?_, by simp, hen4⟩
    simp only [LineOut.deviceParamsChange, LineOut.deviceParamsWillChange, hstop,
      LineOut.deviceParamsDidChange, hb, Context.setEnabled]
    simp [hstart]

theorem LineOut.deviceParamsChange_restores_witness :
    exTreeEnabled.mRoot = some 3 ∧ exTree.shape exTreeEnabled.nodes = true ∧
    ∃ lo1 c1, exTreeLineOut.deviceParamsChange 3 exTreeEnabled = .ok (lo1, c1) ∧
      lo1.contextCalls = exTreeLineOut.contextCalls ++
        [.stop, .uninitializeAllNodes, .initializeAllNodes,
          .setEnabled (exTreeEnabled.nodes exTreeLineOut.self).mEnabled] ∧
      c1.mEnabled = (exTreeEnabled.nodes exTreeLineOut.self).mEnabled :=
  ⟨rfl, by decide,
    LineOut.deviceParamsChange_restores exTreeLineOut exTreeEnabled 3
      (.node 1 .nil (.empty (.node 2 (.node 0 .nil .nil) .nil))) 3 rfl (by decide)
      (by decide)⟩

theorem arrayPrefix_length {K : Type} [Zero K] (xs : List K) (n : Nat) :
    (arrayPrefix xs n).length = n := by
  simp [arrayPrefix]

theorem WasapiCaptureClientImpl.captureAudio_underruns {K : Type} [Zero K] :
    ∀ (packets : List (Packet K)) (li : LineInWasapi K),
      (WasapiCaptureClientImpl.captureAudio packets li).1.underruns = li.underruns := by
  intro packets
  induction packets with
  | nil => intro li; rfl
  | cons p rest ih =>
    intro li
    simp only [WasapiCaptureClientImpl.captureAudio]
    split
    · rfl
    · split
      · rfl
      · split
        · rfl
        · split
          · exact ih li
          · rw [ih]
            split <;> rfl

/-- C14 (the code at the failing input): when fewer frames are buffered than the block needs,
`LineInWasapi::process` returns at once; no sample is delivered and no underrun is marked.  So
it is on the line in `exLineIn` with nothing buffered and a block of 4 frames, and for every
line in and packet queue that leave fewer frames buffered than the block needs. -/
theorem LineInWasapi.process_short_block :
    (exLineIn.mCaptureImpl.mNumFramesBuffered = 0 ∧
      ∃ r, exLineIn.process [] 4 1 = .ok r ∧ r.1.underruns = exLineIn.underruns ∧
        r.2.2 = none) ∧
    ∀ (packets : List (Packet ℚ)) (li : LineInWasapi ℚ) (numFrames numChannels : Nat),
      (WasapiCaptureClientImpl.captureAudio packets li).1.mCaptureImpl.mNumFramesBuffered
          < numFrames →
      ∃ r, li.process packets numFrames numChannels = .ok r ∧
        r.1.underruns = li.underruns ∧ r.2.2 = none := by
  refine ⟨⟨rfl, _, rfl, rfl, rfl⟩, ?_⟩
  intro packets li numFrames numChannels h
  refine ⟨((WasapiCaptureClientImpl.captureAudio packets li).1,
    (WasapiCaptureClientImpl.captureAudio packets li).2, none), ?_, ?_, rfl⟩
  · simp [LineInWasapi.process, h]
  · exact WasapiCaptureClientImpl.captureAudio_underruns packets li

/-- While the frames buffered are a multiple of a block size that does not divide the size of
the audio client buffer, the render loop ends in a failed ring-buffer write. -/
theorem WasapiRenderClientImpl.renderLoop_write_fails {K : Type} [Zero K]
    (pull : LineOutWasapi K → List K) (A ch B : Nat) (hch : 0 < ch) (hBpos : 0 < B)
    (hdiv : ¬ B ∣ A) :
    ∀ (fuel : Nat) (lo : LineOutWasapi K) (k : Nat),
      lo.hasContext = true → lo.framesPerBlock = B → lo.mNumChannels = ch →
      lo.mRenderImpl.mRingBuffer.capacity = A * ch →
      lo.mRenderImpl.mRingBuffer.data.length = k * B * ch →
      lo.mRenderImpl.mNumFramesBuffered = k * B →
      k * B ≤ A → A - k * B ≤ fuel →
      WasapiRenderClientImpl.renderLoop pull A fuel lo = .error .assertFailed := by
  intro fuel
  induction fuel with
  | zero =>
    intro lo k _ _ _ _ _ _ hle hfuel
    exact absurd ⟨k, by rw [Nat.mul_comm]; omega⟩ hdiv
  | succ fuel ih =>
    intro lo k hctx hB hnc hcap hlen hbuf hle hfuel
    have hne : k * B ≠ A := fun h => hdiv ⟨k, by rw [Nat.mul_comm]; exact h.symm⟩
    have hlt : lo.mRenderImpl.mNumFramesBuffered < A := by omega
    simp only [WasapiRenderClientImpl.renderLoop, hlt, if_true]
    by_cases hfit : (k + 1) * B ≤ A
    · have hw : lo.mRenderImpl.mRingBuffer.data.length +
          (arrayPrefix (pull lo) (lo.framesPerBlock * lo.mNumChannels)).length ≤
          lo.mRenderImpl.mRingBuffer.capacity := by
        rw [arrayPrefix_length, hlen, hcap, hB, hnc, ← Nat.add_mul]
        apply Nat.mul_le_mul_right
        rw [Nat.add_mul, Nat.one_mul] at hfit
        exact hfit
      simp only [LineOutWasapi.renderInputs, hctx, RingBuffer.write, hw, if_true]
      simp only [Bool.not_true, Bool.false_eq_true, if_false]
      refine ih _ (k + 1) rfl ?_ ?_ ?_ ?_ ?_ ?_ ?_
      · exact hB
      · exact hnc
      · exact hcap
      · simp only [List.length_append, arrayPrefix_length, hlen, hB, hnc]
        rw [← Nat.add_mul, Nat.add_mul k 1 B, Nat.one_mul]
      · simp only [hbuf, hB]
        rw [Nat.add_mul, Nat.one_mul]
      · exact hfit
      · rw [Nat.add_mul, Nat.one_mul] at hfit ⊢
        omega
    · have hw : ¬ (lo.mRenderImpl.mRingBuffer.data.length +
          (arrayPrefix (pull lo) (lo.framesPerBlock * lo.mNumChannels)).length ≤
          lo.mRenderImpl.mRingBuffer.capacity) := by
        rw [arrayPrefix_length, hlen, hcap, hB, hnc, ← Nat.add_mul]
        intro h
        apply hfit
        rw [Nat.add_mul, Nat.one_mul]
        exact Nat.le_of_mul_le_mul_right h hch
      simp only [LineOutWasapi.renderInputs, hctx, RingBuffer.write, hw, if_false]
      simp

/-- C15 (the code at the failing input): from the state that `initialize()` leaves (empty ring
buffer of capacity `A * ch`, no frame buffered), with padding 0, `renderAudio` ends in the
violated assertion on `writeSuccess` whenever the block size `B` does not divide the size `A`
of the audio client buffer; so it is for `A = 896`, `B = 512` and 2 channels. -/
theorem WasapiRenderClientImpl.renderAudio_write_fails (K : Type) [Zero K]
    (pull : LineOutWasapi K → List K) (A ch B fuel : Nat)
    (hch : 0 < ch) (hB : 0 < B) (hdiv : ¬ B ∣ A) (hfuel : A ≤ fuel) :
    WasapiRenderClientImpl.renderAudio pull fuel 0 (LineOutWasapi.initial K A ch B) =
      .error .assertFailed := by
  have h := WasapiRenderClientImpl.renderLoop_write_fails pull A ch B hch hB hdiv fuel
    (LineOutWasapi.initial K A ch B) 0 rfl rfl rfl rfl (by simp [LineOutWasapi.initial,
      RingBuffer.ctor]) (by simp [LineOutWasapi.initial]) (by omega) (by omega)
  simp only [WasapiRenderClientImpl.renderAudio]
  have hA : (LineOutWasapi.initial K A ch B).mRenderImpl.mAudioClientNumFrames - 0 = A := rfl
  rw [hA, h]

theorem WasapiRenderClientImpl.renderAudio_write_fails_witness :
    0 < 2 ∧ 0 < 512 ∧ ¬ 512 ∣ 896 ∧
    WasapiRenderClientImpl.renderAudio (fun _ => ([] : List ℚ)) 896 0
      (LineOutWasapi.initial ℚ 896 2 512) = .error .assertFailed :=
  ⟨by decide, by decide, by decide,
    WasapiRenderClientImpl.renderAudio_write_fails ℚ (fun _ => []) 896 2 512 896 (by decide)
      (by decide) (by decide) (by decide)⟩

theorem forEachIndex_length {K : Type} [Zero K] (g : Nat → K → K) :
    ∀ (n : Nat) (buf : List K), (forEachIndex g n buf).length = buf.length := by
  intro n
  induction n with
  | zero => intro buf; rfl
  | succ n ih =>
    intro buf
    simp only [forEachIndex, List.length_set]
    exact ih buf

/-- The loop applies `g j` to entry `j` for every `j` below the bound and leaves the other
entries alone. -/
theorem forEachIndex_getElem? {K : Type} [Zero K] (g : Nat → K → K) :
    ∀ (n : Nat) (buf : List K) (j : Nat),
      (forEachIndex g n buf)[j]? = if j < n then (buf[j]?).map (g j) else buf[j]? := by
  intro n
  induction n with
  | zero => intro buf j; simp [forEachIndex]
  | succ n ih =>
    intro buf j
    simp only [forEachIndex]
    rw [List.getElem?_set, forEachIndex_length]
    by_cases hj : n = j
    · subst hj
      simp only [if_true, List.getD_eq_getElem?_getD, ih, Nat.lt_irrefl, if_false,
        Nat.lt_succ_self]
      by_cases hlt : n < buf.length
      · simp [hlt, List.getElem?_eq_getElem hlt]
      · simp [hlt, List.getElem?_eq_none (Nat.le_of_not_lt hlt)]
    · simp only [hj, if_false, ih]
      by_cases h1 : j < n
      · simp [h1, Nat.lt_succ_of_lt h1]
      · have h2 : ¬ j < n + 1 := by omega
        simp [h1, h2]

/-- Adding up the first `c` channels sample by sample adds their sum to every entry below the
bound. -/
theorem sumChannels_getElem? {K : Type} [Field K] (buffer : Buffer K) (m : Nat) :
    ∀ (c : Nat) (buf : List K) (j : Nat),
      ((List.range c).foldl
        (fun b ch => forEachIndex (fun i v => v + buffer.sample ch i) m b) buf)[j]? =
      if j < m then (buf[j]?).map (fun v => v + ∑ ch ∈ Finset.range c, buffer.sample ch j)
      else buf[j]? := by
  intro c
  induction c with
  | zero =>
    intro buf j
    by_cases h : j < m <;> simp [h]
  | succ c ih =>
    intro buf j
    rw [List.range_succ, List.foldl_append]
    simp only [List.foldl_cons, List.foldl_nil]
    rw [forEachIndex_getElem?, ih]
    by_cases h : j < m
    · simp only [h, if_true, Option.map_map, Finset.sum_range_succ]
      congr 1
      funext v
      simp [add_assoc]
    · simp [h]

theorem sumChannels_length {K : Type} [Field K] (buffer : Buffer K) (m : Nat) :
    ∀ (c : Nat) (buf : List K),
      ((List.range c).foldl
        (fun b ch => forEachIndex (fun i v => v + buffer.sample ch i) m b) buf).length =
      buf.length := by
  intro c
  induction c with
  | zero => intro buf; rfl
  | succ c ih =>
    intro buf
    rw [List.range_succ, List.foldl_append]
    simp only [List.foldl_cons, List.foldl_nil]
    rw [forEachIndex_length, ih]

theorem SpectrumTapNode.copyToInternalBuffer_length {K : Type} [Field K] (buffer : Buffer K)
    (node : SpectrumTapNode K) :
    (node.copyToInternalBuffer buffer).mBuffer.length = node.mBuffer.length := by
  unfold SpectrumTapNode.copyToInternalBuffer
  simp only []
  split
  · simp [forEachIndex_length]
  · simp [forEachIndex_length, sumChannels_length]

/-- Entry `j` of the analysis buffer after `copyToInternalBuffer`. -/
theorem SpectrumTapNode.copyToInternalBuffer_getElem? {K : Type} [Field K] (buffer : Buffer K)
    (node : SpectrumTapNode K) (j : Nat) (hj : j < node.mBuffer.length) :
    (node.copyToInternalBuffer buffer).mBuffer[j]? =
      if j < min buffer.getNumFrames node.mBuffer.length then
        some ((1 / (buffer.getNumChannels : K)) *
          ∑ ch ∈ Finset.range buffer.getNumChannels, buffer.sample ch j)
      else some 0 := by
  have hz : (node.mBuffer.map (fun _ => (0 : K)))[j]? = some 0 := by
    rw [List.getElem?_map, List.getElem?_eq_getElem hj]
    rfl
  unfold SpectrumTapNode.copyToInternalBuffer
  simp only []
  split
  · rename_i h1
    simp only [forEachIndex_getElem?, hz, List.length_map, h1]
    by_cases h : j < min buffer.getNumFrames node.mBuffer.length <;> simp [h]
  · simp only [forEachIndex_getElem?, sumChannels_getElem?, hz, List.length_map]
    by_cases h : j < min buffer.getNumFrames node.mBuffer.length
    · simp only [h, if_true, Option.map_some']
      congr 1
      ring
    · simp [h]

/-- C16: for an input buffer with at least one channel and an analysis buffer of `fftSize`
frames, after `SpectrumTapNode::process` the dirty flag is set and the analysis buffer, still of
`fftSize` frames, holds at every index below `min( F, fftSize )` the sum of the channels at that
index times `1 / C`, and 0 from there on; with one channel it holds the samples of that
channel. -/
theorem SpectrumTapNode.process_average {K : Type} [Field K] (node : SpectrumTapNode K)
    (buffer : Buffer K) (_hC : 1 ≤ buffer.getNumChannels)
    (hlen : node.mBuffer.length = node.fftSize) :
    (node.process buffer).mBufferIsDirty = true ∧
    (node.process buffer).mBuffer.length = node.fftSize ∧
    (∀ i, i < min buffer.getNumFrames node.fftSize →
      (node.process buffer).mBuffer[i]? =
        some ((1 / (buffer.getNumChannels : K)) *
          ∑ ch ∈ Finset.range buffer.getNumChannels, buffer.sample ch i)) ∧
    (∀ i, min buffer.getNumFrames node.fftSize ≤ i → i < node.fftSize →
      (node.process buffer).mBuffer[i]? = some 0) ∧
    (buffer.getNumChannels = 1 → ∀ i, i < min buffer.getNumFrames node.fftSize →
      (node.process buffer).mBuffer[i]? = some (buffer.sample 0 i)) := by
  have hget := SpectrumTapNode.copyToInternalBuffer_getElem? buffer node
  rw [hlen] at hget
  refine ⟨rfl, ?_, ?_, ?_, ?_⟩
  · simp only [SpectrumTapNode.process]
    rw [SpectrumTapNode.copyToInternalBuffer_length, hlen]
  · intro i hi
    simp only [SpectrumTapNode.process]
    rw [hget i (by omega)]
    simp [hi]
  · intro i hi1 hi2
    simp only [SpectrumTapNode.process]
    rw [hget i hi2]
    have : ¬ i < min buffer.getNumFrames node.fftSize := by omega
    simp [this]
  · intro h1 i hi
    simp only [SpectrumTapNode.process]
    rw [hget i (by omega)]
    simp [hi, h1]

theorem SpectrumTapNode.process_average_witness :
    1 ≤ exStereo.getNumChannels ∧ exTap.mBuffer.length = exTap.fftSize ∧
    ((exTap.process exStereo).mBufferIsDirty = true ∧
    (exTap.process exStereo).mBuffer.length = exTap.fftSize ∧
    (∀ i, i < min exStereo.getNumFrames exTap.fftSize →
      (exTap.process exStereo).mBuffer[i]? =
        some ((1 / (exStereo.getNumChannels : ℚ)) *
          ∑ ch ∈ Finset.range exStereo.getNumChannels, exStereo.sample ch i)) ∧
    (∀ i, min exStereo.getNumFrames exTap.fftSize ≤ i → i < exTap.fftSize →
      (exTap.process exStereo).mBuffer[i]? = some 0) ∧
    (exStereo.getNumChannels = 1 → ∀ i, i < min exStereo.getNumFrames exTap.fftSize →
      (exTap.process exStereo).mBuffer[i]? = some (exStereo.sample 0 i))) :=
  ⟨by decide, by decide, SpectrumTapNode.process_average exTap exStereo (by decide) (by decide)⟩

theorem SpectrumTapNode.window_eq_blackmanSpec (x : ℝ) :
    SpectrumTapNode.window Real.cos Real.pi x = blackmanSpec Real.cos Real.pi x := by
  simp only [SpectrumTapNode.window, blackmanSpec]
  norm_num

theorem blackmanSpec_factor (x : ℝ) :
    blackmanSpec Real.cos Real.pi x =
      (1 - Real.cos (2 * Real.pi * x)) * (0.34 - 0.16 * Real.cos (2 * Real.pi * x)) := by
  have h4 : Real.cos (4 * Real.pi * x) = 2 * Real.cos (2 * Real.pi * x) ^ 2 - 1 := by
    rw [← Real.cos_two_mul]
    congr 1
    ring
  simp only [blackmanSpec, h4]
  ring

theorem blackmanSpec_bounds (x : ℝ) :
    0 ≤ blackmanSpec Real.cos Real.pi x ∧ blackmanSpec Real.cos Real.pi x ≤ 1 := by
  rw [blackmanSpec_factor]
  have h1 := Real.neg_one_le_cos (2 * Real.pi * x)
  have h2 := Real.cos_le_one (2 * Real.pi * x)
  constructor
  · apply mul_nonneg <;> linarith
  · nlinarith

/-- C19: with `L = min( fftSize, framesPerBlock )`, `applyWindow` keeps the length of the
analysis buffer, multiplies sample `i` by `w( i / L )` for every `i < L`, where `w` is the
Blackman window with `a0 = 0.42`, `a1 = 0.5`, `a2 = 0.08`, and leaves every sample from index
`L` on as it is; `w( 0 ) = 0` and `0 ≤ w( x ) ≤ 1`, so the first sample becomes 0 and no sample
grows in magnitude. -/
theorem SpectrumTapNode.applyWindow_blackman (node : SpectrumTapNode ℝ) :
    (node.applyWindow Real.cos Real.pi).mBuffer.length = node.mBuffer.length ∧
    (∀ i, i < min node.fftSize node.mFramesPerBlock →
      (node.applyWindow Real.cos Real.pi).mBuffer[i]? =
        (node.mBuffer[i]?).map (fun v => v * blackmanSpec Real.cos Real.pi
          ((i : ℝ) / ((min node.fftSize node.mFramesPerBlock : ℕ) : ℝ)))) ∧
    (∀ i, min node.fftSize node.mFramesPerBlock ≤ i →
      (node.applyWindow Real.cos Real.pi).mBuffer[i]? = node.mBuffer[i]?) ∧
    blackmanSpec Real.cos Real.pi 0 = 0 ∧
    (∀ x : ℝ,
      0 ≤ blackmanSpec Real.cos Real.pi x ∧ blackmanSpec Real.cos Real.pi x ≤ 1) ∧
    (0 < min node.fftSize node.mFramesPerBlock → ∀ v, node.mBuffer[0]? = some v →
      (node.applyWindow Real.cos Real.pi).mBuffer[0]? = some 0) ∧
    (∀ (i : ℕ) (v v1 : ℝ), node.mBuffer[i]? = some v →
      (node.applyWindow Real.cos Real.pi).mBuffer[i]? = some v1 → |v1| ≤ |v|) := by
  have hzero : blackmanSpec Real.cos Real.pi 0 = 0 := by
    simp only [blackmanSpec, mul_zero, Real.cos_zero]
    norm_num
  have hlow : ∀ i, i < min node.fftSize node.mFramesPerBlock →
      (node.applyWindow Real.cos Real.pi).mBuffer[i]? =
        (node.mBuffer[i]?).map (fun v => v * blackmanSpec Real.cos Real.pi
          ((i : ℝ) / ((min node.fftSize node.mFramesPerBlock : ℕ) : ℝ))) := by
    intro i hi
    simp only [SpectrumTapNode.applyWindow, forEachIndex_getElem?, hi, if_true]
    congr 1
    funext v
    rw [SpectrumTapNode.window_eq_blackmanSpec]
    congr 2
    norm_num
    rw [div_eq_mul_inv]
  have hhigh : ∀ i, min node.fftSize node.mFramesPerBlock ≤ i →
      (node.applyWindow Real.cos Real.pi).mBuffer[i]? = node.mBuffer[i]? := by
    intro i hi
    have : ¬ i < min node.fftSize node.mFramesPerBlock := by omega
    simp only [SpectrumTapNode.applyWindow, forEachIndex_getElem?, this, if_false]
  refine ⟨?_, hlow, hhigh, hzero, blackmanSpec_bounds, ?_, ?_⟩
  · simp [SpectrumTapNode.applyWindow, forEachIndex_length]
  · intro hL v hv
    rw [hlow 0 hL, hv]
    simp [hzero]
  · intro i v v1 hv hv1
    by_cases hi : i < min node.fftSize node.mFramesPerBlock
    · rw [hlow i hi, hv] at hv1
      simp only [Option.map_some', Option.some.injEq] at hv1
      rw [← hv1, abs_mul]
      have hb := blackmanSpec_bounds
        ((i : ℝ) / ((min node.fftSize node.mFramesPerBlock : ℕ) : ℝ))
      rw [abs_of_nonneg hb.1]
      exact mul_le_of_le_one_right (abs_nonneg v) hb.2
    · rw [hhigh i (by omega), hv] at hv1
      simp only [Option.some.injEq] at hv1
      rw [hv1]

theorem resize_length {K : Type} [Zero K] (xs : List K) (n : Nat) :
    (resize xs n).length = n := by
  simp only [resize, List.length_append, List.length_take, List.length_replicate]
  omega

theorem getD_set_zero (imag : List ℝ) (i : Nat) :
    (imag.set 0 0).getD i 0 = if i = 0 then 0 else imag.getD i 0 := by
  cases imag with
  | nil => simp
  | cons a rest =>
    cases i with
    | zero => simp
    | succ i => simp

/-- The spectrum that `getMagSpectrum` computes on a dirty node. -/
theorem SpectrumTapNode.getMagSpectrum_dirty {K : Type} [Field K] (cos : K → K) (pi : K)
    (sqrt : K → K) (fft : List K → List K × List K) (node : SpectrumTapNode K)
    (hd : node.mBufferIsDirty = true) :
    (node.getMagSpectrum cos pi sqrt fft).2 =
      forEachIndex
        (fun i _ =>
          sqrt (((fft (if node.mApplyWindow then (node.applyWindow cos pi).mBuffer
              else node.mBuffer)).1).getD i 0 *
            ((fft (if node.mApplyWindow then (node.applyWindow cos pi).mBuffer
              else node.mBuffer)).1).getD i 0 +
            (((fft (if node.mApplyWindow then (node.applyWindow cos pi).mBuffer
              else node.mBuffer)).2).set 0 0).getD i 0 *
            (((fft (if node.mApplyWindow then (node.applyWindow cos pi).mBuffer
              else node.mBuffer)).2).set 0 0).getD i 0) * (1.0 / (node.fftSize : K)))
        node.mMagSpectrum.length node.mMagSpectrum := by
  cases hw : node.mApplyWindow with
  | false => simp [SpectrumTapNode.getMagSpectrum, hd, hw]
  | true => simp [SpectrumTapNode.getMagSpectrum, hd, hw, SpectrumTapNode.applyWindow]

/-- C18: `initialize()` gives the spectrum `N / 2` bins, and `process` and `getMagSpectrum` keep
the number of bins, so every spectrum returned has `N / 2` bins; on a dirty node bin `i` of the
returned spectrum is `sqrt( re[i]^2 + im[i]^2 ) / N` for the output `(re, im)` of the transform
of the (windowed) analysis buffer with `im[0]` taken as 0, bin 0 is `|re[0]| / N`, and every
bin is non-negative. -/
theorem SpectrumTapNode.getMagSpectrum_bins (cos : ℝ → ℝ) (pi : ℝ)
    (fft : List ℝ → List ℝ × List ℝ) (node : SpectrumTapNode ℝ) (framesPerBlock : Nat)
    (buffer : Buffer ℝ) (hdirty : node.mBufferIsDirty = true)
    (hbins : node.mMagSpectrum.length = node.fftSize / 2) :
    ((node.init framesPerBlock).mMagSpectrum.length = node.fftSize / 2 ∧
      (node.init framesPerBlock).fftSize = node.fftSize ∧
      (∀ n : SpectrumTapNode ℝ,
        (n.process buffer).mMagSpectrum.length = n.mMagSpectrum.length ∧
        (n.getMagSpectrum cos pi Real.sqrt fft).2.length = n.mMagSpectrum.length ∧
        (n.getMagSpectrum cos pi Real.sqrt fft).1.mMagSpectrum.length =
          n.mMagSpectrum.length)) ∧
    (∀ i, i < node.fftSize / 2 →
      (node.getMagSpectrum cos pi Real.sqrt fft).2[i]? =
        some (Real.sqrt
          (((fft (if node.mApplyWindow then (node.applyWindow cos pi).mBuffer
              else node.mBuffer)).1).getD i 0 ^ 2 +
            (if i = 0 then 0
              else ((fft (if node.mApplyWindow then (node.applyWindow cos pi).mBuffer
                else node.mBuffer)).2).getD i 0) ^ 2) / (node.fftSize : ℝ))) ∧
    (0 < node.fftSize / 2 →
      (node.getMagSpectrum cos pi Real.sqrt fft).2[0]? =
        some (|((fft (if node.mApplyWindow then (node.applyWindow cos pi).mBuffer
          else node.mBuffer)).1).getD 0 0| / (node.fftSize : ℝ))) ∧
    (∀ x ∈ (node.getMagSpectrum cos pi Real.sqrt fft).2, 0 ≤ x) := by
  have hbin : ∀ i, i < node.fftSize / 2 →
      (node.getMagSpectrum cos pi Real.sqrt fft).2[i]? =
        some (Real.sqrt
          (((fft (if node.mApplyWindow then (node.applyWindow cos pi).mBuffer
              else node.mBuffer)).1).getD i 0 ^ 2 +
            (if i = 0 then 0
              else ((fft (if node.mApplyWindow then (node.applyWindow cos pi).mBuffer
                else node.mBuffer)).2).getD i 0) ^ 2) / (node.fftSize : ℝ)) := by
    intro i hi
    rw [SpectrumTapNode.getMagSpectrum_dirty cos pi Real.sqrt fft node hdirty,
      forEachIndex_getElem?, hbins]
    have hlt : i < node.mMagSpectrum.length := by omega
    simp only [hi, if_true, List.getElem?_eq_getElem hlt, Option.map_some', getD_set_zero]
    congr 1
    rw [pow_two, pow_two]
    norm_num
    rw [div_eq_mul_inv]
  have hlen : ∀ n : SpectrumTapNode ℝ,
      (n.getMagSpectrum cos pi Real.sqrt fft).2.length = n.mMagSpectrum.length := by
    intro n
    cases hd : n.mBufferIsDirty with
    | false => simp [SpectrumTapNode.getMagSpectrum, hd]
    | true =>
      rw [SpectrumTapNode.getMagSpectrum_dirty cos pi Real.sqrt fft n hd, forEachIndex_length]
  have hsame : ∀ n : SpectrumTapNode ℝ,
      (n.getMagSpectrum cos pi Real.sqrt fft).1.mMagSpectrum =
        (n.getMagSpectrum cos pi Real.sqrt fft).2 :=
    fun n => by
      cases hd : n.mBufferIsDirty with
      | false => simp [SpectrumTapNode.getMagSpectrum, hd]
      | true => simp [SpectrumTapNode.getMagSpectrum, hd]
  refine ⟨⟨?_, rfl, fun n => ⟨?_, hlen n, ?_⟩⟩, hbin, ?_, ?_⟩
  · simp [SpectrumTapNode.init, resize_length]
  · unfold SpectrumTapNode.process SpectrumTapNode.copyToInternalBuffer
    simp only []
    split <;> rfl
  · rw [hsame n, hlen n]
  · intro hpos
    rw [hbin 0 hpos]
    simp only [if_true]
    congr 2
    rw [show (0:ℝ) ^ 2 = 0 by norm_num, add_zero]
    exact Real.sqrt_sq_eq_abs _
  · intro x hx
    obtain ⟨i, hi, hxi⟩ := List.getElem_of_mem hx
    have hi2 : i < node.fftSize / 2 := by
      rw [hlen node, hbins] at hi
      exact hi
    have h := hbin i hi2
    rw [List.getElem?_eq_getElem hi, hxi] at h
    simp only [Option.some.injEq] at h
    rw [h]
    exact div_nonneg (Real.sqrt_nonneg _) (Nat.cast_nonneg _)

theorem SpectrumTapNode.getMagSpectrum_bins_witness :
    (exDirtyTap ℝ).mBufferIsDirty = true ∧
    (exDirtyTap ℝ).mMagSpectrum.length = (exDirtyTap ℝ).fftSize / 2 ∧
    ((((exDirtyTap ℝ).init 2).mMagSpectrum.length = (exDirtyTap ℝ).fftSize / 2 ∧
      ((exDirtyTap ℝ).init 2).fftSize = (exDirtyTap ℝ).fftSize ∧
      (∀ n : SpectrumTapNode ℝ,
        (n.process exEmptyBuffer).mMagSpectrum.length = n.mMagSpectrum.length ∧
        (n.getMagSpectrum Real.cos Real.pi Real.sqrt exFft).2.length =
          n.mMagSpectrum.length ∧
        (n.getMagSpectrum Real.cos Real.pi Real.sqrt exFft).1.mMagSpectrum.length =
          n.mMagSpectrum.length)) ∧
    (∀ i, i < (exDirtyTap ℝ).fftSize / 2 →
      ((exDirtyTap ℝ).getMagSpectrum Real.cos Real.pi Real.sqrt exFft).2[i]? =
        some (Real.sqrt
          (((exFft (if (exDirtyTap ℝ).mApplyWindow then
                ((exDirtyTap ℝ).applyWindow Real.cos Real.pi).mBuffer
              else (exDirtyTap ℝ).mBuffer)).1).getD i 0 ^ 2 +
            (if i = 0 then 0
              else ((exFft (if (exDirtyTap ℝ).mApplyWindow then
                  ((exDirtyTap ℝ).applyWindow Real.cos Real.pi).mBuffer
                else (exDirtyTap ℝ).mBuffer)).2).getD i 0) ^ 2) /
          ((exDirtyTap ℝ).fftSize : ℝ))) ∧
    (0 < (exDirtyTap ℝ).fftSize / 2 →
      ((exDirtyTap ℝ).getMagSpectrum Real.cos Real.pi Real.sqrt exFft).2[0]? =
        some (|((exFft (if (exDirtyTap ℝ).mApplyWindow then
              ((exDirtyTap ℝ).applyWindow Real.cos Real.pi).mBuffer
            else (exDirtyTap ℝ).mBuffer)).1).getD 0 0| /
          ((exDirtyTap ℝ).fftSize : ℝ))) ∧
    (∀ x ∈ ((exDirtyTap ℝ).getMagSpectrum Real.cos Real.pi Real.sqrt exFft).2, 0 ≤ x)) :=
  ⟨rfl, rfl,
    SpectrumTapNode.getMagSpectrum_bins Real.cos Real.pi exFft (exDirtyTap ℝ) 2
      exEmptyBuffer rfl rfl⟩

theorem fmodf_eq_sub_int_mul (x y : ℝ) : ∃ t : ℤ, fmodf x y = x - (t : ℝ) * y := by
  unfold fmodf
  exact ⟨_, by rw [mul_comm]⟩

/-- The constant-frequency loop writes `sin( phase + n * phaseIncr )` to sample `n` and ends on
a phase congruent to `phase + count * phaseIncr` modulo `2 pi`. -/
theorem GenSine.constLoop_spec (phaseIncr : ℝ) :
    ∀ (count : Nat) (phase : ℝ),
      (GenSine.constLoop Real.sin (Real.pi * 2) phaseIncr count phase).1.length = count ∧
      (∀ n, n < count →
        (GenSine.constLoop Real.sin (Real.pi * 2) phaseIncr count phase).1[n]? =
          some (Real.sin (phase + n * phaseIncr))) ∧
      ∃ z : ℤ, (GenSine.constLoop Real.sin (Real.pi * 2) phaseIncr count phase).2 =
        phase + count * phaseIncr + z * (2 * Real.pi) := by
  intro count
  induction count with
  | zero =>
    intro phase
    refine ⟨rfl, fun n hn => absurd hn (Nat.not_lt_zero n), 0, ?_⟩
    simp [GenSine.constLoop]
  | succ count ih =>
    intro phase
    obtain ⟨t, ht⟩ := fmodf_eq_sub_int_mul (phase + phaseIncr) (Real.pi * 2)
    obtain ⟨hlen, hsamples, z, hz⟩ := ih (fmodf (phase + phaseIncr) (Real.pi * 2))
    refine ⟨?_, ?_, z - t, ?_⟩
    · simp only [GenSine.constLoop, List.length_cons, hlen]
    · intro n hn
      cases n with
      | zero => simp [GenSine.constLoop]
      | succ n =>
        simp only [GenSine.constLoop, List.getElem?_cons_succ]
        rw [hsamples n (by omega), ht]
        congr 1
        rw [← Real.sin_sub_int_mul_two_pi (phase + ((n + 1 : ℕ) : ℝ) * phaseIncr) t]
        congr 1
        push_cast
        ring
    · simp only [GenSine.constLoop]
      rw [hz, ht]
      push_cast
      ring

theorem GenSine.process_const_eq (g : Gen ℝ) (count : Nat)
    (hconst : g.mFreq.valueArray = none) :
    GenSine.process Real.sin Real.pi count g =
      ({ g with
         mPhase := (GenSine.constLoop Real.sin (Real.pi * 2)
           (g.mFreq.mValue * (2 * Real.pi / g.mSampleRate)) count g.mPhase).2 },
       (GenSine.constLoop Real.sin (Real.pi * 2)
         (g.mFreq.mValue * (2 * Real.pi / g.mSampleRate)) count g.mPhase).1) := by
  unfold GenSine.process
  rw [hconst]

/-- After `k` blocks of the constant-frequency path the frequency parameter and the sample rate
are as before and the phase is congruent to the start phase plus `k * count` increments. -/
theorem GenSine.blocks_spec (g : Gen ℝ) (count : Nat) (hconst : g.mFreq.valueArray = none) :
    ∀ k : Nat,
      (GenSine.blocks Real.sin Real.pi count k g).mFreq = g.mFreq ∧
      (GenSine.blocks Real.sin Real.pi count k g).mSampleRate = g.mSampleRate ∧
      ∃ z : ℤ, (GenSine.blocks Real.sin Real.pi count k g).mPhase =
        g.mPhase + (k * count : ℕ) * (g.mFreq.mValue * (2 * Real.pi / g.mSampleRate)) +
          z * (2 * Real.pi) := by
  intro k
  induction k with
  | zero =>
    refine ⟨rfl, rfl, 0, ?_⟩
    simp [GenSine.blocks]
  | succ k ih =>
    obtain ⟨hf, hr, z, hz⟩ := ih
    have hc : (GenSine.blocks Real.sin Real.pi count k g).mFreq.valueArray = none := by
      rw [hf]
      exact hconst
    simp only [GenSine.blocks]
    rw [GenSine.process_const_eq _ count hc]
    refine ⟨hf, hr, ?_⟩
    obtain ⟨_, _, z1, hz1⟩ := GenSine.constLoop_spec
      ((GenSine.blocks Real.sin Real.pi count k g).mFreq.mValue *
        (2 * Real.pi / (GenSine.blocks Real.sin Real.pi count k g).mSampleRate))
      count (GenSine.blocks Real.sin Real.pi count k g).mPhase
    refine ⟨z + z1, ?_⟩
    simp only []
    rw [hz1, hz, hf, hr]
    push_cast
    ring

/-- C20: on the constant-frequency path, with frequency `f`, sample rate `R > 0` and stored
phase `p0`, `GenSine::process` writes `sin( p0 + 2 pi f n / R )` to sample `n` of the `N`
samples and stores a phase congruent to `p0 + 2 pi f N / R` modulo `2 pi`; so with `p0 = 0`
sample `n` of the block that follows `k` blocks is `sin( 2 pi f ( k N + n ) / R )`. -/
theorem GenSine.process_constant (g : Gen ℝ) (N : Nat) (_hR : 0 < g.mSampleRate)
    (hconst : g.mFreq.valueArray = none) :
    (GenSine.process Real.sin Real.pi N g).2.length = N ∧
    (∀ n : ℕ, n < N →
      (GenSine.process Real.sin Real.pi N g).2[n]? =
        some (Real.sin (g.mPhase + 2 * Real.pi * g.mFreq.mValue * n / g.mSampleRate))) ∧
    (∃ z : ℤ, (GenSine.process Real.sin Real.pi N g).1.mPhase =
      g.mPhase + 2 * Real.pi * g.mFreq.mValue * N / g.mSampleRate + z * (2 * Real.pi)) ∧
    (g.mPhase = 0 → ∀ k n : ℕ, n < N →
      (GenSine.process Real.sin Real.pi N (GenSine.blocks Real.sin Real.pi N k g)).2[n]? =
        some (Real.sin
          (2 * Real.pi * g.mFreq.mValue * ((k * N + n : ℕ) : ℝ) / g.mSampleRate))) := by
  obtain ⟨hlen, hsamples, z, hz⟩ := GenSine.constLoop_spec
    (g.mFreq.mValue * (2 * Real.pi / g.mSampleRate)) N g.mPhase
  refine ⟨?_, ?_, ⟨z, ?_⟩, ?_⟩
  · rw [GenSine.process_const_eq g N hconst]
    exact hlen
  · intro n hn
    rw [GenSine.process_const_eq g N hconst]
    simp only []
    rw [hsamples n hn]
    congr 2
    ring
  · rw [GenSine.process_const_eq g N hconst]
    simp only []
    rw [hz]
    ring
  · intro hp0 k n hn
    obtain ⟨hf, hr, zk, hzk⟩ := GenSine.blocks_spec g N hconst k
    have hc : (GenSine.blocks Real.sin Real.pi N k g).mFreq.valueArray = none := by
      rw [hf]
      exact hconst
    rw [GenSine.process_const_eq _ N hc]
    simp only []
    obtain ⟨_, hs, _⟩ := GenSine.constLoop_spec
      ((GenSine.blocks Real.sin Real.pi N k g).mFreq.mValue *
        (2 * Real.pi / (GenSine.blocks Real.sin Real.pi N k g).mSampleRate))
      N (GenSine.blocks Real.sin Real.pi N k g).mPhase
    rw [hs n hn, hzk, hf, hr, hp0]
    congr 1
    rw [← Real.sin_add_int_mul_two_pi
      (2 * Real.pi * g.mFreq.mValue * ((k * N + n : ℕ) : ℝ) / g.mSampleRate) zk]
    congr 1
    push_cast
    ring

theorem GenSine.process_constant_witness :
    0 < (exSine ℝ).mSampleRate ∧ (exSine ℝ).mFreq.valueArray = none ∧
    (exSine ℝ).mFreq.mValue = 220 ∧
    ((GenSine.process Real.sin Real.pi (512 : ℕ) (exSine ℝ)).2.length = (512 : ℕ) ∧
    (∀ n : ℕ, n < (512 : ℕ) →
      (GenSine.process Real.sin Real.pi (512 : ℕ) (exSine ℝ)).2[n]? =
        some (Real.sin
          ((exSine ℝ).mPhase +
            2 * Real.pi * (exSine ℝ).mFreq.mValue * n / (exSine ℝ).mSampleRate))) ∧
    (∃ z : ℤ, (GenSine.process Real.sin Real.pi (512 : ℕ) (exSine ℝ)).1.mPhase =
      (exSine ℝ).mPhase +
        2 * Real.pi * (exSine ℝ).mFreq.mValue * (512 : ℕ) / (exSine ℝ).mSampleRate +
        z * (2 * Real.pi)) ∧
    ((exSine ℝ).mPhase = 0 → ∀ k n : ℕ, n < (512 : ℕ) →
      (GenSine.process Real.sin Real.pi (512 : ℕ)
        (GenSine.blocks Real.sin Real.pi (512 : ℕ) k (exSine ℝ))).2[n]? =
        some (Real.sin
          (2 * Real.pi * (exSine ℝ).mFreq.mValue * ((k * (512 : ℕ) + n : ℕ) : ℝ) /
            (exSine ℝ).mSampleRate)))) :=
  ⟨by norm_num [exSine], rfl, rfl,
    GenSine.process_constant (exSine ℝ) 512 (by norm_num [exSine]) rfl⟩

theorem MixerNode.place_length (s : NodeId) :
    ∀ slots : List (Option NodeId), slots.length ≤ (MixerNode.place s slots).length := by
  intro slots
  induction slots with
  | nil => simp [MixerNode.place]
  | cons a rest ih =>
    cases a with
    | none => simp [MixerNode.place]
    | some t => simpa [MixerNode.place] using ih

theorem MixerNode.place_occupied (s : NodeId) :
    ∀ slots : List (Option NodeId),
      occupied (MixerNode.place s slots) = occupied slots + 1 := by
  intro slots
  induction slots with
  | nil => simp [MixerNode.place, occupied]
  | cons a rest ih =>
    cases a with
    | none => simp [MixerNode.place, occupied]
    | some t =>
      simp only [occupied] at ih
      simp [MixerNode.place, occupied, ih]

theorem MixerNode.place_keeps (s : NodeId) :
    ∀ (slots : List (Option NodeId)) (i : Nat) (t : NodeId),
      slots[i]? = some (some t) → (MixerNode.place s slots)[i]? = some (some t) := by
  intro slots
  induction slots with
  | nil => intro i t h; simp at h
  | cons a rest ih =>
    intro i t h
    cases a with
    | none =>
      cases i with
      | zero => simp at h
      | succ i => simpa [MixerNode.place] using h
    | some u =>
      cases i with
      | zero => simpa [MixerNode.place] using h
      | succ i =>
        simp only [MixerNode.place, List.getElem?_cons_succ] at h ⊢
        exact ih i t h

/-- The source goes to the lowest empty slot, and the length stays. -/
theorem MixerNode.place_first_empty (s : NodeId) :
    ∀ (slots : List (Option NodeId)) (i : Nat),
      slots[i]? = some none → (∀ j, j < i → slots[j]? ≠ some none) →
      MixerNode.place s slots = slots.set i (some s) := by
  intro slots
  induction slots with
  | nil => intro i h; simp at h
  | cons a rest ih =>
    intro i h hmin
    cases a with
    | none =>
      cases i with
      | zero => simp [MixerNode.place]
      | succ i => exact absurd (by simp) (hmin 0 (Nat.succ_pos i))
    | some u =>
      cases i with
      | zero => simp at h
      | succ i =>
        simp only [MixerNode.place, List.set_cons_succ, List.cons.injEq, true_and]
        apply ih i
        · simpa using h
        · intro j hj
          have := hmin (j + 1) (by omega)
          simpa using this

/-- With every slot full the source is appended. -/
theorem MixerNode.place_full (s : NodeId) :
    ∀ slots : List (Option NodeId), (∀ j : Nat, slots[j]? ≠ some none) →
      MixerNode.place s slots = slots ++ [some s] := by
  intro slots
  induction slots with
  | nil => intro _; rfl
  | cons a rest ih =>
    intro h
    cases a with
    | none => exact absurd (by simp) (h 0)
    | some u =>
      simp only [MixerNode.place, List.cons_append, List.cons.injEq, true_and]
      apply ih
      intro j
      have := h (j + 1)
      simpa using this

theorem MixerNode.setSource_sources (g : Graph) (m s : NodeId) :
    (MixerNode.setSource g m s m).mSources = MixerNode.place s (g m).mSources := by
  simp only [MixerNode.setSource, Graph.put_same, Node.setParent_sources]

theorem MixerNode.setSource_parent (g : Graph) (m s : NodeId) :
    (MixerNode.setSource g m s s).mParent = some m := by
  unfold MixerNode.setSource
  by_cases h : s = m
  · subst h
    simp [Graph.put_same, Node.setParent_parent]
  · simp only []
    rw [Graph.put_other _ _ _ _ h]
    exact Node.setParent_parent g s m

/-- C21: `MixerNode::setSource(s)` puts `s` into the lowest-index empty slot when there is one
(the number of slots stays) and appends it as a new last slot when every slot is full; every
occupied slot keeps its source, the number of slots does not decrease, the number of occupied
slots grows by exactly one, and the parent of `s` becomes the mixer. -/
theorem MixerNode.setSource_spec (g : Graph) (m s : NodeId) :
    (∀ i : Nat, (g m).mSources[i]? = some none →
      (∀ j : Nat, j < i → (g m).mSources[j]? ≠ some none) →
      (MixerNode.setSource g m s m).mSources = (g m).mSources.set i (some s) ∧
      (MixerNode.setSource g m s m).mSources[i]? = some (some s)) ∧
    ((∀ j : Nat, (g m).mSources[j]? ≠ some none) →
      (MixerNode.setSource g m s m).mSources = (g m).mSources ++ [some s]) ∧
    (∀ (i : Nat) (t : NodeId), (g m).mSources[i]? = some (some t) →
      (MixerNode.setSource g m s m).mSources[i]? = some (some t)) ∧
    (g m).mSources.length ≤ (MixerNode.setSource g m s m).mSources.length ∧
    occupied (MixerNode.setSource g m s m).mSources = occupied (g m).mSources + 1 ∧
    (MixerNode.setSource g m s s).mParent = some m := by
  rw [MixerNode.setSource_sources]
  refine ⟨?_, MixerNode.place_full s _, MixerNode.place_keeps s _, MixerNode.place_length s _,
    MixerNode.place_occupied s _, MixerNode.setSource_parent g m s⟩
  intro i hi hmin
  have hset := MixerNode.place_first_empty s _ i hi hmin
  refine ⟨hset, ?_⟩
  rw [hset]
  have hlt : i < (g m).mSources.length := by
    rcases List.getElem?_eq_some.mp hi with ⟨h, _⟩
    exact h
  simp [List.getElem?_set, hlt]

theorem GenSine.varLoop_const {K : Type} [LinearOrderedField K] [FloorRing K] (sin : K → K)
    (twoPi phaseMul v : K) (arr : List K) :
    ∀ (count i : Nat) (phase : K),
      (∀ k, i ≤ k → k < i + count → arr[k]? = some v) →
      GenSine.varLoop sin twoPi phaseMul arr count i phase =
        GenSine.constLoop sin twoPi (v * phaseMul) count phase := by
  intro count
  induction count with
  | zero => intro i phase _; rfl
  | succ count ih =>
    intro i phase h
    have hi : arr.getD i 0 = v := by
      rw [List.getD_eq_getElem?_getD, h i (Nat.le_refl i) (by omega)]
      rfl
    simp only [GenSine.varLoop, GenSine.constLoop, hi]
    rw [ih (i + 1) _ (fun k hk1 hk2 => h k (by omega) (by omega))]

theorem GenPhasor.varLoop_same_freq {K : Type} [LinearOrderedField K] [FloorRing K]
    (phaseMul v : K) (arr : List K) :
    ∀ (count i : Nat) (phase : K),
      (∀ k, i ≤ k → k < i + count → arr[k]? = some v) →
      GenPhasor.varLoop phaseMul arr count i phase =
        GenPhasor.constLoop (v * phaseMul) count phase := by
  intro count
  induction count with
  | zero => intro i phase _; rfl
  | succ count ih =>
    intro i phase h
    have hi : arr.getD i 0 = v := by
      rw [List.getD_eq_getElem?_getD, h i (Nat.le_refl i) (by omega)]
      rfl
    simp only [GenPhasor.varLoop, GenPhasor.constLoop, hi]
    rw [ih (i + 1) _ (fun k hk1 hk2 => h k (by omega) (by omega))]

/-- C24: in `GenSine::process` and in `GenPhasor::process`, the per-sample branch run on a value
array whose first `count` entries all equal `v` writes the same samples and stores the same
phase as the constant branch run with `getValue() = v`, whatever the start phase, the sample
rate and the block length. -/
theorem Gen.paths_agree {K : Type} [LinearOrderedField K] [FloorRing K] (sin : K → K) (pi : K)
    (g : Gen K) (count : Nat) (v w : K) (arr : List K)
    (harr : ∀ i, i < count → arr[i]? = some v) :
    ((GenSine.process sin pi count
        { g with mFreq := { mValue := w, valueArray := some arr } }).2 =
      (GenSine.process sin pi count
        { g with mFreq := { mValue := v, valueArray := none } }).2 ∧
    (GenSine.process sin pi count
        { g with mFreq := { mValue := w, valueArray := some arr } }).1.mPhase =
      (GenSine.process sin pi count
        { g with mFreq := { mValue := v, valueArray := none } }).1.mPhase) ∧
    ((GenPhasor.process count
        { g with mFreq := { mValue := w, valueArray := some arr } }).2 =
      (GenPhasor.process count
        { g with mFreq := { mValue := v, valueArray := none } }).2 ∧
    (GenPhasor.process count
        { g with mFreq := { mValue := w, valueArray := some arr } }).1.mPhase =
      (GenPhasor.process count
        { g with mFreq := { mValue := v, valueArray := none } }).1.mPhase) := by
  have h0 : ∀ k, 0 ≤ k → k < 0 + count → arr[k]? = some v :=
    fun k _ hk => harr k (by omega)
  constructor
  · simp only [GenSine.process]
    rw [GenSine.varLoop_const sin _ _ v arr count 0 g.mPhase h0]
    exact ⟨rfl, rfl⟩
  · simp only [GenPhasor.process]
    rw [GenPhasor.varLoop_same_freq _ v arr count 0 g.mPhase h0]
    exact ⟨rfl, rfl⟩

theorem Gen.paths_agree_witness :
    (∀ i, i < 2 → ([5, 5, 7] : List ℚ)[i]? = some 5) ∧
    ((GenSine.process id 3 2
        { exSine ℚ with mFreq := { mValue := 1, valueArray := some [5, 5, 7] } }).2 =
      (GenSine.process id 3 2
        { exSine ℚ with mFreq := { mValue := 5, valueArray := none } }).2 ∧
    (GenSine.process id 3 2
        { exSine ℚ with mFreq := { mValue := 1, valueArray := some [5, 5, 7] } }).1.mPhase =
      (GenSine.process id 3 2
        { exSine ℚ with mFreq := { mValue := 5, valueArray := none } }).1.mPhase) ∧
    ((GenPhasor.process 2
        { exSine ℚ with mFreq := { mValue := 1, valueArray := some [5, 5, 7] } }).2 =
      (GenPhasor.process 2
        { exSine ℚ with mFreq := { mValue := 5, valueArray := none } }).2 ∧
    (GenPhasor.process 2
        { exSine ℚ with mFreq := { mValue := 1, valueArray := some [5, 5, 7] } }).1.mPhase =
      (GenPhasor.process 2
        { exSine ℚ with mFreq := { mValue := 5, valueArray := none } }).1.mPhase) :=
  have h : ∀ i, i < 2 → ([5, 5, 7] : List ℚ)[i]? = some 5 := by
    intro i hi
    interval_cases i <;> rfl
  ⟨h, Gen.paths_agree id 3 (exSine ℚ) 2 5 1 [5, 5, 7] h⟩

theorem range_map_getD {K : Type} (f : Nat → List K) (n ch : Nat) (h : ch < n) :
    ((List.range n).map f).getD ch [] = f ch := by
  rw [List.getD_eq_getElem?_getD, List.getElem?_map, List.getElem?_range h]
  rfl

theorem forEachIndex_getD {K : Type} [Zero K] (g : Nat → K → K) (n : Nat) (buf : List K)
    (j : Nat) (hj : j < buf.length) :
    (forEachIndex g n buf).getD j 0 = if j < n then g j (buf.getD j 0) else buf.getD j 0 := by
  rw [List.getD_eq_getElem?_getD, forEachIndex_getElem?, List.getD_eq_getElem?_getD,
    List.getElem?_eq_getElem hj]
  split <;> rfl

theorem memsetZero_length {K : Type} [Zero K] (buf : List K) (start count : Nat) :
    (memsetZero buf start count).length = buf.length := by
  simp only [memsetZero, List.length_append, List.length_take, forEachIndex_length,
    List.length_drop]
  omega

theorem memsetZero_getD {K : Type} [Zero K] (buf : List K) (start count j : Nat)
    (hj : j < buf.length) :
    (memsetZero buf start count).getD j 0 =
      if start ≤ j ∧ j < start + count then 0 else buf.getD j 0 := by
  simp only [memsetZero, List.getD_eq_getElem?_getD]
  by_cases h1 : j < start
  · rw [List.getElem?_append_left (by rw [List.length_take]; omega), List.getElem?_take_of_lt h1,
      if_neg (by omega)]
  · have hlen : (buf.take start).length = start := by rw [List.length_take]; omega
    rw [List.getElem?_append_right (by omega), hlen, forEachIndex_getElem?, List.getElem?_drop]
    have e : start + (j - start) = j := by omega
    rw [e, List.getElem?_eq_getElem hj]
    by_cases h2 : j - start < count
    · rw [if_pos h2, if_pos ⟨by omega, by omega⟩]; rfl
    · rw [if_neg h2, if_neg (by omega)]

theorem BufferPlayerNode.process_state {K : Type} [Zero K] (buffer : Buffer K)
    (n : BufferPlayerNode K) :
    (BufferPlayerNode.process buffer n).1 =
      if min (n.mNumFrames - n.mReadPos) buffer.numFrames < buffer.numFrames then
        if n.mLoop then { n with mReadPos := 0 }
        else { n with mEnabled := false,
                      mReadPos := n.mReadPos + min (n.mNumFrames - n.mReadPos) buffer.numFrames }
      else { n with mReadPos := n.mReadPos + min (n.mNumFrames - n.mReadPos) buffer.numFrames } := by
  simp only [BufferPlayerNode.process, Buffer.getNumFrames]
  split_ifs <;> rfl

theorem BufferPlayerNode.process_block {K : Type} [Zero K] (buffer : Buffer K)
    (n : BufferPlayerNode K) :
    (BufferPlayerNode.process buffer n).2 =
      if min (n.mNumFrames - n.mReadPos) buffer.numFrames < buffer.numFrames then
        BufferPlayerNode.zeroChannels (min (n.mNumFrames - n.mReadPos) buffer.numFrames)
          (buffer.numFrames - min (n.mNumFrames - n.mReadPos) buffer.numFrames)
          (BufferPlayerNode.copyChannels (n.mBuffer.getD []) n.mReadPos
            (min (n.mNumFrames - n.mReadPos) buffer.numFrames) buffer)
      else
        BufferPlayerNode.copyChannels (n.mBuffer.getD []) n.mReadPos
          (min (n.mNumFrames - n.mReadPos) buffer.numFrames) buffer := by
  simp only [BufferPlayerNode.process, Buffer.getNumFrames]
  split_ifs <;> rfl

theorem Buffer.getD_length {K : Type} (buffer : Buffer K)
    (hout : ∀ c ∈ buffer.channels, c.length = buffer.numFrames) (ch : Nat)
    (hch : ch < buffer.channels.length) :
    (buffer.channels.getD ch []).length = buffer.numFrames := by
  rw [List.getD_eq_getElem?_getD, List.getElem?_eq_getElem hch]
  exact hout _ (List.getElem_mem hch)

theorem BufferPlayerNode.copyChannels_shape {K : Type} [Zero K] (source : List (List K))
    (p r : Nat) (buffer : Buffer K)
    (hout : ∀ c ∈ buffer.channels, c.length = buffer.numFrames) :
    (BufferPlayerNode.copyChannels source p r buffer).numFrames = buffer.numFrames ∧
    (BufferPlayerNode.copyChannels source p r buffer).channels.length =
      buffer.channels.length ∧
    ∀ c ∈ (BufferPlayerNode.copyChannels source p r buffer).channels,
      c.length = buffer.numFrames := by
  refine ⟨rfl, by simp [BufferPlayerNode.copyChannels, Buffer.getNumChannels], ?_⟩
  intro c hc
  simp only [BufferPlayerNode.copyChannels, Buffer.getNumChannels, List.mem_map,
    List.mem_range] at hc
  obtain ⟨ch, hch, rfl⟩ := hc
  rw [forEachIndex_length]
  exact buffer.getD_length hout ch hch

theorem BufferPlayerNode.zeroChannels_shape {K : Type} [Zero K] (r l : Nat) (buffer : Buffer K)
    (hout : ∀ c ∈ buffer.channels, c.length = buffer.numFrames) :
    (BufferPlayerNode.zeroChannels r l buffer).numFrames = buffer.numFrames ∧
    (BufferPlayerNode.zeroChannels r l buffer).channels.length = buffer.channels.length ∧
    ∀ c ∈ (BufferPlayerNode.zeroChannels r l buffer).channels,
      c.length = buffer.numFrames := by
  refine ⟨rfl, by simp [BufferPlayerNode.zeroChannels, Buffer.getNumChannels], ?_⟩
  intro c hc
  simp only [BufferPlayerNode.zeroChannels, Buffer.getNumChannels, List.mem_map,
    List.mem_range] at hc
  obtain ⟨ch, hch, rfl⟩ := hc
  rw [memsetZero_length]
  exact buffer.getD_length hout ch hch

theorem BufferPlayerNode.copyChannels_sample {K : Type} [Zero K] (source : List (List K))
    (p r : Nat) (buffer : Buffer K)
    (hout : ∀ c ∈ buffer.channels, c.length = buffer.numFrames)
    (ch i : Nat) (hch : ch < buffer.channels.length) (hi : i < buffer.numFrames) :
    (BufferPlayerNode.copyChannels source p r buffer).sample ch i =
      if i < r then (source.getD ch []).getD (p + i) 0 else buffer.sample ch i := by
  simp only [BufferPlayerNode.copyChannels, Buffer.getNumChannels, Buffer.sample]
  rw [range_map_getD _ _ _ hch,
    forEachIndex_getD _ _ _ _ (by rw [buffer.getD_length hout ch hch]; exact hi)]

theorem BufferPlayerNode.zeroChannels_sample {K : Type} [Zero K] (r l : Nat)
    (buffer : Buffer K) (hout : ∀ c ∈ buffer.channels, c.length = buffer.numFrames)
    (ch i : Nat) (hch : ch < buffer.channels.length) (hi : i < buffer.numFrames) :
    (BufferPlayerNode.zeroChannels r l buffer).sample ch i =
      if r ≤ i ∧ i < r + l then 0 else buffer.sample ch i := by
  simp only [BufferPlayerNode.zeroChannels, Buffer.getNumChannels, Buffer.sample]
  rw [range_map_getD _ _ _ hch,
    memsetZero_getD _ _ _ _ (by rw [buffer.getD_length hout ch hch]; exact hi)]

theorem BufferPlayerNode.process_shape {K : Type} [Zero K] (buffer : Buffer K)
    (n : BufferPlayerNode K) (hout : ∀ c ∈ buffer.channels, c.length = buffer.numFrames) :
    (BufferPlayerNode.process buffer n).2.numFrames = buffer.numFrames ∧
    (BufferPlayerNode.process buffer n).2.channels.length = buffer.channels.length ∧
    ∀ c ∈ (BufferPlayerNode.process buffer n).2.channels, c.length = buffer.numFrames := by
  have hc := BufferPlayerNode.copyChannels_shape (n.mBuffer.getD []) n.mReadPos
    (min (n.mNumFrames - n.mReadPos) buffer.numFrames) buffer hout
  rw [BufferPlayerNode.process_block]
  split_ifs
  · have hz := BufferPlayerNode.zeroChannels_shape
      (min (n.mNumFrames - n.mReadPos) buffer.numFrames)
      (buffer.numFrames - min (n.mNumFrames - n.mReadPos) buffer.numFrames) _
      (fun c h => (hc.2.2 c h).trans hc.1.symm)
    exact ⟨hz.1.trans hc.1, hz.2.1.trans hc.2.1, fun c h => (hz.2.2 c h).trans hc.1⟩
  · exact hc

theorem BufferPlayerNode.process_sample {K : Type} [Zero K] (buffer : Buffer K)
    (n : BufferPlayerNode K) (hout : ∀ c ∈ buffer.channels, c.length = buffer.numFrames)
    (ch i : Nat) (hch : ch < buffer.channels.length) (hi : i < buffer.numFrames) :
    (BufferPlayerNode.process buffer n).2.sample ch i =
      if i < min (n.mNumFrames - n.mReadPos) buffer.numFrames then
        ((n.mBuffer.getD []).getD ch []).getD (n.mReadPos + i) 0
      else 0 := by
  have hc := BufferPlayerNode.copyChannels_shape (n.mBuffer.getD []) n.mReadPos
    (min (n.mNumFrames - n.mReadPos) buffer.numFrames) buffer hout
  have hrB : min (n.mNumFrames - n.mReadPos) buffer.numFrames ≤ buffer.numFrames :=
    min_le_right _ _
  rw [BufferPlayerNode.process_block]
  generalize min (n.mNumFrames - n.mReadPos) buffer.numFrames = r at hrB hc
  by_cases h1 : r < buffer.numFrames
  · rw [if_pos h1, BufferPlayerNode.zeroChannels_sample _ _ _
      (fun c h => (hc.2.2 c h).trans hc.1.symm) ch i (by rw [hc.2.1]; exact hch)
      (by rw [hc.1]; exact hi),
      BufferPlayerNode.copyChannels_sample _ _ _ _ hout ch i hch hi]
    by_cases h2 : i < r
    · rw [if_neg (by omega), if_pos h2, if_pos h2]
    · rw [if_pos (by omega), if_neg h2]
  · rw [if_neg h1, BufferPlayerNode.copyChannels_sample _ _ _ _ hout ch i hch hi,
      if_pos (by omega), if_pos (by omega)]

theorem BufferPlayerNode.blocks_sample {K : Type} [Zero K] (buffer : Buffer K)
    (hout : ∀ c ∈ buffer.channels, c.length = buffer.numFrames) :
    ∀ (k : Nat) (n : BufferPlayerNode K), n.mLoop = false → n.mReadPos ≤ n.mNumFrames →
      ∀ (m ch i : Nat), m < k → ch < buffer.channels.length → i < buffer.numFrames →
        ((BufferPlayerNode.blocks buffer k n).2[m]?).map (fun b => b.sample ch i) =
          some (if n.mReadPos + m * buffer.numFrames + i < n.mNumFrames then
            ((n.mBuffer.getD []).getD ch []).getD (n.mReadPos + m * buffer.numFrames + i) 0
          else 0) := by
  intro k
  induction k with
  | zero => intro n _ _ m ch i hm; omega
  | succ k ih =>
    intro n hloop hp m ch i hm hch hi
    cases m with
    | zero =>
      simp only [BufferPlayerNode.blocks, List.getElem?_cons_zero, Option.map_some', Nat.zero_mul,
        Nat.add_zero]
      rw [BufferPlayerNode.process_sample buffer n hout ch i hch hi]
      by_cases h : i < min (n.mNumFrames - n.mReadPos) buffer.numFrames
      · rw [if_pos h, if_pos (by have := lt_min_iff.mp h; omega)]
      · rw [if_neg h, if_neg (by
          intro h2
          exact h (lt_min_iff.mpr ⟨by omega, hi⟩))]
    | succ m =>
      simp only [BufferPlayerNode.blocks, List.getElem?_cons_succ]
      have hst := BufferPlayerNode.process_state buffer n
      have hrB : min (n.mNumFrames - n.mReadPos) buffer.numFrames ≤ buffer.numFrames :=
        min_le_right _ _
      have hrN : min (n.mNumFrames - n.mReadPos) buffer.numFrames ≤ n.mNumFrames - n.mReadPos :=
        min_le_left _ _
      have hr : min (n.mNumFrames - n.mReadPos) buffer.numFrames = buffer.numFrames ∨
          min (n.mNumFrames - n.mReadPos) buffer.numFrames = n.mNumFrames - n.mReadPos := by
        rcases min_choice (n.mNumFrames - n.mReadPos) buffer.numFrames with h | h
        · exact Or.inr h
        · exact Or.inl h
      generalize min (n.mNumFrames - n.mReadPos) buffer.numFrames = r at hst hrB hrN hr
      have hfields : (BufferPlayerNode.process buffer n).1.mLoop = false ∧
          (BufferPlayerNode.process buffer n).1.mReadPos = n.mReadPos + r ∧
          (BufferPlayerNode.process buffer n).1.mNumFrames = n.mNumFrames ∧
          (BufferPlayerNode.process buffer n).1.mBuffer = n.mBuffer := by
        rw [hst]
        split_ifs with ha hb
        · rw [hloop] at hb; cases hb
        · exact ⟨hloop, rfl, rfl, rfl⟩
        · exact ⟨hloop, rfl, rfl, rfl⟩
      obtain ⟨h1, h2, h3, h4⟩ := hfields
      rw [ih _ h1 (by rw [h2, h3]; omega) m ch i (by omega) hch hi, h2, h3, h4]
      have e : (m + 1) * buffer.numFrames = m * buffer.numFrames + buffer.numFrames :=
        Nat.succ_mul _ _
      rw [e]
      rcases hr with hr | hr
      · rw [hr]
        have e2 : n.mReadPos + buffer.numFrames + m * buffer.numFrames + i =
            n.mReadPos + (m * buffer.numFrames + buffer.numFrames) + i := by omega
        rw [e2]
      · rw [if_neg (by omega), if_neg (by omega)]

theorem sample_in_range {K : Type} [Zero K] (src : List (List K)) (N : Nat)
    (hN : ∀ c ∈ src, c.length = N) (ch j : Nat) (hch : ch < src.length) (hj : j < N) :
    (src[ch]?).bind (fun x => x[j]?) = some ((src.getD ch []).getD j 0) := by
  have hl : (src[ch]).length = N := hN _ (List.getElem_mem hch)
  have h1 : src[ch]? = some src[ch] := List.getElem?_eq_getElem hch
  have h2 : (src[ch])[j]? = some (src[ch])[j] :=
    List.getElem?_eq_getElem (by rw [hl]; exact hj)
  simp only [List.getD_eq_getElem?_getD, h1, Option.some_bind, Option.getD_some, h2]

/-- C25: for a player over a source buffer `src` of `N` frames at read position `p <= N` and
an output block of `B` frames with no more channels than the source, `process` writes, with
`r = min (N - p) B`, on every channel `ch` the sample `src[ch][p + i]` at every `i < r` and `0`
at every `r <= i < B`, and the block keeps its shape; with looping off, sample `i` of block `m`
among the blocks produced from `p = 0` is `src[ch][m * B + i]` while `m * B + i < N` and `0`
from there on, which is the source buffer followed by zeros. -/
theorem BufferPlayerNode.process_copies {K : Type} [Zero K] (buffer : Buffer K)
    (n : BufferPlayerNode K) (src : List (List K))
    (hsrc : n.mBuffer = some src)
    (hN : ∀ c ∈ src, c.length = n.mNumFrames)
    (hout : ∀ c ∈ buffer.channels, c.length = buffer.numFrames)
    (hch : buffer.getNumChannels ≤ src.length)
    (hp : n.mReadPos ≤ n.mNumFrames) :
    ((BufferPlayerNode.process buffer n).2.numFrames = buffer.numFrames ∧
      (BufferPlayerNode.process buffer n).2.channels.length = buffer.channels.length ∧
      ∀ c ∈ (BufferPlayerNode.process buffer n).2.channels, c.length = buffer.numFrames) ∧
    (∀ ch i : Nat, ch < buffer.getNumChannels → i < buffer.getNumFrames →
      (i < min (n.mNumFrames - n.mReadPos) buffer.getNumFrames →
        (src[ch]?).bind (fun x => x[n.mReadPos + i]?) =
          some ((BufferPlayerNode.process buffer n).2.sample ch i)) ∧
      (min (n.mNumFrames - n.mReadPos) buffer.getNumFrames ≤ i →
        (BufferPlayerNode.process buffer n).2.sample ch i = 0)) ∧
    (n.mLoop = false → ∀ k m ch i : Nat, m < k → ch < buffer.getNumChannels →
      i < buffer.getNumFrames →
      ∃ b, (BufferPlayerNode.blocks buffer k { n with mReadPos := 0 }).2[m]? = some b ∧
        (m * buffer.getNumFrames + i < n.mNumFrames →
          (src[ch]?).bind (fun x => x[m * buffer.getNumFrames + i]?) =
            some (b.sample ch i)) ∧
        (n.mNumFrames ≤ m * buffer.getNumFrames + i → b.sample ch i = 0)) := by
  simp only [Buffer.getNumChannels, Buffer.getNumFrames] at hch ⊢
  refine ⟨BufferPlayerNode.process_shape buffer n hout, ?_, ?_⟩
  · intro ch i hc hi
    rw [BufferPlayerNode.process_sample buffer n hout ch i hc hi, hsrc]
    constructor
    · intro h
      rw [if_pos h]
      exact sample_in_range src n.mNumFrames hN ch _ (by omega)
        (by have := lt_min_iff.mp h; omega)
    · intro h
      rw [if_neg (by omega)]
  · intro hloop k m ch i hm hc hi
    have h := BufferPlayerNode.blocks_sample buffer hout k { n with mReadPos := 0 } hloop
      (Nat.zero_le _) m ch i hm hc hi
    cases hb : (BufferPlayerNode.blocks buffer k { n with mReadPos := 0 }).2[m]? with
    | none => rw [hb] at h; simp at h
    | some b =>
      rw [hb] at h
      simp only [Option.map_some', Option.some.injEq, Nat.zero_add, hsrc,
        Option.getD_some] at h
      refine ⟨b, rfl, ?_, ?_⟩
      · intro hlt
        rw [h, if_pos hlt]
        exact sample_in_range src n.mNumFrames hN ch _ (by omega) hlt
      · intro hge
        rw [h, if_neg (by omega)]

theorem BufferPlayerNode.process_copies_witness :
    exPlayer2.mBuffer = some [[1, 2, 3, 4, 5], [6, 7, 8, 9, 10]] ∧
    (∀ c ∈ ([[1, 2, 3, 4, 5], [6, 7, 8, 9, 10]] : List (List ℚ)),
      c.length = exPlayer2.mNumFrames) ∧
    (∀ c ∈ exBlock.channels, c.length = exBlock.numFrames) ∧
    exBlock.getNumChannels ≤ ([[1, 2, 3, 4, 5], [6, 7, 8, 9, 10]] : List (List ℚ)).length ∧
    exPlayer2.mReadPos ≤ exPlayer2.mNumFrames ∧
    (∀ ch i : Nat, ch < exBlock.getNumChannels → i < exBlock.getNumFrames →
      (i < min (exPlayer2.mNumFrames - exPlayer2.mReadPos) exBlock.getNumFrames →
        (([[1, 2, 3, 4, 5], [6, 7, 8, 9, 10]] : List (List ℚ))[ch]?).bind
            (fun x => x[exPlayer2.mReadPos + i]?) =
          some ((BufferPlayerNode.process exBlock exPlayer2).2.sample ch i)) ∧
      (min (exPlayer2.mNumFrames - exPlayer2.mReadPos) exBlock.getNumFrames ≤ i →
        (BufferPlayerNode.process exBlock exPlayer2).2.sample ch i = 0)) :=
  have hN : ∀ c ∈ ([[1, 2, 3, 4, 5], [6, 7, 8, 9, 10]] : List (List ℚ)),
      c.length = exPlayer2.mNumFrames := by
    intro c hc
    simp only [List.mem_cons, List.mem_singleton, List.not_mem_nil, or_false] at hc
    rcases hc with rfl | rfl <;> rfl
  have hout : ∀ c ∈ exBlock.channels, c.length = exBlock.numFrames := by
    intro c hc
    simp only [exBlock, List.mem_cons, List.mem_singleton, List.not_mem_nil, or_false] at hc
    rcases hc with rfl | rfl <;> rfl
  ⟨rfl, hN, hout, by decide, by decide,
    (BufferPlayerNode.process_copies exBlock exPlayer2 _ rfl hN hout (by decide)
      (by decide)).2.1⟩

/-- C26: with `N` the frame count of the source buffer, `p <= N` the read position, `B` the
block length and `r = min (N - p) B`, `process` leaves `N`, the buffer and the loop flag alone
and keeps the read position at most `N`; if `r = B` the read position becomes `p + B` and the
enabled flag is unchanged; if `r < B` and looping is off the read position becomes `N` and the
node is disabled; if `r < B` and looping is on the read position becomes `0` and the enabled
flag is unchanged.  On a player that holds a buffer, as every constructed player does, `start`
sets the read position to `0` and enables the node. -/
theorem BufferPlayerNode.process_position {K : Type} [Zero K] (buffer : Buffer K)
    (n : BufferPlayerNode K) (hp : n.mReadPos ≤ n.mNumFrames) :
    ((BufferPlayerNode.process buffer n).1.mNumFrames = n.mNumFrames ∧
      (BufferPlayerNode.process buffer n).1.mBuffer = n.mBuffer ∧
      (BufferPlayerNode.process buffer n).1.mLoop = n.mLoop) ∧
    (BufferPlayerNode.process buffer n).1.mReadPos ≤
      (BufferPlayerNode.process buffer n).1.mNumFrames ∧
    (min (n.mNumFrames - n.mReadPos) buffer.getNumFrames = buffer.getNumFrames →
      (BufferPlayerNode.process buffer n).1.mReadPos = n.mReadPos + buffer.getNumFrames ∧
      (BufferPlayerNode.process buffer n).1.mEnabled = n.mEnabled) ∧
    (min (n.mNumFrames - n.mReadPos) buffer.getNumFrames < buffer.getNumFrames →
      n.mLoop = false →
      (BufferPlayerNode.process buffer n).1.mReadPos = n.mNumFrames ∧
      (BufferPlayerNode.process buffer n).1.mEnabled = false) ∧
    (min (n.mNumFrames - n.mReadPos) buffer.getNumFrames < buffer.getNumFrames →
      n.mLoop = true →
      (BufferPlayerNode.process buffer n).1.mReadPos = 0 ∧
      (BufferPlayerNode.process buffer n).1.mEnabled = n.mEnabled) ∧
    (n.mBuffer.isSome = true →
      n.start = .ok { n with mReadPos := 0, mEnabled := true }) ∧
    ∀ inputBuffer : Buffer K, (BufferPlayerNode.ctor inputBuffer).mBuffer.isSome = true := by
  simp only [Buffer.getNumFrames]
  have hst := BufferPlayerNode.process_state buffer n
  have hrB : min (n.mNumFrames - n.mReadPos) buffer.numFrames ≤ buffer.numFrames :=
    min_le_right _ _
  have hrN : min (n.mNumFrames - n.mReadPos) buffer.numFrames ≤ n.mNumFrames - n.mReadPos :=
    min_le_left _ _
  have hr : min (n.mNumFrames - n.mReadPos) buffer.numFrames = buffer.numFrames ∨
      min (n.mNumFrames - n.mReadPos) buffer.numFrames = n.mNumFrames - n.mReadPos := by
    rcases min_choice (n.mNumFrames - n.mReadPos) buffer.numFrames with h | h
    · exact Or.inr h
    · exact Or.inl h
  generalize min (n.mNumFrames - n.mReadPos) buffer.numFrames = r at hst hrB hrN hr
  refine ⟨?_, ?_, ?_, ?_, ?_, ?_, fun _ => rfl⟩
  · rw [hst]; split_ifs <;> exact ⟨rfl, rfl, rfl⟩
  · rw [hst]
    split_ifs
    · exact Nat.zero_le _
    · show n.mReadPos + r ≤ n.mNumFrames
      omega
    · show n.mReadPos + r ≤ n.mNumFrames
      omega
  · intro h
    rw [hst, if_neg (by omega), h]
    exact ⟨rfl, rfl⟩
  · intro h hloop
    rw [hst, if_pos h, hloop]
    refine ⟨?_, rfl⟩
    show n.mReadPos + r = n.mNumFrames
    omega
  · intro h hloop
    rw [hst, if_pos h, hloop]
    exact ⟨rfl, rfl⟩
  · intro h
    cases hb : n.mBuffer with
    | none => rw [hb] at h; cases h
    | some b => simp only [BufferPlayerNode.start, hb]

theorem BufferPlayerNode.process_position_witness :
    exPlayer2.mReadPos ≤ exPlayer2.mNumFrames ∧
    (BufferPlayerNode.process exBlock exPlayer2).1.mReadPos ≤
      (BufferPlayerNode.process exBlock exPlayer2).1.mNumFrames ∧
    (min (exPlayer2.mNumFrames - exPlayer2.mReadPos) exBlock.getNumFrames <
        exBlock.getNumFrames →
      exPlayer2.mLoop = false →
      (BufferPlayerNode.process exBlock exPlayer2).1.mReadPos = exPlayer2.mNumFrames ∧
      (BufferPlayerNode.process exBlock exPlayer2).1.mEnabled = false) :=
  ⟨by decide, (BufferPlayerNode.process_position exBlock exPlayer2 (by decide)).2.1,
    (BufferPlayerNode.process_position exBlock exPlayer2 (by decide)).2.2.2.1⟩

theorem Node.setParent_parent_ite (g : Graph) (s p x : NodeId) :
    (Node.setParent g s p x).mParent = if x = s then some p else (g x).mParent := by
  unfold Node.setParent Graph.put
  by_cases h : x = s <;> simp [h]

theorem mem_set_slot (s : NodeId) :
    ∀ (l : List (Option NodeId)) (b : Nat),
      (l[b]? = some none ∨ l[b]? = some (some s)) →
      ∀ t : NodeId, some t ∈ l.set b (some s) ↔ t = s ∨ some t ∈ l := by
  intro l
  induction l with
  | nil => intro b h; simp at h
  | cons a rest ih =>
    intro b h t
    cases b with
    | zero =>
      simp only [List.getElem?_cons_zero, Option.some.injEq] at h
      simp only [List.set_cons_zero, List.mem_cons, Option.some.injEq]
      rcases h with h | h
      · subst h
        simp
      · subst h
        simp only [Option.some.injEq]
        tauto
    | succ b =>
      simp only [List.getElem?_cons_succ] at h
      simp only [List.set_cons_succ, List.mem_cons, ih b h t]
      tauto

theorem MixerNode.place_mem (s : NodeId) :
    ∀ (l : List (Option NodeId)) (t : NodeId),
      some t ∈ MixerNode.place s l ↔ t = s ∨ some t ∈ l := by
  intro l
  induction l with
  | nil => intro t; simp [MixerNode.place]
  | cons a rest ih =>
    intro t
    cases a with
    | none => simp [MixerNode.place]
    | some u =>
      simp only [MixerNode.place, List.mem_cons, ih t, Option.some.injEq]
      tauto

theorem Fresh.consistent (g : Graph) (h : Fresh g) : Consistent g := by
  intro s p
  constructor
  · intro hp
    rw [(h s).1] at hp
    cases hp
  · intro hm
    cases (h p).2 _ hm

theorem Consistent.link (g g1 : Graph) (s p : NodeId) (slots : List (Option NodeId))
    (hpar : ∀ x, (g1 x).mParent = if x = s then some p else (g x).mParent)
    (hsrc : ∀ x, (g1 x).mSources = if x = p then slots else (g x).mSources)
    (hmem : ∀ t : NodeId, some t ∈ slots ↔ t = s ∨ some t ∈ (g p).mSources)
    (hfree : ParentFree g s p) (hc : Consistent g) : Consistent g1 := by
  intro s1 p1
  rw [hpar, hsrc]
  by_cases hs : s1 = s
  · subst hs
    rw [if_pos rfl]
    by_cases hp : p1 = p
    · subst hp
      rw [if_pos rfl, hmem]
      simp
    · rw [if_neg hp, ← hc s1 p1]
      rcases hfree with hf | hf
      · rw [hf]
        simp only [Option.some.injEq]
        constructor
        · intro h; exact absurd h.symm hp
        · intro h; cases h
      · rw [hf]
  · rw [if_neg hs]
    by_cases hp : p1 = p
    · subst hp
      rw [if_pos rfl, hmem, hc s1 p1]
      constructor
      · intro h; exact Or.inr h
      · intro h
        rcases h with h | h
        · exact absurd h hs
        · exact h
    · rw [if_neg hp]
      exact hc s1 p1

theorem Node.setSource_consistent (g : Graph) (p s : NodeId) (bus : Nat)
    (hfit : SlotFree g p s bus) (hc : Consistent g) :
    ∃ g1, Node.setSource g p s bus = .ok g1 ∧ Consistent g1 := by
  have hlt : bus < (g p).mSources.length := by
    rcases hfit.2 with h | h
    · exact (List.getElem?_eq_some.mp h).1
    · exact (List.getElem?_eq_some.mp h).1
  refine ⟨_, Node.setSource_in_range g p s bus hlt, ?_⟩
  refine Consistent.link g _ s p ((g p).mSources.set bus (some s)) ?_ ?_
    (mem_set_slot s _ bus hfit.2) hfit.1 hc
  · intro x
    rw [Node.setParent_parent_ite]
    by_cases hs : x = s
    · rw [if_pos hs, if_pos hs]
    · rw [if_neg hs, if_neg hs]
      by_cases hp : x = p
      · subst hp; rw [Graph.put_same]
      · rw [Graph.put_other _ _ _ _ hp]
  · intro x
    rw [Node.setParent_sources]
    by_cases hp : x = p
    · subst hp; rw [Graph.put_same, if_pos rfl]
    · rw [Graph.put_other _ _ _ _ hp, if_neg hp]

theorem MixerNode.setSource_keeps_links (g : Graph) (m s : NodeId)
    (hfit : ParentFree g s m) (hc : Consistent g) :
    Consistent (MixerNode.setSource g m s) := by
  refine Consistent.link g _ s m (MixerNode.place s (g m).mSources) ?_ ?_
    (MixerNode.place_mem s _) hfit hc
  · intro x
    unfold MixerNode.setSource
    by_cases hm : x = m
    · subst hm
      simp only [Graph.put_same]
      exact Node.setParent_parent_ite g s x x
    · simp only []
      rw [Graph.put_other _ _ _ _ hm]
      exact Node.setParent_parent_ite g s m x
  · intro x
    unfold MixerNode.setSource
    by_cases hm : x = m
    · subst hm
      simp only [Graph.put_same, Node.setParent_sources, if_true]
    · simp only []
      rw [Graph.put_other _ _ _ _ hm, Node.setParent_sources, if_neg hm]

theorem ConnectCall.run_consistent (g : Graph) (c : ConnectCall) (hfit : c.Fits g)
    (hc : Consistent g) : ∃ g1, c.run g = .ok g1 ∧ Consistent g1 := by
  cases c with
  | connect self dest bus =>
    obtain ⟨g1, h1, h2⟩ := Node.setSource_consistent g dest self bus hfit hc
    exact ⟨g1, by simp [ConnectCall.run, Node.connect, h1, Except.map], h2⟩
  | connect0 self dest =>
    obtain ⟨g1, h1, h2⟩ := Node.setSource_consistent g dest self 0 hfit hc
    exact ⟨g1, by simp [ConnectCall.run, Node.connect0, Node.setSourceCall, Node.setSource0, h1,
      Except.map], h2⟩
  | mixerConnect0 self dest =>
    exact ⟨_, by simp [ConnectCall.run, Node.connect0, Node.setSourceCall, Except.map],
      MixerNode.setSource_keeps_links g dest self hfit hc⟩
  | setSource self source bus =>
    exact Node.setSource_consistent g self source bus hfit hc
  | setSource0 self source =>
    exact Node.setSource_consistent g self source 0 hfit hc
  | mixerSetSource self source =>
    exact ⟨_, rfl, MixerNode.setSource_keeps_links g self source hfit hc⟩

/-- C27 (as stated, refuted): from nodes fresh from `Node::Node()`, connecting node 0 and then
node 1 into bus 0 of node 2 leaves node 0 with parent 2 although it occupies no slot of node 2;
connecting node 0 into bus 0 of node 2 and then into bus 0 of node 3 leaves node 0 in a slot of
node 2 although its parent is node 3. -/
theorem Node.setSource_links_counterexample :
    Fresh exFresh ∧
    (∃ g, runCalls exFresh [.setSource 2 0 0, .setSource 2 1 0] = .ok g ∧
      (g 0).mParent = some 2 ∧ (g 2).mSources = [some 1] ∧ ¬ Consistent g) ∧
    (∃ g, runCalls exFresh [.setSource 2 0 0, .connect 0 3 0] = .ok g ∧
      (g 0).mParent = some 3 ∧ (g 2).mSources = [some 0] ∧ ¬ Consistent g) := by
  refine ⟨fun i => ⟨rfl, ?_⟩, ?_, ?_⟩
  · intro x hx
    simpa [exFresh, Node.ctor] using hx
  · refine ⟨_, rfl, rfl, rfl, ?_⟩
    intro h
    have h1 := (h 0 2).mp rfl
    revert h1
    decide
  · refine ⟨_, rfl, rfl, rfl, ?_⟩
    intro h
    have h1 := (h 0 2).mpr (by decide)
    revert h1
    decide

/-- C27 (amended): in every graph state reached from freshly constructed nodes by calls of
`Node::connect`, `Node::setSource` and `MixerNode::setSource` that each connect a node whose
parent is unset or already the destination and, for `Node::connect` and `Node::setSource`, into
a slot that is empty or already holds that node, every call returns and a node `s` has parent
`p` if and only if `s` occupies one of the source slots of `p`. -/
theorem runCalls_consistent (g0 : Graph) (calls : List ConnectCall) (hfresh : Fresh g0)
    (hfit : fitsAll g0 calls) :
    ∃ g, runCalls g0 calls = .ok g ∧
      ∀ s p : NodeId, (g s).mParent = some p ↔ some s ∈ (g p).mSources := by
  have key : ∀ (calls : List ConnectCall) (g : Graph), Consistent g → fitsAll g calls →
      ∃ g1, runCalls g calls = .ok g1 ∧ Consistent g1 := by
    intro calls
    induction calls with
    | nil => intro g hc _; exact ⟨g, rfl, hc⟩
    | cons c cs ih =>
      intro g hc hf
      obtain ⟨g1, h1, h2⟩ := ConnectCall.run_consistent g c hf.1 hc
      have hf2 := hf.2
      rw [h1] at hf2
      obtain ⟨g2, h3, h4⟩ := ih g1 h2 hf2
      exact ⟨g2, by simp only [runCalls, h1, h3], h4⟩
  exact key calls g0 (Fresh.consistent g0 hfresh) hfit

theorem runCalls_consistent_witness :
    Fresh exFresh ∧
    fitsAll exFresh
      [.setSource 2 0 0, .mixerSetSource 2 1, .mixerConnect0 4 2, .connect 2 3 0] ∧
    ∃ g, runCalls exFresh
        [.setSource 2 0 0, .mixerSetSource 2 1, .mixerConnect0 4 2, .connect 2 3 0] = .ok g ∧
      ∀ s p : NodeId, (g s).mParent = some p ↔ some s ∈ (g p).mSources :=
  have hfresh : Fresh exFresh := fun _ =>
    ⟨rfl, fun x hx => by simpa [exFresh, Node.ctor] using hx⟩
  have hfit : fitsAll exFresh
      [.setSource 2 0 0, .mixerSetSource 2 1, .mixerConnect0 4 2, .connect 2 3 0] :=
    ⟨⟨Or.inl rfl, Or.inl rfl⟩, ⟨Or.inl rfl, ⟨Or.inl rfl, ⟨Or.inl rfl, Or.inl rfl⟩, trivial⟩⟩⟩
  ⟨hfresh, hfit, runCalls_consistent exFresh _ hfresh hfit⟩

/-- C28: a mono file of 100 frames at 22050 Hz played at 44100 Hz has `mNumFrames = 200` and a
converter; two reads into a buffer of 64 frames leave `mReadPos = 128`, which passes the
assertion `mReadPos < mNumFrames` of `read` and exceeds `mFileNumFrames = 100`, so the
subtraction `mFileNumFrames - mReadPos` wraps to `2 ^ 64 - 28` and does not bound the request;
the four reads that the assertion lets through ask the file for 32 frames each, 128 frames of a
file that holds 100. -/
theorem SourceFile.read_subtraction_wraps :
    (exFile.mNumFrames = 200 ∧ exFile.mFileNumFrames = 100 ∧ exFile.mConverter = true) ∧
    (∃ f, exFileAfter 2 = some f ∧ f.mReadPos = 128 ∧ f.mReadPos < f.mNumFrames ∧
      ¬ f.mReadPos ≤ f.mFileNumFrames ∧
      sizeSub f.mFileNumFrames f.mReadPos = 2 ^ 64 - 28 ∧
      SourceFile.numFramesNeeded 64 f = 32 ∧
      (SourceFile.read (fun n => 2 * n) id 1 64 f).toOption.map Prod.snd = some 64) ∧
    (∃ f, exFileAfter 3 = some f ∧ f.mReadPos = 192 ∧ f.mReadPos < f.mNumFrames ∧
      SourceFile.numFramesNeeded 64 f = 32) ∧
    ((List.range 4).map fun k => (exFileAfter k).map (SourceFile.numFramesNeeded 64)) =
      [some 32, some 32, some 32, some 32] := by
  refine ⟨by decide, ⟨_, rfl, ?_⟩, ⟨_, rfl, ?_⟩, ?_⟩
  · decide
  · decide
  · decide

/-- C29: `tableLookup` returns `table[i2] + frac * (table[i2] - table[i1])`, which is the
linear interpolation `table[i1] + frac * (table[i2] - table[i1])` plus `table[i2] - table[i1]`,
for every table, size and phase; on the table `0, 1, 0, -1` at phase 0, where `phase * size` is
the integer 0, it returns `table[1] = 1` and not `table[0] = 0`, and at phase `1 / 8` it returns
`3 / 2`, which does not lie between `table[0]` and `table[1]`. -/
theorem tableLookup_not_interpolation :
    (∀ (table : List ℚ) (size : Nat) (phase : ℚ),
      tableLookup table size phase =
        table.getD ⌊phase * (size : ℚ)⌋.toNat 0 +
          (phase * (size : ℚ) - ((⌊phase * (size : ℚ)⌋.toNat : Nat) : ℚ)) *
            (table.getD ((⌊phase * (size : ℚ)⌋.toNat + 1) &&& (size - 1)) 0 -
              table.getD ⌊phase * (size : ℚ)⌋.toNat 0) +
          (table.getD ((⌊phase * (size : ℚ)⌋.toNat + 1) &&& (size - 1)) 0 -
            table.getD ⌊phase * (size : ℚ)⌋.toNat 0)) ∧
    tableLookup exTable 4 0 = 1 ∧ tableLookupSpec exTable 4 0 = 0 ∧
    tableLookup exTable 4 (1 / 8) = 3 / 2 ∧ tableLookupSpec exTable 4 (1 / 8) = 1 / 2 := by
  refine ⟨?_, ?_, ?_, ?_, ?_⟩
  · intro table size phase
    simp only [tableLookup]
    ring
  · simp [tableLookup, exTable]
  · simp [tableLookupSpec, exTable]
  · have h : ⌊(1 / 8 : ℚ) * ((4 : ℕ) : ℚ)⌋ = 0 := by
      rw [Int.floor_eq_iff]; norm_num
    simp only [tableLookup, h, exTable]
    norm_num
  · have h : ⌊(1 / 8 : ℚ) * ((4 : ℕ) : ℚ)⌋ = 0 := by
      rw [Int.floor_eq_iff]; norm_num
    simp only [tableLookupSpec, h, exTable]
    norm_num

/-- C30: for a node of 2 channels in a context at 44100 Hz, the wave format that
`SourceVoiceXAudio::initialize` builds has `nChannels = 44100`, `nSamplesPerSec = 2`,
`nBlockAlign = 45328` and `nAvgBytesPerSec = 90656`, because the call passes the channel count
where `interleavedFloatWaveFormat` takes the sample rate and the sample rate where it takes the
channel count; the call in `ContextWasapi.cpp` passes them in the declared order and gets
`nChannels = 2`, `nSamplesPerSec = 44100`, `nBlockAlign = 8`, `nAvgBytesPerSec = 352800`. -/
theorem SourceVoiceXAudio.wfx_swapped :
    SourceVoiceXAudio.wfx 2 44100 =
      { nSamplesPerSec := 2, nChannels := 44100, wBitsPerSample := 32, nBlockAlign := 45328,
        nAvgBytesPerSec := 90656 } ∧
    WasapiAudioClientImpl.wfx 2 44100 =
      { nSamplesPerSec := 44100, nChannels := 2, wBitsPerSample := 32, nBlockAlign := 8,
        nAvgBytesPerSec := 352800 } ∧
    ∀ c R : Nat, SourceVoiceXAudio.wfx c R = WasapiAudioClientImpl.wfx R c := by
  refine ⟨by decide, by decide, fun _ _ => rfl⟩

theorem Node.setSource_fields (g : Graph) (p s : NodeId) (b : Nat)
    (h : b < (g p).mSources.length) :
    ∃ g1, Node.setSource g p s b = .ok g1 ∧
      (∀ m, (g1 m).mSources = if m = p then (g p).mSources.set b (some s) else (g m).mSources) ∧
      (∀ m, (g1 m).mParent = if m = s then some p else (g m).mParent) ∧
      (∀ m, (g1 m).mFormat = (g m).mFormat ∧ (g1 m).mInitialized = (g m).mInitialized) := by
  refine ⟨_, Node.setSource_in_range g p s b h, ?_, ?_, ?_⟩
  · intro m
    rw [Node.setParent_sources]
    by_cases hp : m = p
    · subst hp; rw [Graph.put_same, if_pos rfl]
    · rw [Graph.put_other _ _ _ _ hp, if_neg hp]
  · intro m
    rw [Node.setParent_parent_ite]
    by_cases hs : m = s
    · rw [if_pos hs, if_pos hs]
    · rw [if_neg hs, if_neg hs]
      by_cases hp : m = p
      · subst hp; rw [Graph.put_same]
      · rw [Graph.put_other _ _ _ _ hp]
  · intro m
    unfold Node.setParent
    by_cases hs : m = s
    · subst hs
      rw [Graph.put_same]
      by_cases hp : m = p
      · subst hp; rw [Graph.put_same]; exact ⟨rfl, rfl⟩
      · rw [Graph.put_other _ _ _ _ hp]; exact ⟨rfl, rfl⟩
    · rw [Graph.put_other _ _ _ _ hs]
      by_cases hp : m = p
      · subst hp; rw [Graph.put_same]; exact ⟨rfl, rfl⟩
      · rw [Graph.put_other _ _ _ _ hp]; exact ⟨rfl, rfl⟩

theorem ContextXAudio.insertSourceVoice_spec (c : ContextXAudio) (node x : NodeId) (i : Nat)
    (hnode : node < c.numNodes) (hx : x < c.numNodes)
    (hi : i < (c.nodes node).mSources.length)
    (hch : (c.nodes x).mFormat.getNumChannels ≤ 2) :
    ∃ c1, c.insertSourceVoice true node i x = .ok c1 ∧
      c1.numNodes = c.numNodes + 1 ∧
      (c1.nodes node).mSources = (c.nodes node).mSources.set i (some c.numNodes) ∧
      ((c1.nodes c.numNodes).mSources = [some x] ∧
        (c1.nodes c.numNodes).mParent = some node ∧
        (c1.nodes c.numNodes).mFormat.getNumChannels = (c.nodes x).mFormat.getNumChannels ∧
        (c1.nodes c.numNodes).mInitialized = true ∧
        c1.kind c.numNodes = XKind.sourceVoice ∧
        c1.mFilterEnabled c.numNodes = true) ∧
      (c1.nodes x).mParent = some c.numNodes ∧
      ∀ m, m ≠ c.numNodes →
        c1.kind m = c.kind m ∧ c1.mFilterEnabled m = c.mFilterEnabled m ∧
        (c1.nodes m).mFormat = (c.nodes m).mFormat ∧
        (c1.nodes m).mInitialized = (c.nodes m).mInitialized ∧
        (m ≠ node → (c1.nodes m).mSources = (c.nodes m).mSources) ∧
        (m ≠ x → (c1.nodes m).mParent = (c.nodes m).mParent) := by
  have hne : node ≠ c.numNodes := Nat.ne_of_lt hnode
  have hxe : x ≠ c.numNodes := Nat.ne_of_lt hx
  -- the graph after `makeNode`, `setNumChannels` and `initialize`
  have hinit : SourceVoiceXAudio.init true
      ((c.nodes.put c.numNodes SourceVoiceXAudio.ctor).put c.numNodes
        { (c.nodes.put c.numNodes SourceVoiceXAudio.ctor) c.numNodes with
          mFormat := ((c.nodes.put c.numNodes SourceVoiceXAudio.ctor) c.numNodes).mFormat.setNumChannels
            ((c.nodes.put c.numNodes SourceVoiceXAudio.ctor) x).mFormat.getNumChannels })
      c.numNodes =
      .ok (c.nodes.put c.numNodes
        { SourceVoiceXAudio.ctor with
          mFormat := SourceVoiceXAudio.ctor.mFormat.setNumChannels
            (c.nodes x).mFormat.getNumChannels,
          mInitialized := true }) := by
    unfold SourceVoiceXAudio.init
    simp only [Graph.put_same, Graph.put_other _ _ _ _ hxe]
    rw [if_pos (by simpa [Format.setNumChannels, Format.getNumChannels] using hch)]
    simp only [if_true]
    congr 1
    funext m
    by_cases hm : m = c.numNodes
    · subst hm; simp [Graph.put]
    · simp [Graph.put, hm]
  obtain ⟨g4, h4, s4, p4, f4⟩ := Node.setSource_fields
    (c.nodes.put c.numNodes
      { SourceVoiceXAudio.ctor with
        mFormat := SourceVoiceXAudio.ctor.mFormat.setNumChannels
          (c.nodes x).mFormat.getNumChannels,
        mInitialized := true }) node c.numNodes i
    (by rw [Graph.put_other _ _ _ _ hne]; exact hi)
  have hlen5 : 0 < (g4 c.numNodes).mSources.length := by
    rw [s4, if_neg (Ne.symm hne), Graph.put_same]
    exact Nat.zero_lt_one
  obtain ⟨g5, h5, s5, p5, f5⟩ := Node.setSource_fields g4 c.numNodes x 0 hlen5
  refine ⟨{ c.makeSourceVoice.1 with
      nodes := g5,
      mFilterEnabled := fun m =>
        if m = c.makeSourceVoice.2 then true else c.makeSourceVoice.1.mFilterEnabled m },
    ?_, ?_, ?_, ⟨?_, ?_, ?_, ?_, ?_, ?_⟩, ?_, ?_⟩
  · simp only [ContextXAudio.insertSourceVoice, ContextXAudio.makeSourceVoice, hinit,
      Node.setInput, h4, h5]
  · rfl
  · show (g5 node).mSources = _
    rw [s5, if_neg hne, s4, if_pos rfl, Graph.put_other _ _ _ _ hne]
  · show (g5 c.numNodes).mSources = _
    rw [s5, if_pos rfl, s4, if_neg (Ne.symm hne), Graph.put_same]
    rfl
  · show (g5 c.numNodes).mParent = _
    rw [p5, if_neg (Ne.symm hxe), p4, if_pos rfl]
  · show (g5 c.numNodes).mFormat.getNumChannels = _
    rw [(f5 _).1, (f4 _).1, Graph.put_same]
    rfl
  · show (g5 c.numNodes).mInitialized = _
    rw [(f5 _).2, (f4 _).2, Graph.put_same]
  · simp [ContextXAudio.makeSourceVoice]
  · simp [ContextXAudio.makeSourceVoice]
  · show (g5 x).mParent = _
    rw [p5, if_pos rfl]
  · intro m hm
    refine ⟨by simp [ContextXAudio.makeSourceVoice, hm],
      by simp [ContextXAudio.makeSourceVoice, hm], ?_, ?_, ?_, ?_⟩
    · show (g5 m).mFormat = _
      rw [(f5 _).1, (f4 _).1, Graph.put_other _ _ _ _ hm]
    · show (g5 m).mInitialized = _
      rw [(f5 _).2, (f4 _).2, Graph.put_other _ _ _ _ hm]
    · intro hmn
      show (g5 m).mSources = _
      rw [s5, if_neg hm, s4, if_neg hmn, Graph.put_other _ _ _ _ hm]
    · intro hmx
      show (g5 m).mParent = _
      rw [p5, if_neg hmx, p4, if_neg hm, Graph.put_other _ _ _ _ hm]

theorem ContextXAudio.xframe_refl (node : NodeId) (lo hi : Nat) (a : ContextXAudio) :
    ContextXAudio.Frame node lo hi a a :=
  ⟨Nat.le_refl _, fun _ _ => ⟨rfl, rfl, rfl, fun _ => rfl⟩, rfl, fun _ _ => rfl⟩

theorem ContextXAudio.xframe_trans (node : NodeId) (lo mid hi : Nat) (a b c : ContextXAudio)
    (h1 : lo ≤ mid) (h2 : mid ≤ hi) (hab : ContextXAudio.Frame node lo mid a b)
    (hbc : ContextXAudio.Frame node mid hi b c) : ContextXAudio.Frame node lo hi a c := by
  obtain ⟨n1, f1, l1, k1⟩ := hab
  obtain ⟨n2, f2, l2, k2⟩ := hbc
  refine ⟨Nat.le_trans n1 n2, ?_, l2.trans l1, ?_⟩
  · intro m hm
    obtain ⟨a1, a2, a3, a4⟩ := f1 m hm
    obtain ⟨b1, b2, b3, b4⟩ := f2 m (Nat.lt_of_lt_of_le hm n1)
    exact ⟨b1.trans a1, b2.trans a2, b3.trans a3, fun hne => (b4 hne).trans (a4 hne)⟩
  · intro k hk
    rw [k2 k (by omega), k1 k (by omega)]

theorem ContextXAudio.connectInput_ok (h : XAudioHelpers) (c : ContextXAudio) (node : NodeId)
    (i : Nat) (hnode : node < c.numNodes)
    (hin : ∀ x : NodeId, (c.nodes node).mSources[i]? = some (some x) → x < c.numNodes)
    (hi : i < (c.nodes node).mSources.length) (hok : c.BusOk h node i) :
    ∃ c1, c.connectInput h true node i = .ok c1 ∧ ContextXAudio.Frame node i (i + 1) c c1 ∧
      ((c.nodes node).mSources[i]? = some none → c1 = c) ∧
      ∀ x : NodeId, (c.nodes node).mSources[i]? = some (some x) →
        ((c.kind x ≠ XKind.generic ∨ h.findUpstreamSourceVoice c x ≠ none) → c1 = c) ∧
        (c.kind x = XKind.generic → h.findUpstreamSourceVoice c x = none →
          c.insertSourceVoice true node i x = .ok c1) := by
  cases hb : (c.nodes node).mSources[i]? with
  | none =>
    rw [List.getElem?_eq_none_iff] at hb
    omega
  | some o =>
    cases o with
    | none =>
      refine ⟨c, by simp only [ContextXAudio.connectInput, hb],
        ContextXAudio.xframe_refl _ _ _ _, fun _ => rfl, ?_⟩
      intro x hx
      cases hx
    | some x =>
      by_cases hk : c.kind x = XKind.generic
      · cases hu : h.findUpstreamSourceVoice c x with
        | some sv =>
          refine ⟨c, by simp [ContextXAudio.connectInput, hb,
            ContextXAudio.isNodeNativeXAudio, hk, hu],
            ContextXAudio.xframe_refl _ _ _ _, fun hn => rfl, ?_⟩
          intro y hy
          simp only [Option.some.injEq] at hy
          subst hy
          refine ⟨fun _ => rfl, fun _ hn => ?_⟩
          rw [hu] at hn
          cases hn
        | none =>
          rcases hok x hb with h1 | h1 | ⟨h1, h2, h3⟩
          · exact absurd hk h1
          · exact absurd hu h1
          · obtain ⟨c1, e1, n1, s1, _, _, f1⟩ :=
              ContextXAudio.insertSourceVoice_spec c node x i hnode (hin x hb) hi h3
            have hrun : c.connectInput h true node i = .ok c1 := by
              simp [ContextXAudio.connectInput, hb, ContextXAudio.isNodeNativeXAudio, hk, hu,
                h1, h2, e1]
            refine ⟨c1, hrun, ⟨by omega, ?_, by rw [s1, List.length_set], ?_⟩,
              (fun hn => by cases hn), ?_⟩
            · intro m hm
              obtain ⟨a1, _, a3, a4, a5, _⟩ := f1 m (Nat.ne_of_lt hm)
              exact ⟨a1, a3, a4, a5⟩
            · intro k hk2
              rw [s1, List.getElem?_set_ne (by omega)]
            · intro y hy
              simp only [Option.some.injEq] at hy
              subst hy
              refine ⟨fun hn => ?_, fun _ _ => e1⟩
              rcases hn with hn | hn
              · exact absurd hk hn
              · exact absurd hu hn
      · refine ⟨c, by simp [ContextXAudio.connectInput, hb,
          ContextXAudio.isNodeNativeXAudio, hk],
          ContextXAudio.xframe_refl _ _ _ _, fun hn => rfl, ?_⟩
        intro y hy
        simp only [Option.some.injEq] at hy
        subst hy
        exact ⟨fun _ => rfl, fun hg => absurd hg hk⟩

theorem ContextXAudio.connectionsUpTo_frame (h : XAudioHelpers) (c : ContextXAudio)
    (node : NodeId) (hnode : node < c.numNodes)
    (hin : ∀ y : NodeId, some y ∈ (c.nodes node).mSources → y < c.numNodes) :
    ∀ J : Nat, J ≤ (c.nodes node).mSources.length →
      (∀ (j : Nat) (cj : ContextXAudio), j < J →
        c.connectionsUpTo h true node j = .ok cj → cj.BusOk h node j) →
      ∃ cJ, c.connectionsUpTo h true node J = .ok cJ ∧
        ∀ (lo : Nat) (clo : ContextXAudio), lo ≤ J →
          c.connectionsUpTo h true node lo = .ok clo →
          ContextXAudio.Frame node lo J clo cJ := by
  intro J
  induction J with
  | zero =>
    intro _ _
    refine ⟨c, rfl, ?_⟩
    intro lo clo hlo hr
    have hz : lo = 0 := by omega
    subst hz
    simp only [ContextXAudio.connectionsUpTo, Except.ok.injEq] at hr
    subst hr
    exact ContextXAudio.xframe_refl _ _ _ _
  | succ J ih =>
    intro hJ hadm
    obtain ⟨cJ, hrJ, hfr⟩ := ih (by omega) (fun j cj hj => hadm j cj (by omega))
    have f0 := hfr 0 c (Nat.zero_le _) rfl
    obtain ⟨n0, _, l0, k0⟩ := f0
    obtain ⟨c1, e1, fr1, _⟩ := ContextXAudio.connectInput_ok h cJ node J
      (Nat.lt_of_lt_of_le hnode n0)
      (by
        intro x hx
        rw [k0 J (Or.inr (Nat.le_refl _))] at hx
        exact Nat.lt_of_lt_of_le (hin x (List.getElem?_mem hx)) n0)
      (by rw [l0]; omega)
      (hadm J cJ (Nat.lt_succ_self _) hrJ)
    have hr1 : c.connectionsUpTo h true node (J + 1) = .ok c1 := by
      simp only [ContextXAudio.connectionsUpTo, hrJ, e1]
    refine ⟨c1, hr1, ?_⟩
    intro lo clo hlo hr
    by_cases hl : lo = J + 1
    · subst hl
      rw [hr1] at hr
      simp only [Except.ok.injEq] at hr
      subst hr
      exact ContextXAudio.xframe_refl _ _ _ _
    · exact ContextXAudio.xframe_trans node lo J (J + 1) clo cJ c1 (by omega) (by omega)
        (hfr lo clo (by omega) hr) fr1

theorem ContextXAudio.connectionsLoop_eq_upTo (h : XAudioHelpers) (c : ContextXAudio)
    (node : NodeId) (hnode : node < c.numNodes)
    (hin : ∀ y : NodeId, some y ∈ (c.nodes node).mSources → y < c.numNodes)
    (hadm : ∀ (j : Nat) (cj : ContextXAudio), j < (c.nodes node).mSources.length →
      c.connectionsUpTo h true node j = .ok cj → cj.BusOk h node j) :
    ∀ (fuel j : Nat) (cj : ContextXAudio), j ≤ (c.nodes node).mSources.length →
      c.connectionsUpTo h true node j = .ok cj →
      (c.nodes node).mSources.length - j < fuel →
      ContextXAudio.connectionsLoop h true node fuel j cj =
        c.connectionsUpTo h true node (c.nodes node).mSources.length := by
  intro fuel
  induction fuel with
  | zero => intro j cj _ _ hf; omega
  | succ fuel ih =>
    intro j cj hj hr hf
    obtain ⟨cj2, hr2, hfr⟩ := ContextXAudio.connectionsUpTo_frame h c node hnode hin j hj
      (fun k ck hk => hadm k ck (by omega))
    rw [hr] at hr2
    simp only [Except.ok.injEq] at hr2
    subst hr2
    have hlen := (hfr 0 c (Nat.zero_le _) rfl).2.2.1
    simp only [ContextXAudio.connectionsLoop, hlen]
    by_cases hlt : j < (c.nodes node).mSources.length
    · obtain ⟨c1, hr1, _⟩ := ContextXAudio.connectionsUpTo_frame h c node hnode hin (j + 1)
        hlt (fun k ck hk => hadm k ck (by omega))
      have e1 : cj.connectInput h true node j = .ok c1 := by
        simpa only [ContextXAudio.connectionsUpTo, hr] using hr1
      rw [if_pos hlt, e1]
      exact ih (j + 1) c1 hlt hr1 (by omega)
    · have hje : j = (c.nodes node).mSources.length := by omega
      rw [if_neg hlt, ← hr, hje]

/-- C22 (as stated, refuted): node 0 has on bus 0 the generic node 1, for which no source voice
is found upstream or downstream and no native node downstream; node 1 has three channels, and
`connectionsDidChange( node 0 )` fails on `CI_ASSERT( getNumChannels() <= 2 )` in
`SourceVoiceXAudio::initialize`, although `CreateSourceVoice` would answer `S_OK`. -/
theorem ContextXAudio.connectionsDidChange_counterexample :
    ((exXAudio 3).nodes 0).mSources[0]? = some (some 1) ∧
    (exXAudio 3).isNodeNativeXAudio 1 = false ∧
    ((exXAudio 3).nodes 1).mFormat.getNumChannels = 3 ∧
    exHelpers.findUpstreamSourceVoice (exXAudio 3) 1 = none ∧
    exHelpers.findDownStreamSourceVoice (exXAudio 3) 1 = none ∧
    exHelpers.findDownStreamNodeXAudio (exXAudio 3) 1 = none ∧
    ∀ fuel : Nat, 0 < fuel →
      (exXAudio 3).connectionsDidChange exHelpers true fuel 0 = .error .assertFailed := by
  refine ⟨rfl, rfl, rfl, rfl, rfl, rfl, ?_⟩
  intro fuel hf
  cases fuel with
  | zero => omega
  | succ k => rfl

/-- C22 (amended): let bus `i` of `node` hold a generic node `x` with at most two channels for
which, in the state `ci` in which the loop reaches bus `i`, `findUpstreamNode` and
`findDownStreamNode` find no source voice and `findDownStreamNode` finds no native node; let
`CreateSourceVoice` answer `S_OK`, and let the round of every other bus neither fail nor move
a source voice; `node` and its inputs are nodes of the context.  Then
`connectionsDidChange( node )` returns, given fuel above the number of busses, and leaves on bus
`i` a source voice `sv` that is new to the context, has the channel count of `x`, has `x` as its
one input and is initialized; `node` keeps the number of its busses, an empty bus stays empty,
and an input that is native or has a source voice upstream when the loop reaches its bus stays
on its bus. -/
theorem ContextXAudio.connectionsDidChange_inserts (h : XAudioHelpers)
    (c ci : ContextXAudio) (node x : NodeId) (i fuel : Nat)
    (hnode : node < c.numNodes)
    (hin : ∀ y : NodeId, some y ∈ (c.nodes node).mSources → y < c.numNodes)
    (hfuel : (c.nodes node).mSources.length < fuel)
    (hothers : ∀ (j : Nat) (cj : ContextXAudio), j < (c.nodes node).mSources.length → j ≠ i →
      c.connectionsUpTo h true node j = .ok cj → cj.BusOk h node j)
    (hreach : c.connectionsUpTo h true node i = .ok ci)
    (hx : (c.nodes node).mSources[i]? = some (some x))
    (hgen : c.kind x = XKind.generic)
    (hch : (c.nodes x).mFormat.getNumChannels ≤ 2)
    (hup : h.findUpstreamSourceVoice ci x = none)
    (hdown : h.findDownStreamSourceVoice ci x = none)
    (hnative : h.findDownStreamNodeXAudio ci x = none) :
    ∃ c1 sv, c.connectionsDidChange h true fuel node = .ok c1 ∧
      c.numNodes ≤ sv ∧ sv < c1.numNodes ∧
      (c1.nodes node).mSources[i]? = some (some sv) ∧
      c1.kind sv = XKind.sourceVoice ∧
      (c1.nodes sv).mFormat.getNumChannels = (c.nodes x).mFormat.getNumChannels ∧
      (c1.nodes sv).mSources = [some x] ∧
      (c1.nodes sv).mInitialized = true ∧
      (c1.nodes node).mSources.length = (c.nodes node).mSources.length ∧
      (∀ j : Nat, (c.nodes node).mSources[j]? = some none →
        (c1.nodes node).mSources[j]? = some none) ∧
      ∀ (j : Nat) (y : NodeId) (cj : ContextXAudio),
        (c.nodes node).mSources[j]? = some (some y) →
        c.connectionsUpTo h true node j = .ok cj →
        (c.kind y ≠ XKind.generic ∨ h.findUpstreamSourceVoice cj y ≠ none) →
        (c1.nodes node).mSources[j]? = some (some y) := by
  have hilt : i < (c.nodes node).mSources.length := (List.getElem?_eq_some.mp hx).1
  have hxlt : x < c.numNodes := hin x (List.getElem?_mem hx)
  -- the state in which the loop reaches bus `i`
  obtain ⟨ci2, hri, hfri⟩ := ContextXAudio.connectionsUpTo_frame h c node hnode hin i
    (Nat.le_of_lt hilt) (fun j cj hj hr => hothers j cj (by omega) (by omega) hr)
  rw [hreach] at hri
  simp only [Except.ok.injEq] at hri
  subst hri
  obtain ⟨n0, f0, l0, k0⟩ := hfri 0 c (Nat.zero_le _) rfl
  have hbus : (ci.nodes node).mSources[i]? = some (some x) := by
    rw [k0 i (Or.inr (Nat.le_refl _))]; exact hx
  have hki : ci.kind x = XKind.generic := by rw [(f0 x hxlt).1]; exact hgen
  have hchi : (ci.nodes x).mFormat.getNumChannels ≤ 2 := by
    rw [(f0 x hxlt).2.1]; exact hch
  -- every round is in order
  have hadm : ∀ (j : Nat) (cj : ContextXAudio), j < (c.nodes node).mSources.length →
      c.connectionsUpTo h true node j = .ok cj → cj.BusOk h node j := by
    intro j cj hj hr
    by_cases hji : j = i
    · subst hji
      rw [hreach] at hr
      simp only [Except.ok.injEq] at hr
      subst hr
      intro y hy
      rw [hbus] at hy
      simp only [Option.some.injEq] at hy
      subst hy
      exact Or.inr (Or.inr ⟨hdown, hnative, hchi⟩)
    · exact hothers j cj hj hji hr
  -- the round for bus `i`
  obtain ⟨ci1, e1, _, _, hcase⟩ := ContextXAudio.connectInput_ok h ci node i
    (Nat.lt_of_lt_of_le hnode n0)
    (by
      intro y hy
      rw [hbus] at hy
      simp only [Option.some.injEq] at hy
      subst hy
      exact Nat.lt_of_lt_of_le hxlt n0)
    (by rw [l0]; exact hilt) (hadm i ci hilt hreach)
  have hins := (hcase x hbus).2 hki hup
  obtain ⟨ci3, e3, n3, s3, ⟨v1, _, v3, v4, v5, _⟩, _, _⟩ :=
    ContextXAudio.insertSourceVoice_spec ci node x i (Nat.lt_of_lt_of_le hnode n0)
      (Nat.lt_of_lt_of_le hxlt n0) (by rw [l0]; exact hilt) hchi
  rw [hins] at e3
  simp only [Except.ok.injEq] at e3
  subst e3
  have hr1 : c.connectionsUpTo h true node (i + 1) = .ok ci1 := by
    simp only [ContextXAudio.connectionsUpTo, hreach, e1]
  -- the whole loop
  obtain ⟨c1, hrl, hfrl⟩ := ContextXAudio.connectionsUpTo_frame h c node hnode hin
    (c.nodes node).mSources.length (Nat.le_refl _) (fun j cj hj hr => hadm j cj hj hr)
  have hrun : c.connectionsDidChange h true fuel node = .ok c1 := by
    unfold ContextXAudio.connectionsDidChange
    rw [ContextXAudio.connectionsLoop_eq_upTo h c node hnode hin hadm fuel 0 c (Nat.zero_le _)
      rfl (by omega)]
    exact hrl
  obtain ⟨n1, f1, l1, k1⟩ := hfrl (i + 1) ci1 hilt hr1
  obtain ⟨_, _, l2, _⟩ := hfrl 0 c (Nat.zero_le _) rfl
  have hsv : ci.numNodes < ci1.numNodes := by omega
  have hsvnode : ci.numNodes ≠ node := by
    have := Nat.lt_of_lt_of_le hnode n0
    omega
  obtain ⟨a1, a2, a3, a4⟩ := f1 ci.numNodes hsv
  refine ⟨c1, ci.numNodes, hrun, n0, Nat.lt_of_lt_of_le hsv n1, ?_, ?_, ?_, ?_, ?_, l2, ?_, ?_⟩
  · rw [k1 i (Or.inl (Nat.lt_succ_self _)), s3,
      List.getElem?_set_self (by rw [l0]; exact hilt)]
  · rw [a1]; exact v5
  · rw [a2, v3, (f0 x hxlt).2.1]
  · rw [a4 hsvnode]; exact v1
  · rw [a3]; exact v4
  · intro j hj
    have hjlt : j < (c.nodes node).mSources.length := (List.getElem?_eq_some.mp hj).1
    obtain ⟨cj, hrj, hfrj⟩ := ContextXAudio.connectionsUpTo_frame h c node hnode hin j
      (Nat.le_of_lt hjlt) (fun k ck hk hr => hadm k ck (by omega) hr)
    obtain ⟨nj, _, lj, kj⟩ := hfrj 0 c (Nat.zero_le _) rfl
    have hbj : (cj.nodes node).mSources[j]? = some none := by
      rw [kj j (Or.inr (Nat.le_refl _))]; exact hj
    obtain ⟨cj1, ej1, _, hnone, _⟩ := ContextXAudio.connectInput_ok h cj node j
      (Nat.lt_of_lt_of_le hnode nj)
      (by intro y hy; rw [hbj] at hy; cases hy)
      (by rw [lj]; exact hjlt) (hadm j cj hjlt hrj)
    have hcj1 := hnone hbj
    subst hcj1
    have hrj1 : c.connectionsUpTo h true node (j + 1) = .ok cj1 := by
      simp only [ContextXAudio.connectionsUpTo, hrj, ej1]
    rw [(hfrl (j + 1) cj1 hjlt hrj1).2.2.2 j (Or.inl (Nat.lt_succ_self _))]
    exact hbj
  · intro j y cj hj hrj hpass
    have hjlt : j < (c.nodes node).mSources.length := (List.getElem?_eq_some.mp hj).1
    have hylt : y < c.numNodes := hin y (List.getElem?_mem hj)
    obtain ⟨cj2, hrj2, hfrj⟩ := ContextXAudio.connectionsUpTo_frame h c node hnode hin j
      (Nat.le_of_lt hjlt) (fun k ck hk hr => hadm k ck (by omega) hr)
    rw [hrj] at hrj2
    simp only [Except.ok.injEq] at hrj2
    subst hrj2
    obtain ⟨nj, fj, lj, kj⟩ := hfrj 0 c (Nat.zero_le _) rfl
    have hbj : (cj.nodes node).mSources[j]? = some (some y) := by
      rw [kj j (Or.inr (Nat.le_refl _))]; exact hj
    obtain ⟨cj1, ej1, _, _, hc2⟩ := ContextXAudio.connectInput_ok h cj node j
      (Nat.lt_of_lt_of_le hnode nj)
      (by
        intro z hz
        rw [hbj] at hz
        simp only [Option.some.injEq] at hz
        subst hz
        exact Nat.lt_of_lt_of_le hylt nj)
      (by rw [lj]; exact hjlt) (hadm j cj hjlt hrj)
    have hcj1 := (hc2 y hbj).1 (by
      rcases hpass with hp | hp
      · exact Or.inl (by rw [(fj y hylt).1]; exact hp)
      · exact Or.inr hp)
    subst hcj1
    have hrj1 : c.connectionsUpTo h true node (j + 1) = .ok cj1 := by
      simp only [ContextXAudio.connectionsUpTo, hrj, ej1]
    rw [(hfrl (j + 1) cj1 hjlt hrj1).2.2.2 j (Or.inl (Nat.lt_succ_self _))]
    exact hbj

theorem ContextXAudio.connectionsDidChange_inserts_witness :
    (0 : NodeId) < (exXAudio 2).numNodes ∧
    (∀ y : NodeId, some y ∈ ((exXAudio 2).nodes 0).mSources → y < (exXAudio 2).numNodes) ∧
    (∀ (j : Nat) (cj : ContextXAudio), j < ((exXAudio 2).nodes 0).mSources.length → j ≠ 0 →
      (exXAudio 2).connectionsUpTo exHelpers true 0 j = .ok cj → cj.BusOk exHelpers 0 j) ∧
    ((exXAudio 2).nodes 0).mSources[0]? = some (some 1) ∧
    (exXAudio 2).kind 1 = XKind.generic ∧
    ((exXAudio 2).nodes 1).mFormat.getNumChannels ≤ 2 ∧
    ∃ c1 sv, (exXAudio 2).connectionsDidChange exHelpers true 3 0 = .ok c1 ∧
      (exXAudio 2).numNodes ≤ sv ∧ sv < c1.numNodes ∧
      (c1.nodes 0).mSources[0]? = some (some sv) ∧
      c1.kind sv = XKind.sourceVoice ∧
      (c1.nodes sv).mFormat.getNumChannels = ((exXAudio 2).nodes 1).mFormat.getNumChannels ∧
      (c1.nodes sv).mSources = [some 1] ∧
      (c1.nodes sv).mInitialized = true ∧
      (c1.nodes 0).mSources.length = ((exXAudio 2).nodes 0).mSources.length ∧
      (∀ j : Nat, ((exXAudio 2).nodes 0).mSources[j]? = some none →
        (c1.nodes 0).mSources[j]? = some none) ∧
      ∀ (j : Nat) (y : NodeId) (cj : ContextXAudio),
        ((exXAudio 2).nodes 0).mSources[j]? = some (some y) →
        (exXAudio 2).connectionsUpTo exHelpers true 0 j = .ok cj →
        ((exXAudio 2).kind y ≠ XKind.generic ∨
          exHelpers.findUpstreamSourceVoice cj y ≠ none) →
        (c1.nodes 0).mSources[j]? = some (some y) :=
  have hin : ∀ y : NodeId, some y ∈ ((exXAudio 2).nodes 0).mSources →
      y < (exXAudio 2).numNodes := by
    intro y hy
    have hy2 : some y ∈ [some 1, some 2] := hy
    simp only [List.mem_cons, Option.some.injEq, List.mem_singleton, List.not_mem_nil,
      or_false] at hy2
    rcases hy2 with rfl | rfl <;> decide
  have hothers : ∀ (j : Nat) (cj : ContextXAudio),
      j < ((exXAudio 2).nodes 0).mSources.length → j ≠ 0 →
      (exXAudio 2).connectionsUpTo exHelpers true 0 j = .ok cj → cj.BusOk exHelpers 0 j := by
    intro j cj hj hne hr y hy
    have hj2 : j < 2 := hj
    have hj1 : j = 1 := by omega
    subst hj1
    have hr2 : Except.ok _ = Except.ok cj := hr
    injection hr2 with hr3
    subst hr3
    have hy2 : some (some 2) = some (some y) := hy
    simp only [Option.some.injEq] at hy2
    subst hy2
    exact Or.inl (by decide)
  ⟨by decide, hin, hothers, rfl, rfl, by decide,
    ContextXAudio.connectionsDidChange_inserts exHelpers (exXAudio 2) (exXAudio 2) 0 1 0 3
      (by decide) hin (by decide) hothers rfl rfl rfl (by decide) rfl rfl rfl⟩

theorem Node.connect0_mixer (g : Graph) (s d : NodeId) :
    Node.connect0 true g s d = .ok (MixerNode.setSource g d s, d) := by
  simp [Node.connect0, Node.setSourceCall]

theorem MixerNode.setSource_empty_slot0 (g : Graph) (m s : NodeId)
    (h0 : (g m).mSources[0]? = some none) :
    MixerNode.setSource g m s =
      Node.setParent (g.put m { g m with mSources := (g m).mSources.set 0 (some s) }) s m := by
  have hplace : MixerNode.place s (g m).mSources = (g m).mSources.set 0 (some s) := by
    cases hl : (g m).mSources with
    | nil => rw [hl] at h0; simp at h0
    | cons a rest =>
      rw [hl] at h0
      simp only [List.getElem?_cons_zero, Option.some.injEq] at h0
      subst h0
      rfl
  funext x
  unfold MixerNode.setSource
  simp only [Node.setParent_sources, hplace]
  by_cases hx : x = m
  · subst hx
    by_cases hs : x = s
    · subst hs
      simp [Node.setParent, Graph.put]
    · simp [Node.setParent, Graph.put, hs]
  · by_cases hs : x = s
    · subst hs
      simp [Node.setParent, Graph.put, hx]
    · simp [Node.setParent, Graph.put, hx, hs]

/-- C1 (as stated, refuted): node 2 is a `MixerNode` whose one slot holds node 0.  The call
`connect( node 2 )` on node 1 runs `MixerNode::setSource` and appends node 1 as a second slot,
while `connect( node 2, 0 )` runs `Node::setSource` and overwrites slot 0; the two calls do not
give the same result. -/
theorem connect_mixer_counterexample :
    (exGraph 2).mSources = [some 0] ∧
    (∃ g1, Node.connect0 true exGraph 1 2 = .ok (g1, 2) ∧
      (g1 2).mSources = [some 0, some 1] ∧ (g1 1).mParent = some 2) ∧
    (∃ g2, Node.connect exGraph 1 2 0 = .ok (g2, 2) ∧
      (g2 2).mSources = [some 1] ∧ (g2 1).mParent = some 2) ∧
    Node.connect0 true exGraph 1 2 ≠ Node.connect exGraph 1 2 0 := by
  refine ⟨rfl, ⟨_, rfl, rfl, rfl⟩, ⟨_, rfl, rfl, rfl⟩, ?_⟩
  intro h
  have h2 := congrArg
    (fun r : Except Exc (Graph × NodeId) => r.toOption.map fun q => (q.1 2).mSources) h
  revert h2
  decide

/-- C1 (amended): for an existing input bus `b` of `d`, `s.connect(d, b)` returns `d`;
afterwards the source of `d` at bus `b` is `s`, the parent of `s` is `d`, the number of slots of
`d` and every other slot of `d` are unchanged.  `s.connect(d)` is `s.connect(d, 0)` when `d` is
not a `MixerNode`, and also when `d` is a `MixerNode` whose slot 0 is empty; on every
`MixerNode` `d` it returns `d` after `MixerNode::setSource`, with `s` in the first empty slot of
`d` or appended, and the parent of `s` set to `d`. -/
theorem connect_existing_bus (g : Graph) (s d : NodeId) (b : Nat)
    (hb : b < (g d).mSources.length) :
    (∃ g1, Node.connect g s d b = .ok (g1, d) ∧
      (g1 d).mSources[b]? = some (some s) ∧
      (g1 s).mParent = some d ∧
      (g1 d).mSources.length = (g d).mSources.length ∧
      (∀ i, i ≠ b → (g1 d).mSources[i]? = (g d).mSources[i]?)) ∧
    Node.connect0 false g s d = Node.connect g s d 0 ∧
    ((g d).mSources[0]? = some none → Node.connect0 true g s d = Node.connect g s d 0) ∧
    ∃ g1, Node.connect0 true g s d = .ok (g1, d) ∧
      (g1 d).mSources = MixerNode.place s (g d).mSources ∧
      (g1 s).mParent = some d := by
  refine ⟨⟨Node.setParent
      (g.put d { g d with mSources := (g d).mSources.set b (some s) }) s d,
      ?_, ?_, ?_, ?_, ?_⟩, ?_, ?_, ?_⟩
  · simp only [Node.connect, Node.setSource_in_range g d s b hb]
  · rw [Node.setParent_sources, Graph.put_same]
    simp [List.getElem?_set, hb]
  · exact Node.setParent_parent _ _ _
  · rw [Node.setParent_sources, Graph.put_same]
    simp
  · intro i hi
    rw [Node.setParent_sources, Graph.put_same]
    simp [List.getElem?_set, Ne.symm hi]
  · simp [Node.connect0, Node.setSourceCall, Node.setSource0, Node.connect]
  · intro h0
    have hlt : 0 < (g d).mSources.length := (List.getElem?_eq_some.mp h0).1
    rw [Node.connect0_mixer, MixerNode.setSource_empty_slot0 g d s h0]
    simp only [Node.connect, Node.setSource_in_range g d s 0 hlt]
  · exact ⟨_, Node.connect0_mixer g s d, MixerNode.setSource_sources g d s,
      MixerNode.setSource_parent g d s⟩

theorem connect_existing_bus_witness :
    0 < (exGraph 2).mSources.length ∧
    ((∃ g1, Node.connect exGraph 1 2 0 = .ok (g1, 2) ∧
      (g1 2).mSources[0]? = some (some 1) ∧
      (g1 1).mParent = some 2 ∧
      (g1 2).mSources.length = (exGraph 2).mSources.length ∧
      (∀ i, i ≠ 0 → (g1 2).mSources[i]? = (exGraph 2).mSources[i]?)) ∧
    Node.connect0 false exGraph 1 2 = Node.connect exGraph 1 2 0 ∧
    ((exGraph 2).mSources[0]? = some none →
      Node.connect0 true exGraph 1 2 = Node.connect exGraph 1 2 0) ∧
    ∃ g1, Node.connect0 true exGraph 1 2 = .ok (g1, 2) ∧
      (g1 2).mSources = MixerNode.place 1 (exGraph 2).mSources ∧
      (g1 1).mParent = some 2) :=
  ⟨by decide, connect_existing_bus exGraph 1 2 0 (by decide)⟩

/-- C4 (counterexample): node 1 has 1 channel and node 2 has 2 channels, so node 2 does not
support the format of node 1; yet connecting node 1 to node 2 returns node 2 and makes the
connection, on bus 0 when node 2 is not a `MixerNode` and on a new bus when it is one. -/
theorem connect_mismatch_counterexample :
    (exGraph 1).mFormat.getNumChannels = 1 ∧ (exGraph 2).mFormat.getNumChannels = 2 ∧
    Node.supportsSourceFormat exGraph 2 (exGraph 1).mFormat = false ∧
    (∃ g1, Node.connect0 false exGraph 1 2 = .ok (g1, 2) ∧
      (g1 2).mSources[0]? = some (some 1) ∧ (g1 1).mParent = some 2) ∧
    ∃ g1, Node.connect0 true exGraph 1 2 = .ok (g1, 2) ∧
      (g1 2).mSources[1]? = some (some 1) ∧ (g1 1).mParent = some 2 :=
  ⟨rfl, rfl, rfl, ⟨_, rfl, rfl, rfl⟩, _, rfl, rfl, rfl⟩

/-- C4 (amended): when the resolved channel counts of `s` and `d` differ,
`d.supportsSourceFormat(s.format)` is false, but `connect` does not consult it: `s.connect(d)`
returns `d` and makes the connection, the parent of `s` being `d` and `s` holding a slot of `d`.
On a `d` that is not a `MixerNode` and has an input bus 0 that slot is bus 0; on a `MixerNode`
`d` it is the first empty slot, or a new last slot when none is empty. -/
theorem connect_ignores_channel_mismatch (destIsMixer : Bool) (g : Graph) (s d : NodeId)
    (_hs : (g s).mFormat.getNumChannels ≠ 0) (_hd : (g d).mFormat.getNumChannels ≠ 0)
    (hne : (g s).mFormat.getNumChannels ≠ (g d).mFormat.getNumChannels)
    (hbus : destIsMixer = false → 0 < (g d).mSources.length) :
    Node.supportsSourceFormat g d (g s).mFormat = false ∧
    ∃ g1, Node.connect0 destIsMixer g s d = .ok (g1, d) ∧
      (g1 s).mParent = some d ∧ some s ∈ (g1 d).mSources ∧
      (destIsMixer = false → (g1 d).mSources[0]? = some (some s)) ∧
      (destIsMixer = true → (g1 d).mSources = MixerNode.place s (g d).mSources) := by
  refine ⟨by simp [Node.supportsSourceFormat, Ne.symm hne], ?_⟩
  cases destIsMixer with
  | false =>
    have h0 := hbus rfl
    have hslot : (Node.setParent
        (g.put d { g d with mSources := (g d).mSources.set 0 (some s) }) s d d).mSources[0]? =
        some (some s) := by
      rw [Node.setParent_sources, Graph.put_same]
      simp [List.getElem?_set, h0]
    refine ⟨Node.setParent
      (g.put d { g d with mSources := (g d).mSources.set 0 (some s) }) s d, ?_, ?_, ?_, ?_, ?_⟩
    · simp only [Node.connect0, Node.setSourceCall, Node.setSource0,
        Node.setSource_in_range g d s 0 h0]
      rfl
    · exact Node.setParent_parent _ _ _
    · exact List.getElem?_mem hslot
    · intro _; exact hslot
    · intro h; cases h
  | true =>
    refine ⟨_, Node.connect0_mixer g s d, MixerNode.setSource_parent g d s, ?_, ?_, ?_⟩
    · rw [MixerNode.setSource_sources, MixerNode.place_mem]
      exact Or.inl rfl
    · intro h; cases h
    · intro _; exact MixerNode.setSource_sources g d s

theorem connect_ignores_channel_mismatch_witness :
    (exGraph 1).mFormat.getNumChannels ≠ 0 ∧ (exGraph 2).mFormat.getNumChannels ≠ 0 ∧
    (exGraph 1).mFormat.getNumChannels ≠ (exGraph 2).mFormat.getNumChannels ∧
    0 < (exGraph 2).mSources.length ∧
    Node.supportsSourceFormat exGraph 2 (exGraph 1).mFormat = false ∧
    ∃ g1, Node.connect0 false exGraph 1 2 = .ok (g1, 2) ∧
      (g1 1).mParent = some 2 ∧ some 1 ∈ (g1 2).mSources ∧
      (false = false → (g1 2).mSources[0]? = some (some 1)) ∧
      (false = true → (g1 2).mSources = MixerNode.place 1 (exGraph 2).mSources) :=
  ⟨by decide, by decide, by decide, by decide,
    connect_ignores_channel_mismatch false exGraph 1 2 (by decide) (by decide) (by decide)
      (fun _ => by decide)⟩

/-- C17: `getMagSpectrum()` on a clean node returns the cached spectrum and changes nothing; on
a dirty node it windows the analysis buffer (when windowing is on), recomputes the spectrum
from the transform of that buffer (bin `i` is `sqrt( re[i]^2 + im[i]^2 ) / N` with `im[0]`
taken as 0), stores it, hands out what it stored and clears the flag; so after any call the flag
is clear and a second call returns the same spectrum and leaves the node, its analysis buffer
included, as it is.  `process` sets the flag. -/
theorem SpectrumTapNode.getMagSpectrum_lazy {K : Type} [Field K] (cos : K → K) (pi : K)
    (sqrt : K → K) (fft : List K → List K × List K) (node : SpectrumTapNode K)
    (buffer : Buffer K) :
    (node.mBufferIsDirty = false →
      node.getMagSpectrum cos pi sqrt fft = (node, node.mMagSpectrum)) ∧
    (node.mBufferIsDirty = true →
      (node.getMagSpectrum cos pi sqrt fft).1.mBuffer =
        (if node.mApplyWindow then (node.applyWindow cos pi).mBuffer else node.mBuffer) ∧
      (node.getMagSpectrum cos pi sqrt fft).2 =
        (node.getMagSpectrum cos pi sqrt fft).1.mMagSpectrum ∧
      (node.getMagSpectrum cos pi sqrt fft).2.length = node.mMagSpectrum.length ∧
      ∀ i : Nat, i < node.mMagSpectrum.length →
        (node.getMagSpectrum cos pi sqrt fft).2[i]? =
          some (sqrt
            (((fft (node.getMagSpectrum cos pi sqrt fft).1.mBuffer).1).getD i 0 *
              ((fft (node.getMagSpectrum cos pi sqrt fft).1.mBuffer).1).getD i 0 +
            (((fft (node.getMagSpectrum cos pi sqrt fft).1.mBuffer).2).set 0 0).getD i 0 *
              (((fft (node.getMagSpectrum cos pi sqrt fft).1.mBuffer).2).set 0 0).getD i 0) *
            (1.0 / (node.fftSize : K)))) ∧
    (node.getMagSpectrum cos pi sqrt fft).1.mBufferIsDirty = false ∧
    (node.getMagSpectrum cos pi sqrt fft).1.getMagSpectrum cos pi sqrt fft =
      ((node.getMagSpectrum cos pi sqrt fft).1, (node.getMagSpectrum cos pi sqrt fft).2) ∧
    (node.process buffer).mBufferIsDirty = true := by
  have hclean : ∀ n : SpectrumTapNode K, n.mBufferIsDirty = false →
      n.getMagSpectrum cos pi sqrt fft = (n, n.mMagSpectrum) := by
    intro n hn
    simp [SpectrumTapNode.getMagSpectrum, hn]
  have hflag : (node.getMagSpectrum cos pi sqrt fft).1.mBufferIsDirty = false := by
    cases hd : node.mBufferIsDirty with
    | false => rw [hclean node hd]; exact hd
    | true => simp [SpectrumTapNode.getMagSpectrum, hd]
  have hsame : (node.getMagSpectrum cos pi sqrt fft).2 =
      (node.getMagSpectrum cos pi sqrt fft).1.mMagSpectrum := by
    cases hd : node.mBufferIsDirty with
    | false => rw [hclean node hd]
    | true => simp [SpectrumTapNode.getMagSpectrum, hd]
  refine ⟨hclean node, ?_, hflag, ?_, rfl⟩
  · intro hd
    have hbuf : (node.getMagSpectrum cos pi sqrt fft).1.mBuffer =
        (if node.mApplyWindow then (node.applyWindow cos pi).mBuffer else node.mBuffer) := by
      cases hw : node.mApplyWindow <;> simp [SpectrumTapNode.getMagSpectrum, hd, hw]
    refine ⟨hbuf, hsame, ?_, ?_⟩
    · rw [SpectrumTapNode.getMagSpectrum_dirty cos pi sqrt fft node hd, forEachIndex_length]
    · intro i hi
      rw [hbuf, SpectrumTapNode.getMagSpectrum_dirty cos pi sqrt fft node hd,
        forEachIndex_getElem?, if_pos hi, List.getElem?_eq_getElem hi]
      rfl
  · rw [hclean _ hflag, hsame]

theorem SpectrumTapNode.getMagSpectrum_lazy_witness :
    (exDirtyTap ℚ).mBufferIsDirty = true ∧
    (exDirtyTap ℚ).mMagSpectrum = [0, 0] ∧
    ((exDirtyTap ℚ).getMagSpectrum (fun _ => 0) 0 id exFft).2 = [441 / 10000, 0] ∧
    ((exDirtyTap ℚ).getMagSpectrum (fun _ => 0) 0 id exFft).1.mBuffer = [21 / 50, 0, 0, 0] ∧
    ((exDirtyTap ℚ).getMagSpectrum (fun _ => 0) 0 id exFft).1.mBufferIsDirty = false ∧
    ((exDirtyTap ℚ).getMagSpectrum (fun _ => 0) 0 id exFft).1.getMagSpectrum
        (fun _ => 0) 0 id exFft =
      (((exDirtyTap ℚ).getMagSpectrum (fun _ => 0) 0 id exFft).1,
        ((exDirtyTap ℚ).getMagSpectrum (fun _ => 0) 0 id exFft).2) := by
  have h := SpectrumTapNode.getMagSpectrum_lazy (fun _ => (0 : ℚ)) 0 id exFft (exDirtyTap ℚ)
    exStereo
  refine ⟨rfl, ?_, ?_, ?_, h.2.2.1, h.2.2.2.1⟩
  · simp [exDirtyTap, SpectrumTapNode.init, SpectrumTapNode.ctor, resize]
  · simp [SpectrumTapNode.getMagSpectrum, exDirtyTap, SpectrumTapNode.init,
      SpectrumTapNode.ctor, resize, SpectrumTapNode.applyWindow, SpectrumTapNode.window,
      forEachIndex, exFft]
    norm_num
  · simp [SpectrumTapNode.getMagSpectrum, exDirtyTap, SpectrumTapNode.init,
      SpectrumTapNode.ctor, resize, SpectrumTapNode.applyWindow, SpectrumTapNode.window,
      forEachIndex, exFft]
    norm_num

end audio2
